import Mathlib

/-!
# Verification of the `jig/scanner-rust` streaming lexical scanner

This file is a shallow embedding of `src/lib.rs` (a scanner and tokenizer for
UTF-8-encoded text, ported from Go's `text/scanner`), together with proofs of
the specified properties.

Modelling decisions, all faithful to the source:

* Bytes and Unicode scalar values are `Nat`.  The Rust `char` type is a valid
  Unicode scalar value; every place the source calls `char::from_u32(..)` we
  apply the corresponding validity test explicitly.
* The byte source (`src: R` with `Read`) is a `List Nat` of the remaining
  bytes; `read(&mut buf[i..BUF_LEN])` fills `min (BUF_LEN - i) src.length`
  bytes and returns 0 exactly at end of stream — the behaviour of the slice
  and `Cursor` readers used by this repository's own tests and examples.
  A read error is merged with the 0-byte case, as in the source (`Ok(0) | Err(_)`).
* The fixed-size buffer `src_buf: [u8; BUF_LEN + 1]` is a `List Nat` of length
  `BUF_LEN + 1`.
* `Scanner.is_ident_rune` is `None` throughout (the default classifier
  `is_ident_rune_default` is used), as in every claim under verification.
  The Unicode character-property functions `char::is_alphabetic` and
  `char::is_numeric` of the Rust standard library are parameters (`UProps`);
  concrete runs instantiate them with functions that agree with Unicode on
  every scalar appearing in the run.
* `Scanner::error` prints a message and counts; we record the exact message
  strings in an `errors` list next to the `error_count` field.
* `token_text()` returns `String::from_utf8_lossy` of the token bytes;
  strings are modelled as their UTF-8 byte lists, so `tokenText` is
  `utf8Lossy` applied to the raw token bytes.
* Loops are modelled with an explicit fuel parameter (`none` = fuel ran out);
  a separate theorem shows a fuel bound under which every `scan` call
  completes, which is the shallow form of the termination claim.
-/

namespace ScannerRust

set_option maxRecDepth 100000

/-- `const BUF_LEN: usize = 1024;` -/
def BUF_LEN : Nat := 1024

/-- Token type: `pub type Token = i32;` tokens are the negative constants below
or a Unicode scalar value. -/
abbrev Token := Int

def EOF : Token := -1
def IDENT : Token := -2
def INT : Token := -3
def FLOAT : Token := -4
def STRING : Token := -5
def KEYWORD : Token := -6
def RAW_STRING : Token := -7
def COMMENT : Token := -8
def SKIP_COMMENT : Token := -9

/-- `pub const SCAN_IDENTS: u32 = 1 << (-IDENT as u32);` etc. -/
def SCAN_IDENTS : Nat := 2 ^ 2
def SCAN_INTS : Nat := 2 ^ 3
def SCAN_FLOATS : Nat := 2 ^ 4
def SCAN_STRINGS : Nat := 2 ^ 5
def SCAN_KEYWORDS : Nat := 2 ^ 6
def SCAN_RAW_STRINGS : Nat := 2 ^ 7
def SCAN_COMMENTS : Nat := 2 ^ 8
def SKIP_COMMENTS : Nat := 2 ^ 9

/-- `pub const LISP_TOKENS: u32 = SCAN_IDENTS | SCAN_FLOATS | SCAN_STRINGS |
SCAN_KEYWORDS | SCAN_RAW_STRINGS | SCAN_COMMENTS | SKIP_COMMENTS;`
(note: the source does not include `SCAN_INTS` here). -/
def LISP_TOKENS : Nat :=
  SCAN_IDENTS ||| SCAN_FLOATS ||| SCAN_STRINGS ||| SCAN_KEYWORDS |||
  SCAN_RAW_STRINGS ||| SCAN_COMMENTS ||| SKIP_COMMENTS

/-- `pub const LISP_WHITESPACE: u64 = (1 << b'\t') | (1 << b'\n') | (1 << b'\r') | (1 << b' ');` -/
def LISP_WHITESPACE : Nat := (2 ^ 9) ||| (2 ^ 10) ||| (2 ^ 13) ||| (2 ^ 32)

/-- `pub struct Position` (line 29). -/
structure Pos where
  filename : String
  offset : Nat
  line : Nat
  column : Nat
deriving DecidableEq, Repr

/-- `Position::is_valid` (line 38). -/
def Pos.isValid (p : Pos) : Bool := 0 < p.line

/-- The Unicode character-property functions of the Rust standard library that
the default identifier classifier consults (`char::is_alphabetic`,
`char::is_numeric`).  They are parameters of the embedding; theorems either
hold for every instantiation or assume only facts true of Unicode
(e.g. U+FFFF is neither alphabetic nor numeric). -/
structure UProps where
  alpha : Nat → Bool
  numeric : Nat → Bool

/-- `pub struct Scanner` (line 111): buffered window, decoder bookkeeping,
position tracking, token accumulator, 1-scalar lookahead, error counting and
configuration.  `errors` records the diagnostic messages emitted by
`Scanner::error` alongside `error_count`. -/
structure Scanner where
  src : List Nat
  srcBuf : List Nat
  srcPos : Nat
  srcEnd : Nat
  srcBufOffset : Nat
  line : Nat
  column : Nat
  lastLineLen : Nat
  lastCharLen : Nat
  tokBuf : List Nat
  tokPos : Int
  tokEnd : Nat
  ch : Int
  errorCount : Nat
  errors : List String
  mode : Nat
  whitespace : Nat
  position : Pos
deriving DecidableEq, Repr

/-! ## List helpers used to model slice operations on the buffer -/

/-- `buf[i]` with the out-of-range default 0 (never exercised under the
invariant: all accesses are at `≤ src_end < buf.length`). -/
def listGet (l : List Nat) (i : Nat) : Nat := l.getD i 0

/-- The slice `l[a..b]`. -/
def extractL (l : List Nat) (a b : Nat) : List Nat := (l.take b).drop a

/-- Writing `data` into `l` starting at index `i` (the effect of
`Read::read(&mut buf[i..])` filling `data.length` bytes). -/
def writeAt (l : List Nat) (i : Nat) (data : List Nat) : List Nat :=
  l.take i ++ data ++ l.drop (i + data.length)

/-- `buf.copy_within(a..b, 0)`: positions `0..(b-a)` receive `l[a..b]`,
the rest keeps its old contents. -/
def copyWithinToStart (l : List Nat) (a b : Nat) : List Nat :=
  extractL l a b ++ l.drop (b - a)

/-! ## UTF-8 (the validation and decoding behaviour of `std::str::from_utf8`
and `String::from_utf8_lossy`) -/

/-- A UTF-8 continuation byte. -/
def isCont (b : Nat) : Bool := 0x80 ≤ b ∧ b ≤ 0xBF

/-- Allowed second byte of a three-byte sequence headed by `b0`
(the restrictions that exclude overlong encodings and surrogates). -/
def isCont3 (b0 b1 : Nat) : Bool :=
  if b0 = 0xE0 then 0xA0 ≤ b1 ∧ b1 ≤ 0xBF
  else if b0 = 0xED then 0x80 ≤ b1 ∧ b1 ≤ 0x9F
  else isCont b1

/-- Allowed second byte of a four-byte sequence headed by `b0`. -/
def isCont4 (b0 b1 : Nat) : Bool :=
  if b0 = 0xF0 then 0x90 ≤ b1 ∧ b1 ≤ 0xBF
  else if b0 = 0xF4 then 0x80 ≤ b1 ∧ b1 ≤ 0x8F
  else isCont b1

/-- Decode the first scalar of a byte list: `some (scalar, width)`, or `none`
if the list is empty or starts with an ill-formed sequence. -/
def utf8DecodeFirst : List Nat → Option (Nat × Nat)
  | [] => none
  | b0 :: rest =>
    if b0 < 0x80 then some (b0, 1)
    else if 0xC2 ≤ b0 ∧ b0 ≤ 0xDF then
      match rest with
      | b1 :: _ => if isCont b1 then some (((b0 - 0xC0) <<< 6) ||| (b1 - 0x80), 2) else none
      | [] => none
    else if 0xE0 ≤ b0 ∧ b0 ≤ 0xEF then
      match rest with
      | b1 :: b2 :: _ =>
        if isCont3 b0 b1 ∧ isCont b2 then
          some (((b0 - 0xE0) <<< 12) ||| ((b1 - 0x80) <<< 6) ||| (b2 - 0x80), 3)
        else none
      | _ => none
    else if 0xF0 ≤ b0 ∧ b0 ≤ 0xF4 then
      match rest with
      | b1 :: b2 :: b3 :: _ =>
        if isCont4 b0 b1 ∧ isCont b2 ∧ isCont b3 then
          some ((((b0 - 0xF0) <<< 18) ||| ((b1 - 0x80) <<< 12) |||
                 ((b2 - 0x80) <<< 6) ||| (b3 - 0x80)), 4)
        else none
      | _ => none
    else none

theorem utf8DecodeFirst_pos {l : List Nat} {c w : Nat}
    (h : utf8DecodeFirst l = some (c, w)) : 1 ≤ w ∧ w ≤ l.length := by
  rcases l with _ | ⟨b0, _ | ⟨b1, _ | ⟨b2, _ | ⟨b3, r⟩⟩⟩⟩ <;>
    simp only [utf8DecodeFirst] at h <;>
    (try split_ifs at h) <;>
    simp_all <;> omega

/-- Whole-slice validation, as `std::str::from_utf8` performs; the fuel is
structural and any amount above the list length is enough, because every
decoded scalar spans at least one byte. -/
def validUtf8F : Nat → List Nat → Bool
  | 0, _ => false
  | fuel + 1, l =>
    match utf8DecodeFirst l with
    | none => l.isEmpty
    | some (_, w) => validUtf8F fuel (l.drop w)

/-- Whole-slice validation, as `std::str::from_utf8` performs. -/
def validUtf8 (l : List Nat) : Bool := validUtf8F (l.length + 1) l

/-- Length of the maximal subpart of an ill-formed subsequence starting the
list (the number of bytes `String::from_utf8_lossy` replaces by one U+FFFD),
always ≥ 1 on a list whose head does not begin a well-formed sequence. -/
def invalidPrefixLen (l : List Nat) : Nat :=
  match l with
  | [] => 1
  | b0 :: rest =>
    if 0xC2 ≤ b0 ∧ b0 ≤ 0xDF then 1
    else if 0xE0 ≤ b0 ∧ b0 ≤ 0xEF then
      match rest with
      | b1 :: b2 :: _ => if isCont3 b0 b1 then (if isCont b2 then 3 else 2) else 1
      | [b1] => if isCont3 b0 b1 then 2 else 1
      | [] => 1
    else if 0xF0 ≤ b0 ∧ b0 ≤ 0xF4 then
      match rest with
      | b1 :: b2 :: b3 :: _ =>
        if isCont4 b0 b1 then (if isCont b2 then (if isCont b3 then 4 else 3) else 2) else 1
      | [b1, b2] => if isCont4 b0 b1 then (if isCont b2 then 3 else 2) else 1
      | [b1] => if isCont4 b0 b1 then 2 else 1
      | [] => 1
    else 1

theorem invalidPrefixLen_pos (l : List Nat) : 1 ≤ invalidPrefixLen l := by
  rcases l with _ | ⟨b0, _ | ⟨b1, _ | ⟨b2, _ | ⟨b3, r⟩⟩⟩⟩ <;>
    simp only [invalidPrefixLen] <;>
    (try split_ifs) <;> omega

/-- The byte list of `String::from_utf8_lossy`, with structural fuel: any
amount above the list length is enough, because each step consumes at least
one byte (`utf8DecodeFirst_pos`, `invalidPrefixLen_pos`). -/
def utf8LossyF : Nat → List Nat → List Nat
  | 0, _ => []
  | fuel + 1, l =>
    match utf8DecodeFirst l with
    | some (_, w) => l.take w ++ utf8LossyF fuel (l.drop w)
    | none =>
      match l with
      | [] => []
      | b0 :: rest =>
        0xEF :: 0xBF :: 0xBD ::
          utf8LossyF fuel ((b0 :: rest).drop (invalidPrefixLen (b0 :: rest)))

/-- The byte list of `String::from_utf8_lossy`: well-formed sequences are
copied, each maximal ill-formed subpart becomes `EF BF BD` (U+FFFD). -/
def utf8Lossy (l : List Nat) : List Nat := utf8LossyF (l.length + 1) l

/-- UTF-8 encoding of one scalar (used to build test inputs). -/
def utf8Encode (c : Nat) : List Nat :=
  if c < 0x80 then [c]
  else if c < 0x800 then [0xC0 ||| (c >>> 6), 0x80 ||| (c &&& 0x3F)]
  else if c < 0x10000 then
    [0xE0 ||| (c >>> 12), 0x80 ||| ((c >>> 6) &&& 0x3F), 0x80 ||| (c &&& 0x3F)]
  else
    [0xF0 ||| (c >>> 18), 0x80 ||| ((c >>> 12) &&& 0x3F),
     0x80 ||| ((c >>> 6) &&& 0x3F), 0x80 ||| (c &&& 0x3F)]

/-- `char::from_u32` succeeds exactly on non-surrogate scalars `≤ 0x10FFFF`. -/
def validScalar (c : Nat) : Bool := c < 0xD800 ∨ (0xE000 ≤ c ∧ c ≤ 0x10FFFF)

/-- `char::from_u32(c).unwrap_or(REPLACEMENT_CHARACTER)` (line 332). -/
def fromU32orFFFD (c : Nat) : Nat := if validScalar c then c else 0xFFFD

/-- `char::from_u32(c).unwrap_or(EOF_CHAR)` (line 703). -/
def fromU32orFFFF (c : Nat) : Nat := if validScalar c then c else 0xFFFF

/-! ## Error sink -/

def apos : String := String.mk [Char.ofNat 39]

def msgNUL : String := "invalid character NUL"
def msgUTF8 : String := "invalid UTF-8 encoding"
def msgEscape : String := "invalid char escape"
def msgNotTerminated : String := "literal not terminated"
def msgExpNoDigits : String := "exponent has no digits"
def msgHexMantissa : String := "hexadecimal mantissa requires a " ++ apos ++ "p" ++ apos ++ " exponent"
def msgSep : String := apos ++ "_" ++ apos ++ " must separate successive digits"

/-- `litname(prefix)` (line 541). -/
def litname (pfx : Nat) : String :=
  if pfx = 120 then "hexadecimal literal"
  else if pfx = 111 ∨ pfx = 48 then "octal literal"
  else if pfx = 98 then "binary literal"
  else "decimal literal"

def msgNoDigits (pfx : Nat) : String := litname pfx ++ " has no digits"

def msgRadixPoint (pfx : Nat) : String := "invalid radix point in " ++ litname pfx

def msgExpDecMantissa (c : Nat) : String :=
  apos ++ String.mk [Char.ofNat c] ++ apos ++ " exponent requires decimal mantissa"

def msgExpHexMantissa (c : Nat) : String :=
  apos ++ String.mk [Char.ofNat c] ++ apos ++ " exponent requires hexadecimal mantissa"

def msgInvalidDigit (d pfx : Nat) : String :=
  "invalid digit " ++ apos ++ String.mk [Char.ofNat d] ++ apos ++ " in " ++ litname pfx

/-- `Scanner::error` (line 204): clamp `tok_end`, bump the counter, emit the
message. -/
def errorAt (msg : String) (s : Scanner) : Scanner :=
  { s with tokEnd := s.srcPos - s.lastCharLen,
           errorCount := s.errorCount + 1,
           errors := s.errors ++ [msg] }

/-! ## Construction and configuration -/

/-- `Scanner::init` (line 149): fresh state bound to a byte source, with the
sentinel byte 128 placed at buffer slot 0. -/
def initScanner (src : List Nat) : Scanner :=
  { src := src
    srcBuf := 128 :: List.replicate BUF_LEN 0
    srcPos := 0
    srcEnd := 0
    srcBufOffset := 0
    line := 1
    column := 0
    lastLineLen := 0
    lastCharLen := 0
    tokBuf := []
    tokPos := -1
    tokEnd := 0
    ch := -2
    errorCount := 0
    errors := []
    mode := LISP_TOKENS
    whitespace := LISP_WHITESPACE
    position := { filename := "", offset := 0, line := 0, column := 0 } }

/-- `Scanner::set_mode` (line 182). -/
def setMode (m : Nat) (s : Scanner) : Scanner := { s with mode := m }

/-- `Scanner::set_whitespace` (line 187). -/
def setWhitespace (w : Nat) (s : Scanner) : Scanner := { s with whitespace := w }

/-- `Scanner::char_to_token` (line 211). -/
def charToToken (c : Nat) : Token := if c = 0xFFFF then EOF else (c : Int)

/-- `Scanner::is_ident_rune_default` (line 219). -/
def isIdentRuneDefault (P : UProps) (c : Nat) (i : Nat) : Bool :=
  c = 95 || c = 36 || c = 42 || c = 43 || c = 47 || c = 63 || c = 33 ||
  c = 60 || c = 62 || c = 61 || P.alpha c || (c = 45 && decide (0 < i)) ||
  (P.numeric c && decide (0 < i))

/-! ## Reading one scalar: `Scanner::next` (line 243) -/

/-- Lines 327-343: advance the cursor by `width`, record the width, bump the
column, then handle NUL (error) and newline (line/column rollover). -/
def advanceCommon (c width : Nat) (s : Scanner) : Nat × Scanner :=
  let s1 := { s with srcPos := s.srcPos + width, lastCharLen := width,
                     column := s.column + 1 }
  let r := fromU32orFFFD c
  if r = 0 then (r, errorAt msgNUL s1)
  else if r = 10 then
    (r, { s1 with line := s1.line + 1, lastLineLen := s1.column, column := 0 })
  else (r, s1)

/-- The refill loop (lines 251-300), with structural fuel: each iteration
consumes at least one byte of the remaining source, so any fuel above the
source length is enough.  Returns `(state, true)` when the end-of-stream
return at line 290 fires (the caller then produces the EOF scalar),
`(state, false)` when the loop breaks and decoding proceeds. -/
def refillLoopF : Nat → Scanner → Scanner × Bool
  | 0, s => (s, false)
  | fuel + 1, s =>
    if 4 ≤ s.srcEnd - s.srcPos then (s, false)
    else if 0 < s.srcEnd - s.srcPos ∧ validUtf8 (extractL s.srcBuf s.srcPos s.srcEnd) then
      (s, false)
    else
      -- save token text if any (lines 268-271), then move unread bytes to the
      -- beginning and advance the buffer offset (273-275)
      let s2 :=
        { s with
          tokBuf := if 0 ≤ s.tokPos then
              s.tokBuf ++ extractL s.srcBuf s.tokPos.toNat s.srcPos
            else s.tokBuf
          tokPos := if 0 ≤ s.tokPos then 0 else s.tokPos
          srcBuf := copyWithinToStart s.srcBuf s.srcPos s.srcEnd
          srcBufOffset := s.srcBufOffset + s.srcPos }
      let i := s.srcEnd - s.srcPos
      -- read more bytes (279): the source yields `min (BUF_LEN - i) src.length`
      -- bytes, zero exactly at end of stream
      match htaken : s.src.take (BUF_LEN - i) with
      | [] =>
        -- Ok(0) | Err(_): place the sentinel; EOF once all real bytes are gone
        let s3 := { s2 with srcPos := 0, srcEnd := i,
                            srcBuf := s2.srcBuf.set i 128 }
        (s3, s3.srcEnd = 0)
      | b :: bs =>
        let s3 := { s2 with src := s2.src.drop (b :: bs).length,
                            srcPos := 0, srcEnd := i + (b :: bs).length,
                            srcBuf := (writeAt s2.srcBuf i (b :: bs)).set (i + (b :: bs).length) 128 }
        refillLoopF fuel s3

/-- The refill loop (lines 251-300): the fueled loop run with enough fuel. -/
def refillLoop (s : Scanner) : Scanner × Bool := refillLoopF (s.src.length + 1) s

/-- `Scanner::next` (line 243): decode one scalar, refilling as needed. -/
def next (s : Scanner) : Nat × Scanner :=
  if listGet s.srcBuf s.srcPos < 128 then
    -- common case: ASCII, enough bytes
    advanceCommon (listGet s.srcBuf s.srcPos) 1 s
  else
    match refillLoop s with
    | (s1, true) =>
      -- end of stream (lines 285-291)
      (0xFFFF, { s1 with column := if 0 < s1.lastCharLen then s1.column + 1 else s1.column,
                         lastCharLen := 0 })
    | (s1, false) =>
      -- decode UTF-8 (lines 302-324)
      let b := listGet s1.srcBuf s1.srcPos
      if b < 128 then advanceCommon b 1 s1
      else
        let slice := extractL s1.srcBuf s1.srcPos s1.srcEnd
        if validUtf8 slice then
          match utf8DecodeFirst slice with
          | some (c, w) => advanceCommon c w s1
          | none =>
            -- `chars().next()` returned None (empty slice) — lines 310-315
            (0xFFFD, errorAt msgUTF8
              { s1 with srcPos := s1.srcPos + 1, lastCharLen := 1, column := s1.column + 1 })
        else
          -- from_utf8 failed — lines 317-322
          (0xFFFD, errorAt msgUTF8
            { s1 with srcPos := s1.srcPos + 1, lastCharLen := 1, column := s1.column + 1 })

/-! ## Lookahead: `peek` (line 363) and `next_char` (line 347) -/

/-- `Scanner::peek` (line 363): fill the one-scalar lookahead cache if empty;
the very first fill also discards a leading byte-order mark U+FEFF. -/
def peek (s : Scanner) : Token × Scanner :=
  if s.ch = -2 then
    let (c, s1) := next s
    if c = 0xFFFF then (EOF, { s1 with ch := EOF })
    else if c = 0xFEFF then
      let (c2, s2) := next s1
      if c2 = 0xFFFF then (EOF, { s2 with ch := EOF })
      else ((c2 : Int), { s2 with ch := (c2 : Int) })
    else ((c : Int), { s1 with ch := (c : Int) })
  else (s.ch, s)

/-- `Scanner::next_char` (line 347). -/
def nextChar (s : Scanner) : Token × Scanner :=
  let s0 := { s with tokPos := -1, position := { s.position with line := 0 } }
  let (c, s1) := peek s0
  if c ≠ EOF then
    let (n, s2) := next s1
    (c, { s2 with ch := charToToken n })
  else (c, s1)

/-! ## Token text and positions -/

/-- The raw bytes of the most recently scanned token (line 905):
flushed accumulator bytes plus the resident tail of the buffer. -/
def tokenTextBytes (s : Scanner) : List Nat :=
  if s.tokPos < 0 then []
  else
    let tp := s.tokPos.toNat
    let te := if s.tokEnd < tp then tp else s.tokEnd
    s.tokBuf ++ extractL s.srcBuf tp te

/-- `Scanner::token_text` (line 905) as UTF-8 bytes of the returned `String`:
`String::from_utf8_lossy` applied to the raw token bytes. -/
def tokenText (s : Scanner) : List Nat := utf8Lossy (tokenTextBytes s)

/-- `Scanner::pos` (line 882). -/
def posQuery (s : Scanner) : Pos :=
  { filename := s.position.filename
    offset := s.srcBufOffset + s.srcPos - s.lastCharLen
    line := if 0 < s.column then s.line
            else if 0 < s.lastLineLen then s.line - 1 else 1
    column := if 0 < s.column then s.column
              else if 0 < s.lastLineLen then s.lastLineLen else 1 }

/-! ## Character classes used by the number scanner -/

/-- `Scanner::lower` (line 393). -/
def lower (c : Nat) : Nat := if 65 ≤ c ∧ c ≤ 90 then c + 32 else c

/-- `Scanner::is_decimal` (line 401). -/
def isDecimal (c : Nat) : Bool := 48 ≤ c ∧ c ≤ 57

/-- `Scanner::is_hex` (line 405). -/
def isHex (c : Nat) : Bool := isDecimal c ∨ (97 ≤ c ∧ c ≤ 102) ∨ (65 ≤ c ∧ c ≤ 70)

/-- `Scanner::digit_val` (line 594). -/
def digitVal (c : Nat) : Nat :=
  if 48 ≤ c ∧ c ≤ 57 then c - 48
  else if 97 ≤ c ∧ c ≤ 102 then c - 97 + 10
  else if 65 ≤ c ∧ c ≤ 70 then c - 65 + 10
  else 16

/-! ## Sub-scanners.  Each loop carries a fuel argument; `none` means the fuel
ran out (a separate theorem shows a bound under which this never happens). -/

/-- The loop of `Scanner::scan_identifier` (line 386): scan runes at positions
`i = 1, 2, …` while the classifier accepts them. -/
def identLoop (P : UProps) : Nat → Nat → Nat → Scanner → Option (Nat × Scanner)
  | 0, _, _, _ => none
  | fuel + 1, c, i, s =>
    if isIdentRuneDefault P c i then
      let (c2, s2) := next s
      identLoop P fuel c2 (i + 1) s2
    else some (c, s)

/-- `Scanner::scan_identifier` (line 383). -/
def scanIdentifier (P : UProps) (fuel : Nat) (s : Scanner) : Option (Nat × Scanner) :=
  let (c, s1) := next s
  identLoop P fuel c 1 s1

/-- The `base <= 10` loop of `Scanner::digits` (line 414).  Note the port
checks `ch >= max` for every accepted character including the separator `_`
(Go's original guards this check with `else`). -/
def digitsLoop10 : Nat → Nat → Nat → Option Nat → Nat → Scanner →
    Option (Nat × Nat × Option Nat × Scanner)
  | 0, _, _, _, _, _ => none
  | fuel + 1, c, base, inv, digsep, s =>
    if isDecimal c || c = 95 then
      let ds := if c = 95 then 2 else 1
      let inv2 := if 48 + base ≤ c ∧ inv = none then some c else inv
      let (c2, s2) := next s
      digitsLoop10 fuel c2 base inv2 (digsep ||| ds) s2
    else some (c, digsep, inv, s)

/-- The hexadecimal loop of `Scanner::digits` (line 423). -/
def digitsLoopHex : Nat → Nat → Option Nat → Nat → Scanner →
    Option (Nat × Nat × Option Nat × Scanner)
  | 0, _, _, _, _ => none
  | fuel + 1, c, inv, digsep, s =>
    if isHex c || c = 95 then
      let ds := if c = 95 then 2 else 1
      let (c2, s2) := next s
      digitsLoopHex fuel c2 inv (digsep ||| ds) s2
    else some (c, digsep, inv, s)

/-- `Scanner::digits` (line 409): returns `(ch, digsep, invalid, state)`. -/
def digits (fuel : Nat) (c base : Nat) (inv : Option Nat) (s : Scanner) :
    Option (Nat × Nat × Option Nat × Scanner) :=
  if base ≤ 10 then digitsLoop10 fuel c base inv 0 s
  else digitsLoopHex fuel c inv 0 s

/-- The loop of `Scanner::scan_digits` (line 604): consume up to `n` digits of
the given base. -/
def scanDigitsLoop : Nat → Nat → Nat → Nat → Scanner → Option (Nat × Nat × Scanner)
  | 0, _, _, _, _ => none
  | fuel + 1, c, base, n, s =>
    if 0 < n ∧ digitVal c < base then
      let (c2, s2) := next s
      scanDigitsLoop fuel c2 base (n - 1) s2
    else some (c, n, s)

/-- `Scanner::scan_digits` (line 603): error if fewer digits were available
than required. -/
def scanDigits (fuel : Nat) (c base n : Nat) (s : Scanner) : Option (Nat × Scanner) :=
  match scanDigitsLoop fuel c base n s with
  | none => none
  | some (c2, n2, s2) =>
    if 0 < n2 then some (c2, errorAt msgEscape s2) else some (c2, s2)

/-- `Scanner::scan_escape` (line 614).  The source's first arm runs
`ch = self.next()` on both sides of its inner `if`, so it is a single `next`
here. -/
def scanEscape (fuel : Nat) (quote : Nat) (s : Scanner) : Option (Nat × Scanner) :=
  let (c, s1) := next s
  if c = 97 ∨ c = 98 ∨ c = 102 ∨ c = 110 ∨ c = 114 ∨ c = 116 ∨ c = 118 ∨ c = 92 then
    some (next s1)
  else if 48 ≤ c ∧ c ≤ 55 then
    scanDigits fuel c 8 3 s1
  else if c = 120 then
    let (c2, s2) := next s1
    scanDigits fuel c2 16 2 s2
  else if c = 117 then
    let (c2, s2) := next s1
    scanDigits fuel c2 16 4 s2
  else if c = 85 then
    let (c2, s2) := next s1
    scanDigits fuel c2 16 8 s2
  else if c = quote then
    some (next s1)
  else
    some (c, errorAt msgEscape s1)

/-- The loop of `Scanner::scan_string` (line 654): consume scalars until the
closing quote, handling escapes; unterminated at newline or EOF. -/
def stringLoop : Nat → Nat → Nat → Nat → Scanner → Option (Nat × Scanner)
  | 0, _, _, _, _ => none
  | fuel + 1, quote, c, n, s =>
    if c ≠ quote then
      if c = 10 ∨ c = 0xFFFF then some (n, errorAt msgNotTerminated s)
      else if c = 92 then
        match scanEscape fuel quote s with
        | none => none
        | some (c2, s2) => stringLoop fuel quote c2 (n + 1) s2
      else
        let (c2, s2) := next s
        stringLoop fuel quote c2 (n + 1) s2
    else some (n, s)

/-- `Scanner::scan_string` (line 650). -/
def scanString (fuel : Nat) (quote : Nat) (s : Scanner) : Option (Nat × Scanner) :=
  let (c, s1) := next s
  stringLoop fuel quote c 0 s1

/-- The loop of `Scanner::scan_raw_string` (line 670): `¬`-delimited body with
`¬¬` as the doubled-delimiter escape; the unterminated-at-EOF path returns the
scalar 0 as the source's `return '\0'` does. -/
def rawStringLoop : Nat → Nat → Scanner → Option (Nat × Scanner)
  | 0, _, _ => none
  | fuel + 1, c, s =>
    if c ≠ 172 then
      if c = 0xFFFF then some (0, errorAt msgNotTerminated s)
      else
        let (c2, s2) := next s
        rawStringLoop fuel c2 s2
    else
      let (c2, s2) := next s
      if c2 ≠ 172 then some (c2, s2)
      else
        let (c3, s3) := next s2
        rawStringLoop fuel c3 s3

/-- `Scanner::scan_raw_string` (line 669). -/
def scanRawString (fuel : Nat) (s : Scanner) : Option (Nat × Scanner) :=
  let (c, s1) := next s
  rawStringLoop fuel c s1

/-- The loop of `Scanner::scan_comment` (line 689): consume through end of
line or end of stream. -/
def commentLoop : Nat → Nat → Scanner → Option (Nat × Scanner)
  | 0, _, _ => none
  | fuel + 1, c, s =>
    if c ≠ 10 ∧ c ≠ 0xFFFF then
      let (c2, s2) := next s
      commentLoop fuel c2 s2
    else some (c, s)

/-- `Scanner::scan_comment` (line 686). -/
def scanComment (fuel : Nat) (c : Nat) (s : Scanner) : Option (Nat × Scanner) :=
  if c ≠ 10 then
    let (c2, s2) := next s
    commentLoop fuel c2 s2
  else some (c, s)

/-! ## The number sub-scanner `Scanner::scan_number` (line 433), decomposed
into its source blocks. -/

/-- Base/prefix detection at the start of the integer part (lines 443-469):
a leading `0` may introduce `0x`/`0o`/`0b` or a legacy octal, a leading `-`
is skipped.  Returns `(base, prefix, digsep, ch, state)`. -/
def snDetectBase (c0 : Nat) (s : Scanner) : Nat × Nat × Nat × Nat × Scanner :=
  if c0 = 48 then
    let (c, s') := next s
    if lower c = 120 then
      let (c2, s2) := next s'
      (16, 120, 0, c2, s2)
    else if lower c = 111 then
      let (c2, s2) := next s'
      (8, 111, 0, c2, s2)
    else if lower c = 98 then
      let (c2, s2) := next s'
      (2, 98, 0, c2, s2)
    else (8, 48, 1, c, s')
  else if c0 = 45 then
    let (c, s') := next s
    (10, 0, 0, c, s')
  else (10, 0, 0, c0, s)

/-- Integer part (lines 441-479): base/prefix detection, mantissa digits,
optional radix point.  Returns
`(base, prefix, digsep, invalid, seenDot, ch, state)`. -/
def snIntPart (fuel : Nat) (c0 : Nat) (seenDot : Bool) (s : Scanner) :
    Option (Nat × Nat × Nat × Option Nat × Bool × Nat × Scanner) :=
  if seenDot then some (10, 0, 0, none, true, c0, s)
  else
    let (base, pfx, digsep0, c1, s1) := snDetectBase c0 s
    match digits fuel c1 base none s1 with
    | none => none
    | some (c2, ds, inv, s2) =>
      let digsep := digsep0 ||| ds
      if c2 = 46 ∧ s2.mode &&& SCAN_FLOATS ≠ 0 then
        let (c3, s3) := next s2
        some (base, pfx, digsep, inv, true, c3, s3)
      else some (base, pfx, digsep, inv, false, c2, s2)

/-- Fractional part (lines 482-490): on a seen radix point the token becomes
`FLOAT`, octal/binary prefixes are an error, and more digits are read.
Returns `(digsep, invalid, tok, ch, state)`. -/
def snFracPart (fuel : Nat) (base pfx digsep : Nat) (inv : Option Nat)
    (seenDot : Bool) (c : Nat) (s : Scanner) :
    Option (Nat × Option Nat × Token × Nat × Scanner) :=
  if seenDot then
    let s0 := if pfx = 111 ∨ pfx = 98 then errorAt (msgRadixPoint pfx) s else s
    match digits fuel c base inv s0 with
    | none => none
    | some (c2, ds, inv2, s2) => some (digsep ||| ds, inv2, FLOAT, c2, s2)
  else some (digsep, inv, INT, c, s)

/-- The no-digits check (lines 492-498): a mantissa with no real digits is an
error, except that a negative literal degrades to the `'-'` token. -/
def snNoDigits (digsep : Nat) (negative : Bool) (pfx : Nat) (tok : Token)
    (s : Scanner) : Token × Scanner :=
  if digsep &&& 1 = 0 then
    if negative then (45, s)
    else (tok, errorAt (msgNoDigits pfx) s)
  else (tok, s)

/-- Exponent part (lines 501-525).  Returns `(tok, digsep, ch, state)`. -/
def snExponent (fuel : Nat) (pfx : Nat) (tok : Token) (digsep : Nat) (c : Nat)
    (s : Scanner) : Option (Token × Nat × Nat × Scanner) :=
  let e := lower c
  if (e = 101 ∨ e = 112) ∧ s.mode &&& SCAN_FLOATS ≠ 0 then
    let s0 :=
      if e = 101 ∧ pfx ≠ 0 ∧ pfx ≠ 48 then errorAt (msgExpDecMantissa c) s
      else if e = 112 ∧ pfx ≠ 120 then errorAt (msgExpHexMantissa c) s
      else s
    let (c1, s1) := next s0
    let (c2, s2) := if c1 = 43 ∨ c1 = 45 then next s1 else (c1, s1)
    match digits fuel c2 10 none s2 with
    | none => none
    | some (c3, ds, _, s3) =>
      let s4 := if ds &&& 1 = 0 then errorAt msgExpNoDigits s3 else s3
      some (FLOAT, digsep ||| ds, c3, s4)
  else if pfx = 120 ∧ tok = FLOAT then
    some (tok, digsep, c, errorAt msgHexMantissa s)
  else some (tok, digsep, c, s)

/-- The loop of `Scanner::invalid_sep` (line 568), with the running state
`(x1, d, index)` over the remaining bytes. -/
def invalidSepLoop (x1 : Nat) : Nat → List Nat → Nat → Option Nat
  | d, [], i => if d = 95 then some (i - 1) else none
  | d, b :: rest, i =>
    if b = 95 then
      if d ≠ 48 then some i else invalidSepLoop x1 95 rest (i + 1)
    else if isDecimal b || (x1 = 120 && isHex b) then
      invalidSepLoop x1 48 rest (i + 1)
    else
      if d = 95 then some (i - 1) else invalidSepLoop x1 46 rest (i + 1)

/-- `Scanner::invalid_sep` (line 550): first misplaced digit separator. -/
def invalidSep (x : List Nat) : Option Nat :=
  if x = [] then none
  else
    let x1 := if 2 ≤ x.length ∧ x.headD 0 = 48 then lower (x.getD 1 0) else 32
    if x1 = 120 ∨ x1 = 111 ∨ x1 = 98 then invalidSepLoop x1 48 (x.drop 2) 2
    else invalidSepLoop x1 46 x 0

/-- Final checks of `scan_number` (lines 527-536): invalid digit for the base,
then separator placement over the token text scanned so far. -/
def snFinal (tok : Token) (inv : Option Nat) (pfx digsep : Nat) (c : Nat)
    (s : Scanner) : Token × Nat × Scanner :=
  let s1 := if tok = INT ∧ inv.isSome then
      errorAt (msgInvalidDigit (inv.getD 0) pfx) s
    else s
  let s2 := if digsep &&& 2 ≠ 0 then
      let st := { s1 with tokEnd := s1.srcPos - s1.lastCharLen }
      if (invalidSep (tokenText st)).isSome then errorAt msgSep st else st
    else s1
  (tok, c, s2)

/-- `Scanner::scan_number` (line 433): the composition of the blocks above.
Returns `(token, ch, state)`. -/
def scanNumber (fuel : Nat) (c0 : Nat) (seenDot negative : Bool) (s : Scanner) :
    Option (Token × Nat × Scanner) :=
  match snIntPart fuel c0 seenDot s with
  | none => none
  | some (base, pfx, digsep, inv, sd, c1, s1) =>
    match snFracPart fuel base pfx digsep inv sd c1 s1 with
    | none => none
    | some (digsep2, inv2, tok, c2, s2) =>
      let (tok2, s3) := snNoDigits digsep2 negative pfx tok s2
      match snExponent fuel pfx tok2 digsep2 c2 s3 with
      | none => none
      | some (tok3, digsep3, c3, s4) =>
        some (snFinal tok3 inv2 pfx digsep3 c3 s4)

/-! ## `Scanner::scan` (line 697) -/

/-- The whitespace-skipping loop (lines 713-722); `inl` is the early `EOF`
return at line 717 (which leaves the stale lookahead cache untouched). -/
def wsLoop : Nat → Nat → Scanner → Option (Scanner ⊕ (Nat × Scanner))
  | 0, _, _ => none
  | fuel + 1, c, s =>
    if c < 64 ∧ (s.whitespace >>> c) &&& 1 = 1 then
      let (c2, s2) := next s
      if c2 = 0xFFFF then some (Sum.inl s2)
      else wsLoop fuel c2 s2
    else some (Sum.inr (c, s))

/-- Line 875: record the token's end and store the new lookahead. -/
def finishTok (t : Token) (c2 : Nat) (s : Scanner) : Token × Scanner :=
  (t, { s with ch := charToToken c2, tokEnd := s.srcPos - s.lastCharLen })

/-- Line 875 when the source leaves `self.ch` stale (the hyphen dispatch arms
with the mode flag off do not store a new lookahead). -/
def finishTokStale (t : Token) (s : Scanner) : Token × Scanner :=
  (t, { s with tokEnd := s.srcPos - s.lastCharLen })

/-- Lines 724-736: start collecting token text and record the token start
`Position` (mid-line, or end-of-previous-line when the column is 0). -/
def startToken (s : Scanner) : Scanner :=
  let tp := s.srcPos - s.lastCharLen
  { s with
    tokBuf := []
    tokPos := (tp : Int)
    position :=
      if 0 < s.column then
        { filename := s.position.filename, offset := s.srcBufOffset + tp,
          line := s.line, column := s.column }
      else
        { filename := s.position.filename, offset := s.srcBufOffset + tp,
          line := s.line - 1, column := s.lastLineLen } }

/-- The dispatch on the lookahead scalar (lines 738-877), with `redo` the
continuation used by the skip-comments arm (line 820, `return self.scan()`).
Returns the token and the final state (with `tok_end` recorded). -/
def dispatch (P : UProps) (fuel : Nat) (redo : Scanner → Option (Token × Scanner))
    (c : Nat) (s : Scanner) : Option (Token × Scanner) :=
  if isIdentRuneDefault P c 0 then
    if s.mode &&& SCAN_IDENTS ≠ 0 then
      match scanIdentifier P fuel s with
      | none => none
      | some (c2, s2) => some (finishTok IDENT c2 s2)
    else
      let (c2, s2) := next s
      some (finishTok (c : Int) c2 s2)
  else if isDecimal c then
    if s.mode &&& (SCAN_INTS ||| SCAN_FLOATS) ≠ 0 then
      match scanNumber fuel c false false s with
      | none => none
      | some (t, c2, s2) => some (finishTok t c2 s2)
    else
      let (c2, s2) := next s
      some (finishTok (c : Int) c2 s2)
  else if c = 45 then
    -- lines 759-779; note the two arms that fall through without updating
    -- the lookahead cache
    let (c2, s2) := next s
    if isIdentRuneDefault P c2 0 then
      if s2.mode &&& SCAN_IDENTS ≠ 0 then
        match scanIdentifier P fuel s2 with
        | none => none
        | some (c3, s3) => some (finishTok IDENT c3 s3)
      else some (finishTokStale 45 s2)
    else if isDecimal c2 then
      if s2.mode &&& (SCAN_INTS ||| SCAN_FLOATS) ≠ 0 then
        match scanNumber fuel c2 false true s2 with
        | none => none
        | some (t, c3, s3) => some (finishTok t c3 s3)
      else some (finishTokStale 45 s2)
    else
      if s2.mode &&& SCAN_IDENTS ≠ 0 then some (finishTok IDENT c2 s2)
      else some (finishTok 45 c2 s2)
  else if c = 0xFFFF then
    -- line 782: already handled, falls through to line 875
    some (finishTokStale (0xFFFF : Int) s)
  else if c = 34 then
    if s.mode &&& SCAN_STRINGS ≠ 0 then
      match scanString fuel 34 s with
      | none => none
      | some (_, s2) =>
        let (c2, s3) := next s2
        some (finishTok STRING c2 s3)
    else
      let (c2, s2) := next s
      some (finishTok 34 c2 s2)
  else if c = 58 then
    if s.mode &&& SCAN_KEYWORDS ≠ 0 then
      match scanIdentifier P fuel s with
      | none => none
      | some (c2, s2) => some (finishTok KEYWORD c2 s2)
    else
      let (c2, s2) := next s
      some (finishTok 58 c2 s2)
  else if c = 46 then
    let (c2, s2) := next s
    if isDecimal c2 ∧ s2.mode &&& SCAN_FLOATS ≠ 0 then
      match scanNumber fuel c2 true false s2 with
      | none => none
      | some (t, c3, s3) => some (finishTok t c3 s3)
    else some (finishTok 46 c2 s2)
  else if c = 59 then
    let (c2, s2) := next s
    if s2.mode &&& SCAN_COMMENTS ≠ 0 then
      if s2.mode &&& SKIP_COMMENTS ≠ 0 then
        match scanComment fuel c2 { s2 with tokPos := -1 } with
        | none => none
        | some (c3, s3) => redo { s3 with ch := charToToken c3 }
      else
        match scanComment fuel c2 s2 with
        | none => none
        | some (c3, s3) => some (finishTok COMMENT c3 s3)
    else some (finishTok 59 c2 s2)
  else if c = 172 then
    if s.mode &&& SCAN_RAW_STRINGS ≠ 0 then
      match scanRawString fuel s with
      | none => none
      | some (c2, s2) => some (finishTok RAW_STRING c2 s2)
    else
      let (c2, s2) := next s
      some (finishTok 172 c2 s2)
  else if c = 126 then
    let (c2, s2) := next s
    if s2.mode &&& SCAN_IDENTS ≠ 0 then
      if c2 = 64 then
        let (c3, s3) := next s2
        some (finishTok IDENT c3 s3)
      else some (finishTok 126 c2 s2)
    else some (finishTok 126 c2 s2)
  else if c = 35 then
    let (c2, s2) := next s
    if s2.mode &&& SCAN_IDENTS ≠ 0 then
      if c2 = 123 then
        let (c3, s3) := next s2
        some (finishTok IDENT c3 s3)
      else some (finishTok 35 c2 s2)
    else some (finishTok 35 c2 s2)
  else
    let (c2, s2) := next s
    some (finishTok (c : Int) c2 s2)

/-- `Scanner::scan` (line 697), with fuel: EOF checks, whitespace skipping,
token start, dispatch.  The skip-comments redo re-enters `scanFuel` with one
unit of fuel less. -/
def scanFuel (P : UProps) : Nat → Scanner → Option (Token × Scanner)
  | 0, _ => none
  | fuel + 1, s =>
    let (ch0, s0) := peek s
    if ch0 = EOF then some (EOF, s0)
    else
      let c := fromU32orFFFF ch0.toNat
      if c = 0xFFFF then some (EOF, s0)
      else
        let s1 := { s0 with tokPos := -1, position := { s0.position with line := 0 } }
        match wsLoop fuel c s1 with
        | none => none
        | some (Sum.inl s2) => some (EOF, s2)
        | some (Sum.inr (c2, s2)) => dispatch P fuel (scanFuel P fuel) c2 (startToken s2)

/-! ## Derived quantities -/

/-- The number of bytes irrevocably consumed from the stream:
`src_buf_offset + src_pos`. -/
def consumed (s : Scanner) : Nat := s.srcBufOffset + s.srcPos

/-- The absolute offset reported by `pos()`:
`src_buf_offset + src_pos - last_char_len`. -/
def posOff (s : Scanner) : Nat := s.srcBufOffset + s.srcPos - s.lastCharLen

/-- Bytes not yet consumed (still in the stream or buffered unread): the
termination measure of every scanning loop. -/
def msize (s : Scanner) : Nat := s.src.length + (s.srcEnd - s.srcPos)

/-! ## List lemmas for the buffer operations -/

theorem listGet_eq_getElem {l : List Nat} {j : Nat} (h : j < l.length) :
    listGet l j = l[j] := by
  simp [listGet, List.getD_eq_getElem?_getD, List.getElem?_eq_getElem h]

theorem listGet_set_self {l : List Nat} {i v : Nat} (h : i < l.length) :
    listGet (l.set i v) i = v := by
  simp [listGet, List.getD_eq_getElem?_getD, List.getElem?_set_self, h]

theorem listGet_set_ne {l : List Nat} {i j v : Nat} (h : i ≠ j) :
    listGet (l.set i v) j = listGet l j := by
  simp [listGet, List.getD_eq_getElem?_getD, List.getElem?_set_ne h]

theorem length_writeAt {l data : List Nat} {i : Nat} (h : i + data.length ≤ l.length) :
    (writeAt l i data).length = l.length := by
  simp [writeAt]
  omega

theorem listGet_writeAt_lt {l data : List Nat} {i j : Nat} (hj : j < i) (hi : i ≤ l.length) :
    listGet (writeAt l i data) j = listGet l j := by
  have h1 : j < (l.take i).length := by simp [List.length_take]; omega
  simp only [writeAt, listGet, List.getD_eq_getElem?_getD, List.append_assoc]
  rw [List.getElem?_append_left h1]
  simp only [List.getElem?_take]
  rw [if_pos hj]

theorem listGet_writeAt_mid {l data : List Nat} {i j : Nat} (h1 : i ≤ j)
    (h2 : j < i + data.length) (hi : i ≤ l.length) :
    listGet (writeAt l i data) j = listGet data (j - i) := by
  have hlen : (l.take i).length = i := by simp [List.length_take]; omega
  simp only [writeAt, listGet, List.getD_eq_getElem?_getD, List.append_assoc]
  rw [List.getElem?_append_right (by omega), hlen, List.getElem?_append_left (by omega)]

theorem listGet_writeAt_ge {l data : List Nat} {i j : Nat} (h : i + data.length ≤ j)
    (hi : i ≤ l.length) :
    listGet (writeAt l i data) j = listGet l j := by
  have hlen : (l.take i).length = i := by simp [List.length_take]; omega
  simp only [writeAt, listGet, List.getD_eq_getElem?_getD, List.append_assoc]
  rw [List.getElem?_append_right (by omega), hlen]
  rw [List.getElem?_append_right (by omega)]
  simp only [List.getElem?_drop]
  congr 2
  omega

theorem length_copyWithin {l : List Nat} {a b : Nat} (hab : a ≤ b) (hb : b ≤ l.length) :
    (copyWithinToStart l a b).length = l.length := by
  simp [copyWithinToStart, extractL, List.length_drop, List.length_take]
  omega

theorem extractL_length {l : List Nat} {a b : Nat} (hb : b ≤ l.length) :
    (extractL l a b).length = b - a := by
  simp [extractL, List.length_drop, List.length_take]
  omega

theorem extractL_self (l : List Nat) (a : Nat) : extractL l a a = [] := by
  apply List.eq_nil_of_length_eq_zero
  simp [extractL, List.length_drop, List.length_take]

theorem listGet_extractL {l : List Nat} {a b j : Nat} (hj : j < b - a) (hb : b ≤ l.length) :
    listGet (extractL l a b) j = listGet l (a + j) := by
  simp only [extractL, listGet, List.getD_eq_getElem?_getD, List.getElem?_drop,
    List.getElem?_take]
  rw [if_pos (by omega)]

theorem listGet_copyWithin_lt {l : List Nat} {a b j : Nat} (hj : j < b - a)
    (hb : b ≤ l.length) :
    listGet (copyWithinToStart l a b) j = listGet l (a + j) := by
  have hlen : (extractL l a b).length = b - a := extractL_length hb
  simp only [copyWithinToStart, listGet, List.getD_eq_getElem?_getD]
  rw [List.getElem?_append_left (by omega)]
  have := listGet_extractL hj hb
  simpa [listGet, List.getD_eq_getElem?_getD] using this

theorem listGet_copyWithin_ge {l : List Nat} {a b j : Nat} (hj : b - a ≤ j)
    (hb : b ≤ l.length) :
    listGet (copyWithinToStart l a b) j = listGet l j := by
  have hlen : (extractL l a b).length = b - a := extractL_length hb
  simp only [copyWithinToStart, listGet, List.getD_eq_getElem?_getD]
  rw [List.getElem?_append_right (by omega), hlen]
  simp only [List.getElem?_drop]
  congr 2
  omega

/-- Two slices are equal when they have equal extents and agree pointwise. -/
theorem extractL_eq_of_getD {l1 l2 : List Nat} {a1 b1 a2 b2 : Nat}
    (hlen : b1 - a1 = b2 - a2) (hb1 : b1 ≤ l1.length) (hb2 : b2 ≤ l2.length)
    (hpt : ∀ j, j < b1 - a1 → listGet l1 (a1 + j) = listGet l2 (a2 + j)) :
    extractL l1 a1 b1 = extractL l2 a2 b2 := by
  apply List.ext_getElem
  · rw [extractL_length hb1, extractL_length hb2, hlen]
  · intro j hj1 hj2
    rw [extractL_length hb1] at hj1
    rw [extractL_length hb2] at hj2
    rw [← listGet_eq_getElem (by rw [extractL_length hb1]; omega),
        ← listGet_eq_getElem (by rw [extractL_length hb2]; omega),
        listGet_extractL hj1 hb1, listGet_extractL hj2 hb2]
    exact hpt j hj1

theorem extractL_append_extractL {l : List Nat} {a b c : Nat}
    (hab : a ≤ b) (hbc : b ≤ c) (hc : c ≤ l.length) :
    extractL l a b ++ extractL l b c = extractL l a c := by
  have hb : b ≤ l.length := le_trans hbc hc
  apply List.ext_getElem
  · rw [List.length_append, extractL_length hb, extractL_length hc, extractL_length hc]
    omega
  · intro j hj1 hj2
    rw [List.length_append, extractL_length hb, extractL_length hc] at hj1
    rw [extractL_length hc] at hj2
    by_cases hcase : j < b - a
    · rw [List.getElem_append_left (by rw [extractL_length hb]; omega)]
      rw [← listGet_eq_getElem (by rw [extractL_length hb]; omega),
          ← listGet_eq_getElem (by rw [extractL_length hc]; omega),
          listGet_extractL hcase hb, listGet_extractL (by omega) hc]
    · rw [List.getElem_append_right (by rw [extractL_length hb]; omega)]
      rw [← listGet_eq_getElem (by rw [extractL_length hb, extractL_length hc]; omega),
          ← listGet_eq_getElem (by rw [extractL_length hc]; omega),
          extractL_length hb,
          listGet_extractL (by omega) hc, listGet_extractL (by omega) hc]
      congr 1
      omega

theorem listGet_take {l : List Nat} {n j : Nat} (h : j < n) :
    listGet (l.take n) j = listGet l j := by
  simp only [listGet, List.getD_eq_getElem?_getD, List.getElem?_take]
  rw [if_pos h]

theorem listGet_drop (l : List Nat) (n j : Nat) :
    listGet (l.drop n) j = listGet l (n + j) := by
  simp [listGet, List.getD_eq_getElem?_getD, List.getElem?_drop]

/-! ## The scanner invariant

`InvB` is the part that holds at every point, including in the middle of a
refill (where `last_char_len` may still describe a scalar from before the
buffer shift).  `Inv` additionally relates `last_char_len` to the cursor and
is restored after every complete `next`. -/

def InvB (full : List Nat) (s : Scanner) : Prop :=
  s.srcBuf.length = BUF_LEN + 1 ∧
  s.srcEnd ≤ BUF_LEN ∧
  s.srcPos ≤ s.srcEnd ∧
  s.srcBufOffset + s.srcEnd ≤ full.length ∧
  (∀ j, j < s.srcEnd → listGet s.srcBuf j = listGet full (s.srcBufOffset + j)) ∧
  s.src = full.drop (s.srcBufOffset + s.srcEnd) ∧
  listGet s.srcBuf s.srcEnd = 128 ∧
  (0 ≤ s.tokPos →
     s.tokPos.toNat ≤ s.srcPos ∧
     s.position.offset ≤ s.srcBufOffset + s.tokPos.toNat ∧
     s.tokBuf = extractL full s.position.offset (s.srcBufOffset + s.tokPos.toNat))

def Inv (full : List Nat) (s : Scanner) : Prop :=
  InvB full s ∧ s.lastCharLen ≤ s.srcPos ∧
  (0 ≤ s.tokPos → s.tokPos.toNat + s.lastCharLen ≤ s.srcPos)

/-- Messages `Scanner::next` itself can emit. -/
def nextMsg (m : String) : Prop := m = msgNUL ∨ m = msgUTF8

/-- How the observable bookkeeping evolves across operations that only read
scalars: the measure shrinks, consumption and the reported offset grow, the
lookahead cache, configuration and token-start position are untouched, and
the error log only ever receives messages satisfying `E`. -/
def Evolves (E : String → Prop) (s s' : Scanner) : Prop :=
  msize s' ≤ msize s ∧ consumed s ≤ consumed s' ∧ posOff s ≤ posOff s' ∧
  s'.ch = s.ch ∧ s'.mode = s.mode ∧ s'.whitespace = s.whitespace ∧
  s'.position = s.position ∧ (0 ≤ s'.tokPos ↔ 0 ≤ s.tokPos) ∧
  ∃ d, s'.errors = s.errors ++ d ∧ ∀ m ∈ d, E m

theorem evolves_refl {E : String → Prop} (s : Scanner) : Evolves E s s :=
  ⟨le_refl _, le_refl _, le_refl _, Eq.refl _, Eq.refl _, Eq.refl _, Eq.refl _, Iff.rfl,
    [], by simp, by simp⟩

theorem evolves_trans {E : String → Prop} {s1 s2 s3 : Scanner}
    (h1 : Evolves E s1 s2) (h2 : Evolves E s2 s3) : Evolves E s1 s3 := by
  obtain ⟨a1, b1, c1, d1, e1, f1, g1, i1, d, hd, hdm⟩ := h1
  obtain ⟨a2, b2, c2, d2, e2, f2, g2, i2, d', hd', hdm'⟩ := h2
  refine ⟨le_trans a2 a1, le_trans b1 b2, le_trans c1 c2, d2.trans d1, e2.trans e1,
    f2.trans f1, g2.trans g1, i2.trans i1, d ++ d', by rw [hd', hd, List.append_assoc], ?_⟩
  intro m hm
  rcases List.mem_append.mp hm with h | h
  · exact hdm m h
  · exact hdm' m h

theorem Evolves.mono {E F : String → Prop} {s s' : Scanner}
    (h : Evolves E s s') (hEF : ∀ m, E m → F m) : Evolves F s s' := by
  obtain ⟨a, b, c, d, e, f, g, i, dl, hd, hdm⟩ := h
  exact ⟨a, b, c, d, e, f, g, i, dl, hd, fun m hm => hEF m (hdm m hm)⟩

/-- What `refillLoop` guarantees. -/
structure RefillOut (full : List Nat) (s : Scanner) (r : Scanner × Bool) : Prop where
  inv : InvB full r.1
  consumedEq : consumed r.1 = consumed s
  msizeEq : msize r.1 = msize s
  lineEq : r.1.line = s.line
  columnEq : r.1.column = s.column
  lastLineLenEq : r.1.lastLineLen = s.lastLineLen
  lastCharLenEq : r.1.lastCharLen = s.lastCharLen
  chEq : r.1.ch = s.ch
  errorsEq : r.1.errors = s.errors
  errorCountEq : r.1.errorCount = s.errorCount
  modeEq : r.1.mode = s.mode
  whitespaceEq : r.1.whitespace = s.whitespace
  positionEq : r.1.position = s.position
  tokEndEq : r.1.tokEnd = s.tokEnd
  tokSign : 0 ≤ r.1.tokPos ↔ 0 ≤ s.tokPos
  eofCase : r.2 = true → r.1.srcEnd = 0 ∧ r.1.srcPos = 0 ∧ r.1.src = []
  okCase : r.2 = false → r.1.srcPos < r.1.srcEnd

theorem BUF_LEN_ge : 4 ≤ BUF_LEN := by norm_num [BUF_LEN]

/-- The token-flush part of a refill step keeps the accumulator describing
exactly the bytes from the token start to the shifted cursor. -/
theorem flush_tokBuf {full : List Nat} {s : Scanner}
    (hlen : s.srcBuf.length = BUF_LEN + 1) (hend : s.srcEnd ≤ BUF_LEN)
    (hpos : s.srcPos ≤ s.srcEnd) (hfull : s.srcBufOffset + s.srcEnd ≤ full.length)
    (hwin : ∀ j, j < s.srcEnd → listGet s.srcBuf j = listGet full (s.srcBufOffset + j))
    (h0 : 0 ≤ s.tokPos)
    (htp : s.tokPos.toNat ≤ s.srcPos)
    (hoff : s.position.offset ≤ s.srcBufOffset + s.tokPos.toNat)
    (hbuf : s.tokBuf = extractL full s.position.offset (s.srcBufOffset + s.tokPos.toNat)) :
    s.tokBuf ++ extractL s.srcBuf s.tokPos.toNat s.srcPos =
      extractL full s.position.offset (s.srcBufOffset + s.srcPos) := by
  have hb1 : s.srcPos ≤ s.srcBuf.length := by omega
  have hb2 : s.srcBufOffset + s.srcPos ≤ full.length := by omega
  have hmid : extractL s.srcBuf s.tokPos.toNat s.srcPos =
      extractL full (s.srcBufOffset + s.tokPos.toNat) (s.srcBufOffset + s.srcPos) := by
    apply extractL_eq_of_getD (by omega) hb1 hb2
    intro j hj
    rw [hwin (s.tokPos.toNat + j) (by omega)]
    congr 1
    omega
  rw [hbuf, hmid, extractL_append_extractL hoff (by omega) hb2]

theorem refillLoopF_spec (full : List Nat) :
    ∀ fuel s, InvB full s → s.src.length < fuel →
      RefillOut full s (refillLoopF fuel s) := by
  intro fuel
  induction fuel with
  | zero => intro s _ hf; exact absurd hf (by omega)
  | succ f ih =>
  intro s h hf
  obtain ⟨hlen, hend, hpos, hfull, hwin, hsrc, hsent, htok⟩ := h
  have hB4 : 4 ≤ BUF_LEN := BUF_LEN_ge
  rw [refillLoopF]
  split
  · -- 4 ≤ remaining: break at once
    rename_i h4
    exact { inv := ⟨hlen, hend, hpos, hfull, hwin, hsrc, hsent, htok⟩,
            consumedEq := rfl, msizeEq := rfl, lineEq := rfl, columnEq := rfl,
            lastLineLenEq := rfl, lastCharLenEq := rfl, chEq := rfl, errorsEq := rfl,
            errorCountEq := rfl, modeEq := rfl, whitespaceEq := rfl, positionEq := rfl,
            tokEndEq := rfl, tokSign := Iff.rfl,
            eofCase := by simp, okCase := fun _ => by dsimp only; omega }
  · split
    · -- a complete scalar is already buffered: break
      rename_i h4 hv
      exact { inv := ⟨hlen, hend, hpos, hfull, hwin, hsrc, hsent, htok⟩,
              consumedEq := rfl, msizeEq := rfl, lineEq := rfl, columnEq := rfl,
              lastLineLenEq := rfl, lastCharLenEq := rfl, chEq := rfl, errorsEq := rfl,
              errorCountEq := rfl, modeEq := rfl, whitespaceEq := rfl, positionEq := rfl,
              tokEndEq := rfl, tokSign := Iff.rfl,
              eofCase := by simp, okCase := fun _ => by dsimp only; omega }
    · -- flush, shift, read
      rename_i h4 hv
      have hremlt : s.srcEnd - s.srcPos < 4 := by omega
      have hEbuf : s.srcEnd ≤ s.srcBuf.length := by omega
      have hcw : (copyWithinToStart s.srcBuf s.srcPos s.srcEnd).length = BUF_LEN + 1 := by
        rw [length_copyWithin hpos hEbuf, hlen]
      have hwin2 : ∀ j, j < s.srcEnd - s.srcPos →
          listGet (copyWithinToStart s.srcBuf s.srcPos s.srcEnd) j =
            listGet full (s.srcBufOffset + s.srcPos + j) := by
        intro j hj
        rw [listGet_copyWithin_lt hj hEbuf, hwin (s.srcPos + j) (by omega)]
        congr 1
        omega
      -- the (conditionally) flushed accumulator
      have htok2 : 0 ≤ s.tokPos →
          (if 0 ≤ s.tokPos then s.tokBuf ++ extractL s.srcBuf s.tokPos.toNat s.srcPos
           else s.tokBuf) =
            extractL full s.position.offset (s.srcBufOffset + s.srcPos) := by
        intro h0
        obtain ⟨htp, hoff, hbuf⟩ := htok h0
        rw [if_pos h0]
        exact flush_tokBuf hlen hend hpos hfull hwin h0 htp hoff hbuf
      dsimp only
      split
      · -- read returned 0 bytes
        rename_i heq
        have hsrcnil : s.src = [] := by
          rcases List.take_eq_nil_iff.mp heq with h' | h'
          · omega
          · exact h'
        refine { inv := ?_, consumedEq := ?_, msizeEq := ?_, lineEq := rfl, columnEq := rfl,
                 lastLineLenEq := rfl, lastCharLenEq := rfl, chEq := rfl, errorsEq := rfl,
                 errorCountEq := rfl, modeEq := rfl, whitespaceEq := rfl, positionEq := rfl,
                 tokEndEq := rfl, tokSign := ?_, eofCase := ?_, okCase := ?_ }
        · refine ⟨?_, by dsimp; omega, by dsimp; omega, by dsimp; omega, ?_, ?_, ?_, ?_⟩
          · simp only [List.length_set, hcw]
          · -- window
            intro j hj
            dsimp at hj ⊢
            rw [listGet_set_ne (by omega), hwin2 j hj]
          · -- remaining source
            dsimp
            have hdrop : List.drop (s.srcBufOffset + s.srcEnd) full = [] := by
              rw [← hsrc, hsrcnil]
            rw [hsrcnil,
              show s.srcBufOffset + s.srcPos + (s.srcEnd - s.srcPos) =
                s.srcBufOffset + s.srcEnd by omega, hdrop]
          · -- sentinel
            dsimp
            exact listGet_set_self (by rw [hcw]; omega)
          · -- token clause
            intro h0
            dsimp at h0 ⊢
            by_cases hs0 : 0 ≤ s.tokPos
            · simp only [if_pos hs0, Int.toNat_zero, add_zero]
              have hflush := htok2 hs0
              rw [if_pos hs0] at hflush
              obtain ⟨htp, hoff, _⟩ := htok hs0
              exact ⟨by omega, by omega, hflush⟩
            · rw [if_neg hs0] at h0
              exact absurd h0 hs0
        · dsimp [consumed]
        · dsimp [msize]
        · dsimp
          by_cases hs0 : 0 ≤ s.tokPos <;> simp [hs0]
        · intro hb
          simp only [decide_eq_true_eq] at hb
          exact ⟨hb, rfl, hsrcnil⟩
        · intro hb
          simp only [decide_eq_false_iff_not] at hb
          dsimp
          omega
      · -- read returned (b :: bs) bytes: write, place sentinel, loop
        rename_i b bs heq
        have hn := congrArg List.length heq
        simp only [List.length_take, List.length_cons] at hn
        have hn1 : bs.length + 1 ≤ BUF_LEN - (s.srcEnd - s.srcPos) := by omega
        have hn2 : bs.length + 1 ≤ s.src.length := by omega
        set i := s.srcEnd - s.srcPos with hidef
        set n := bs.length + 1 with hndef
        have hin : i + n ≤ BUF_LEN := by omega
        have hwlen : (writeAt (copyWithinToStart s.srcBuf s.srcPos s.srcEnd) i (b :: bs)).length
            = BUF_LEN + 1 := by
          rw [length_writeAt (by rw [hcw]; simp [hndef]; omega), hcw]
        have hinv3 : InvB full
            { s with
              tokBuf := if 0 ≤ s.tokPos then
                  s.tokBuf ++ extractL s.srcBuf s.tokPos.toNat s.srcPos
                else s.tokBuf
              tokPos := if 0 ≤ s.tokPos then 0 else s.tokPos
              srcBuf := ((writeAt (copyWithinToStart s.srcBuf s.srcPos s.srcEnd) i
                  (b :: bs)).set (i + n) 128)
              srcBufOffset := s.srcBufOffset + s.srcPos
              src := s.src.drop n
              srcPos := 0
              srcEnd := i + n } := by
          refine ⟨?_, by dsimp; omega, by dsimp; omega, ?_, ?_, ?_, ?_, ?_⟩
          · simp only [List.length_set, hwlen]
          · dsimp
            rw [hsrc] at hn2
            simp only [List.length_drop] at hn2
            omega
          · -- window
            intro j hj
            dsimp at hj ⊢
            rw [listGet_set_ne (by omega)]
            by_cases hji : j < i
            · rw [listGet_writeAt_lt hji (by rw [hcw]; omega), hwin2 j (by omega)]
            · have hji2 : i ≤ j := by omega
              rw [listGet_writeAt_mid hji2 (by simp [hndef] at hj ⊢; omega) (by rw [hcw]; omega)]
              rw [← heq, listGet_take (by omega), hsrc, listGet_drop]
              congr 1
              omega
          · -- remaining source
            dsimp
            rw [hsrc, List.drop_drop]
            congr 1
            omega
          · -- sentinel
            dsimp
            exact listGet_set_self (by rw [hwlen]; omega)
          · -- token clause
            intro h0
            dsimp at h0 ⊢
            by_cases hs0 : 0 ≤ s.tokPos
            · simp only [if_pos hs0, Int.toNat_zero, add_zero]
              have hflush := htok2 hs0
              rw [if_pos hs0] at hflush
              obtain ⟨htp, hoff, _⟩ := htok hs0
              exact ⟨by omega, by omega, hflush⟩
            · rw [if_neg hs0] at h0
              exact absurd h0 hs0
        have hf3 : ({ s with
            tokBuf := if 0 ≤ s.tokPos then
                s.tokBuf ++ extractL s.srcBuf s.tokPos.toNat s.srcPos
              else s.tokBuf
            tokPos := if 0 ≤ s.tokPos then 0 else s.tokPos
            srcBuf := ((writeAt (copyWithinToStart s.srcBuf s.srcPos s.srcEnd) i
                (b :: bs)).set (i + n) 128)
            srcBufOffset := s.srcBufOffset + s.srcPos
            src := s.src.drop n
            srcPos := 0
            srcEnd := i + n } : Scanner).src.length < f := by
          dsimp only
          simp only [List.length_drop]
          omega
        have ih := ih _ hinv3 hf3
        refine { inv := ih.inv,
                 consumedEq := ih.consumedEq.trans (by dsimp [consumed]),
                 msizeEq := ih.msizeEq.trans ?_,
                 lineEq := ih.lineEq, columnEq := ih.columnEq,
                 lastLineLenEq := ih.lastLineLenEq, lastCharLenEq := ih.lastCharLenEq,
                 chEq := ih.chEq, errorsEq := ih.errorsEq,
                 errorCountEq := ih.errorCountEq, modeEq := ih.modeEq,
                 whitespaceEq := ih.whitespaceEq, positionEq := ih.positionEq,
                 tokEndEq := ih.tokEndEq, tokSign := ih.tokSign.trans ?_,
                 eofCase := ih.eofCase, okCase := ih.okCase }
        · dsimp [msize]
          simp only [List.length_drop]
          omega
        · dsimp
          by_cases hs0 : 0 ≤ s.tokPos <;> simp [hs0]

/-- What `refillLoop` guarantees: the fueled loop at its sufficient fuel. -/
theorem refillLoop_spec (full : List Nat) (s : Scanner) (h : InvB full s) :
    RefillOut full s (refillLoop s) :=
  refillLoopF_spec full (s.src.length + 1) s h (by omega)

/-- What one complete `Scanner::next` guarantees. -/
structure NextOut (full : List Nat) (s : Scanner) (r : Nat × Scanner) : Prop where
  inv : Inv full r.2
  evol : Evolves nextMsg s r.2
  strict : r.1 ≠ 0xFFFF → msize r.2 < msize s

theorem advanceCommon_spec (full : List Nat) (c w : Nat) (s1 : Scanner)
    (hb : InvB full s1) (hw : 1 ≤ w) (h2 : s1.srcPos + w ≤ s1.srcEnd) :
    Inv full (advanceCommon c w s1).2 ∧
    msize (advanceCommon c w s1).2 + w = msize s1 ∧
    consumed (advanceCommon c w s1).2 = consumed s1 + w ∧
    posOff (advanceCommon c w s1).2 = consumed s1 ∧
    (advanceCommon c w s1).2.ch = s1.ch ∧
    (advanceCommon c w s1).2.mode = s1.mode ∧
    (advanceCommon c w s1).2.whitespace = s1.whitespace ∧
    (advanceCommon c w s1).2.position = s1.position ∧
    (advanceCommon c w s1).2.tokPos = s1.tokPos ∧
    (∃ d, (advanceCommon c w s1).2.errors = s1.errors ++ d ∧ ∀ m ∈ d, m = msgNUL) := by
  obtain ⟨hlen, hend, hpos, hfull, hwin, hsrc, hsent, htok⟩ := hb
  unfold advanceCommon errorAt
  dsimp only
  split_ifs with hr0 hr10
  · -- NUL scalar: error
    refine ⟨⟨⟨hlen, hend, by dsimp; omega, hfull, hwin, hsrc, hsent, ?_⟩,
        by dsimp; omega, ?_⟩, by dsimp [msize]; omega, by dsimp [consumed]; omega,
        by dsimp [posOff, consumed]; omega, rfl, rfl, rfl, rfl, rfl,
        [msgNUL], by dsimp, by simp⟩
    · intro h0
      obtain ⟨ha, hb', hc⟩ := htok h0
      exact ⟨by dsimp at h0 ⊢; omega, hb', hc⟩
    · intro h0
      dsimp at h0 ⊢
      have := (htok h0).1
      omega
  · -- newline: roll over line/column
    refine ⟨⟨⟨hlen, hend, by dsimp; omega, hfull, hwin, hsrc, hsent, ?_⟩,
        by dsimp; omega, ?_⟩, by dsimp [msize]; omega, by dsimp [consumed]; omega,
        by dsimp [posOff, consumed]; omega, rfl, rfl, rfl, rfl, rfl,
        [], by simp, by simp⟩
    · intro h0
      obtain ⟨ha, hb', hc⟩ := htok h0
      exact ⟨by dsimp at h0 ⊢; omega, hb', hc⟩
    · intro h0
      dsimp at h0 ⊢
      have := (htok h0).1
      omega
  · -- ordinary scalar
    refine ⟨⟨⟨hlen, hend, by dsimp; omega, hfull, hwin, hsrc, hsent, ?_⟩,
        by dsimp; omega, ?_⟩, by dsimp [msize]; omega, by dsimp [consumed]; omega,
        by dsimp [posOff, consumed]; omega, rfl, rfl, rfl, rfl, rfl,
        [], by simp, by simp⟩
    · intro h0
      obtain ⟨ha, hb', hc⟩ := htok h0
      exact ⟨by dsimp at h0 ⊢; omega, hb', hc⟩
    · intro h0
      dsimp at h0 ⊢
      have := (htok h0).1
      omega

/-- `validUtf8` on a non-empty list means the first scalar decodes. -/
theorem validUtf8_decodeFirst {l : List Nat} (hv : validUtf8 l = true) (hne : l ≠ []) :
    ∃ c w, utf8DecodeFirst l = some (c, w) := by
  rw [validUtf8, validUtf8F] at hv
  split at hv
  · simp [List.isEmpty_iff] at hv
    exact absurd hv hne
  · rename_i c w heq
    exact ⟨c, w, heq⟩

theorem posOff_le_consumed (s : Scanner) : posOff s ≤ consumed s := by
  dsimp [posOff, consumed]
  omega

/-- Advancing by a decoded scalar after a (possibly trivial) refill yields a
complete `next` contract. -/
theorem advance_after_refill (full : List Nat) (s s1 : Scanner) (flag : Bool) (c w : Nat)
    (rs : RefillOut full s (s1, flag)) (hw : 1 ≤ w) (h2 : s1.srcPos + w ≤ s1.srcEnd) :
    NextOut full s (advanceCommon c w s1) := by
  obtain ⟨hi, hm, hc, hp, hch, hmo, hws, hpo, htp, d, hd, hdm⟩ :=
    advanceCommon_spec full c w s1 rs.inv hw h2
  have hm1 : msize s1 = msize s := rs.msizeEq
  have hc1 : consumed s1 = consumed s := rs.consumedEq
  refine { inv := hi, strict := fun _ => by omega, evol := ?_ }
  refine ⟨by omega, by omega, ?_, hch.trans rs.chEq, hmo.trans rs.modeEq,
    hws.trans rs.whitespaceEq, hpo.trans rs.positionEq,
    (by rw [htp] : (0 ≤ (advanceCommon c w s1).2.tokPos ↔ 0 ≤ s1.tokPos)).trans rs.tokSign,
    d, by rw [hd, rs.errorsEq], fun m hm' => Or.inl (hdm m hm')⟩
  · rw [hp, hc1]
    exact posOff_le_consumed s

theorem next_spec (full : List Nat) (s : Scanner) (h : Inv full s) :
    NextOut full s (next s) := by
  obtain ⟨hb, hlcl, htokl⟩ := h
  unfold next
  split
  · -- fast path: ASCII byte below the sentinel
    rename_i hfast
    have hlt : s.srcPos < s.srcEnd := by
      obtain ⟨hlen, hend, hpos, hfull, hwin, hsrc, hsent, htok⟩ := hb
      rcases Nat.lt_or_ge s.srcPos s.srcEnd with h' | h'
      · exact h'
      · have heq : s.srcPos = s.srcEnd := le_antisymm hpos h'
        rw [heq, hsent] at hfast
        omega
    have rs0 : RefillOut full s (s, false) :=
      { inv := hb, consumedEq := rfl, msizeEq := rfl, lineEq := rfl, columnEq := rfl,
        lastLineLenEq := rfl, lastCharLenEq := rfl, chEq := rfl, errorsEq := rfl,
        errorCountEq := rfl, modeEq := rfl, whitespaceEq := rfl, positionEq := rfl,
        tokEndEq := rfl, tokSign := Iff.rfl, eofCase := by simp,
        okCase := fun _ => hlt }
    exact advance_after_refill full s s (false) _ 1 rs0 (le_refl 1) (by omega)
  · -- slow path
    rename_i hslow
    have rs := refillLoop_spec full s hb
    rcases hr : refillLoop s with ⟨s1, flag⟩
    rw [hr] at rs
    cases flag
    · -- decode after refill
      dsimp only
      have hok : s1.srcPos < s1.srcEnd := rs.okCase rfl
      have hinv1 : InvB full s1 := rs.inv
      obtain ⟨hlen1, hend1, hpos1, hfull1, hwin1, hsrc1, hsent1, htok1⟩ := hinv1
      split
    -- ASCII byte
      · exact advance_after_refill full s s1 false _ 1 rs (le_refl 1) (by omega)
      · rename_i hge
        split
        · -- whole remaining slice is valid UTF-8
          rename_i hvalid
          have hslice : (extractL s1.srcBuf s1.srcPos s1.srcEnd).length
              = s1.srcEnd - s1.srcPos := extractL_length (by omega)
          have hne : extractL s1.srcBuf s1.srcPos s1.srcEnd ≠ [] := by
            intro hnil
            rw [hnil] at hslice
            simp at hslice
            omega
          obtain ⟨c, w, hdec⟩ := validUtf8_decodeFirst hvalid hne
          rw [hdec]
          have hwlt := utf8DecodeFirst_pos hdec
          rw [hslice] at hwlt
          exact advance_after_refill full s s1 false c w rs (by omega) (by omega)
        · -- invalid sequence: consume one byte, emit the replacement scalar
          rename_i hvalid
          refine { inv := ?_, evol := ?_, strict := fun _ => ?_ }
          · refine ⟨⟨hlen1, hend1, by dsimp [errorAt]; omega, hfull1, hwin1, hsrc1,
              hsent1, ?_⟩, by dsimp [errorAt]; omega, ?_⟩
            · intro h0
              dsimp [errorAt] at h0 ⊢
              obtain ⟨ha, hb', hc'⟩ := htok1 ((rs.tokSign.mpr ∘ rs.tokSign.mp) h0)
              exact ⟨by omega, hb', hc'⟩
            · intro h0
              dsimp [errorAt] at h0 ⊢
              have := (htok1 h0).1
              omega
          · refine ⟨?_, ?_, ?_, rs.chEq, rs.modeEq, rs.whitespaceEq, rs.positionEq,
              rs.tokSign, [msgUTF8], by dsimp [errorAt]; rw [rs.errorsEq], by simp [nextMsg]⟩
            · have := rs.msizeEq
              dsimp [errorAt, msize] at *
              omega
            · have := rs.consumedEq
              dsimp [errorAt, consumed] at *
              omega
            · have := rs.consumedEq
              have h2 := posOff_le_consumed s
              dsimp [errorAt, posOff, consumed] at *
              omega
          · have := rs.msizeEq
            dsimp [errorAt, msize] at *
            omega
    · -- end of stream
      dsimp only
      have heof : s1.srcEnd = 0 ∧ s1.srcPos = 0 ∧ s1.src = [] := rs.eofCase rfl
      have hinv1 : InvB full s1 := rs.inv
      obtain ⟨hlen1, hend1, hpos1, hfull1, hwin1, hsrc1, hsent1, htok1⟩ := hinv1
      refine { inv := ?_, evol := ?_, strict := fun hne => absurd rfl hne }
      · refine ⟨⟨hlen1, hend1, hpos1, hfull1, hwin1, hsrc1, hsent1, ?_⟩,
          by dsimp; omega, ?_⟩
        · intro h0
          dsimp at h0 ⊢
          exact htok1 h0
        · intro h0
          dsimp at h0 ⊢
          have := (htok1 h0).1
          omega
      · refine ⟨?_, ?_, ?_, rs.chEq, rs.modeEq, rs.whitespaceEq, rs.positionEq,
          rs.tokSign, [], by simpa using rs.errorsEq, by simp⟩
        · have := rs.msizeEq
          dsimp [msize] at *
          omega
        · have := rs.consumedEq
          dsimp [consumed] at *
          omega
        · have := rs.consumedEq
          have h2 := posOff_le_consumed s
          dsimp [posOff, consumed] at *
          omega

/-! ## Message bookkeeping.  `noDigitsMsgs` are the four mantissa
"has no digits" diagnostics; `ndFree` messages are all others. -/

def noDigitsMsgs : List String :=
  ["hexadecimal literal has no digits", "octal literal has no digits",
   "binary literal has no digits", "decimal literal has no digits"]

def ndFree (m : String) : Prop := m ∉ noDigitsMsgs

/-- The number of mantissa no-digits diagnostics in an error log. -/
def countND (l : List String) : Nat := (l.filter (fun m => m ∈ noDigitsMsgs)).length

theorem msgNoDigits_mem (p : Nat) : msgNoDigits p ∈ noDigitsMsgs := by
  unfold msgNoDigits litname noDigitsMsgs
  split_ifs <;> simp

theorem countND_append (l d : List String) :
    countND (l ++ d) = countND l + countND d := by
  simp [countND, List.filter_append]

theorem countND_ndFree {d : List String} (h : ∀ m ∈ d, ndFree m) : countND d = 0 := by
  simp only [countND, List.length_eq_zero]
  rw [List.filter_eq_nil_iff]
  intro m hm
  have := h m hm
  simp [ndFree] at this
  simp [this]

theorem nextMsg_ndFree : ∀ m, nextMsg m → ndFree m := by
  intro m hm
  rcases hm with h | h <;> subst h <;> simp only [ndFree] <;> decide

theorem evolves_countND {E : String → Prop} {s s' : Scanner} (h : Evolves E s s')
    (hE : ∀ m, E m → ndFree m) : countND s'.errors = countND s.errors := by
  obtain ⟨_, _, _, _, _, _, _, _, d, hd, hdm⟩ := h
  rw [hd, countND_append, countND_ndFree (fun m hm => hE m (hdm m hm))]
  omega

/-- Any message is either unaffected or affects `countND` by exactly its
membership. -/
theorem countND_single (m : String) :
    countND [m] = if m ∈ noDigitsMsgs then 1 else 0 := by
  simp only [countND, List.filter]
  split_ifs with h <;> simp_all

/-! ## `errorAt` preserves the invariant and only appends its message. -/

theorem errorAt_inv {full : List Nat} {s : Scanner} (m : String) (h : Inv full s) :
    Inv full (errorAt m s) := by
  obtain ⟨⟨h1, h2, h3, h4, h5, h6, h7, h8⟩, h9, h10⟩ := h
  exact ⟨⟨h1, h2, h3, h4, h5, h6, h7, fun h0 => h8 h0⟩, h9, fun h0 => h10 h0⟩

theorem errorAt_evolves {E : String → Prop} (m : String) (s : Scanner) (hm : E m) :
    Evolves E s (errorAt m s) :=
  ⟨le_refl _, le_refl _, le_refl _, Eq.refl _, Eq.refl _, Eq.refl _, Eq.refl _, Iff.rfl,
    [m], Eq.refl _, by simpa⟩

def anyMsg (_ : String) : Prop := True

/-! ## Master lemmas for the sub-scanner loops: each preserves `Inv`, evolves
the bookkeeping monotonically while appending only non-"has no digits"
diagnostics, and completes within `msize`-bounded fuel. -/

theorem identLoop_spec (P : UProps) (full : List Nat) :
    ∀ fuel c i s r s', Inv full s → identLoop P fuel c i s = some (r, s') →
      Inv full s' ∧ Evolves ndFree s s' := by
  intro fuel
  induction fuel with
  | zero => intro c i s r s' _ h; simp [identLoop] at h
  | succ f ih =>
    intro c i s r s' hInv h
    rw [identLoop] at h
    split at h
    · rcases hn : next s with ⟨c2, s2⟩
      rw [hn] at h
      dsimp only at h
      have ns := next_spec full s hInv
      rw [hn] at ns
      obtain ⟨h1, h2⟩ := ih c2 (i + 1) s2 r s' ns.inv h
      exact ⟨h1, evolves_trans (ns.evol.mono nextMsg_ndFree) h2⟩
    · simp only [Option.some_inj, Prod.mk.injEq] at h
      obtain ⟨hc, hs⟩ := h
      subst hc hs
      exact ⟨hInv, evolves_refl s⟩

theorem identLoop_suff (P : UProps) (full : List Nat)
    (hP : P.alpha 0xFFFF = false ∧ P.numeric 0xFFFF = false) :
    ∀ fuel c i s, Inv full s → msize s + 2 ≤ fuel →
      (identLoop P fuel c i s).isSome := by
  intro fuel
  induction fuel with
  | zero => intro c i s _ hf; omega
  | succ f ih =>
    intro c i s hInv hf
    rw [identLoop]
    split
    · rcases hn : next s with ⟨c2, s2⟩
      dsimp only
      have ns := next_spec full s hInv
      rw [hn] at ns
      by_cases hc2 : c2 = 0xFFFF
      · subst hc2
        -- next iteration rejects the sentinel
        have hg : isIdentRuneDefault P 0xFFFF (i + 1) = false := by
          simp [isIdentRuneDefault, hP.1, hP.2]
        match f, hf with
        | Nat.succ f', _ =>
          rw [identLoop, hg]
          simp
      · have hlt : msize s2 < msize s := ns.strict hc2
        exact ih c2 (i + 1) s2 ns.inv (by omega)
    · simp

theorem digitsLoop10_spec (full : List Nat) :
    ∀ fuel c base inv digsep s r ds inv2 s', Inv full s →
      digitsLoop10 fuel c base inv digsep s = some (r, ds, inv2, s') →
      Inv full s' ∧ Evolves ndFree s s' := by
  intro fuel
  induction fuel with
  | zero => intro c base inv digsep s r ds inv2 s' _ h; simp [digitsLoop10] at h
  | succ f ih =>
    intro c base inv digsep s r ds inv2 s' hInv h
    rw [digitsLoop10] at h
    split at h
    · rcases hn : next s with ⟨c2, s2⟩
      rw [hn] at h
      dsimp only at h
      have ns := next_spec full s hInv
      rw [hn] at ns
      obtain ⟨h1, h2⟩ := ih _ _ _ _ s2 r ds inv2 s' ns.inv h
      exact ⟨h1, evolves_trans (ns.evol.mono nextMsg_ndFree) h2⟩
    · simp only [Option.some_inj, Prod.mk.injEq] at h
      obtain ⟨hc, hds, hinv, hs⟩ := h
      subst hc hds hinv hs
      exact ⟨hInv, evolves_refl s⟩

theorem digitsLoop10_suff (full : List Nat) :
    ∀ fuel c base inv digsep s, Inv full s → msize s + 2 ≤ fuel →
      (digitsLoop10 fuel c base inv digsep s).isSome := by
  intro fuel
  induction fuel with
  | zero => intro c base inv digsep s _ hf; omega
  | succ f ih =>
    intro c base inv digsep s hInv hf
    rw [digitsLoop10]
    split
    · rcases hn : next s with ⟨c2, s2⟩
      dsimp only
      have ns := next_spec full s hInv
      rw [hn] at ns
      by_cases hc2 : c2 = 0xFFFF
      · subst hc2
        match f, hf with
        | Nat.succ f', _ =>
          rw [digitsLoop10]
          have : ¬(isDecimal 0xFFFF || (0xFFFF : Nat) = 95) = true := by decide
          rw [if_neg this]
          simp
      · have hlt : msize s2 < msize s := ns.strict hc2
        exact ih c2 base _ _ s2 ns.inv (by omega)
    · simp

theorem digitsLoopHex_spec (full : List Nat) :
    ∀ fuel c inv digsep s r ds inv2 s', Inv full s →
      digitsLoopHex fuel c inv digsep s = some (r, ds, inv2, s') →
      Inv full s' ∧ Evolves ndFree s s' := by
  intro fuel
  induction fuel with
  | zero => intro c inv digsep s r ds inv2 s' _ h; simp [digitsLoopHex] at h
  | succ f ih =>
    intro c inv digsep s r ds inv2 s' hInv h
    rw [digitsLoopHex] at h
    split at h
    · rcases hn : next s with ⟨c2, s2⟩
      rw [hn] at h
      dsimp only at h
      have ns := next_spec full s hInv
      rw [hn] at ns
      obtain ⟨h1, h2⟩ := ih _ _ _ s2 r ds inv2 s' ns.inv h
      exact ⟨h1, evolves_trans (ns.evol.mono nextMsg_ndFree) h2⟩
    · simp only [Option.some_inj, Prod.mk.injEq] at h
      obtain ⟨hc, hds, hinv, hs⟩ := h
      subst hc hds hinv hs
      exact ⟨hInv, evolves_refl s⟩

theorem digitsLoopHex_suff (full : List Nat) :
    ∀ fuel c inv digsep s, Inv full s → msize s + 2 ≤ fuel →
      (digitsLoopHex fuel c inv digsep s).isSome := by
  intro fuel
  induction fuel with
  | zero => intro c inv digsep s _ hf; omega
  | succ f ih =>
    intro c inv digsep s hInv hf
    rw [digitsLoopHex]
    split
    · rcases hn : next s with ⟨c2, s2⟩
      dsimp only
      have ns := next_spec full s hInv
      rw [hn] at ns
      by_cases hc2 : c2 = 0xFFFF
      · subst hc2
        match f, hf with
        | Nat.succ f', _ =>
          rw [digitsLoopHex]
          have : ¬(isHex 0xFFFF || (0xFFFF : Nat) = 95) = true := by decide
          rw [if_neg this]
          simp
      · have hlt : msize s2 < msize s := ns.strict hc2
        exact ih c2 _ _ s2 ns.inv (by omega)
    · simp

theorem digits_spec (full : List Nat) {fuel c base : Nat} {inv : Option Nat} {s : Scanner}
    {r ds : Nat} {inv2 : Option Nat} {s' : Scanner} (hInv : Inv full s)
    (h : digits fuel c base inv s = some (r, ds, inv2, s')) :
    Inv full s' ∧ Evolves ndFree s s' := by
  unfold digits at h
  split at h
  · exact digitsLoop10_spec full fuel c base inv 0 s r ds inv2 s' hInv h
  · exact digitsLoopHex_spec full fuel c inv 0 s r ds inv2 s' hInv h

theorem digits_suff (full : List Nat) (fuel c base : Nat) (inv : Option Nat) {s : Scanner}
    (hInv : Inv full s) (hf : msize s + 2 ≤ fuel) : (digits fuel c base inv s).isSome := by
  unfold digits
  split
  · exact digitsLoop10_suff full fuel c base inv 0 s hInv hf
  · exact digitsLoopHex_suff full fuel c inv 0 s hInv hf

theorem msgEscape_ndFree : ndFree msgEscape := by simp only [ndFree]; decide

theorem msgNotTerminated_ndFree : ndFree msgNotTerminated := by simp only [ndFree]; decide

theorem scanIdentifier_spec (P : UProps) (full : List Nat) {fuel : Nat} {s : Scanner}
    {r : Nat} {s' : Scanner} (hInv : Inv full s)
    (h : scanIdentifier P fuel s = some (r, s')) :
    Inv full s' ∧ Evolves ndFree s s' := by
  unfold scanIdentifier at h
  rcases hn : next s with ⟨c, s1⟩
  rw [hn] at h
  dsimp only at h
  have ns := next_spec full s hInv
  rw [hn] at ns
  obtain ⟨h1, h2⟩ := identLoop_spec P full fuel c 1 s1 r s' ns.inv h
  exact ⟨h1, evolves_trans (ns.evol.mono nextMsg_ndFree) h2⟩

theorem scanIdentifier_suff (P : UProps) (full : List Nat) (fuel : Nat) {s : Scanner}
    (hP : P.alpha 0xFFFF = false ∧ P.numeric 0xFFFF = false)
    (hInv : Inv full s) (hf : msize s + 2 ≤ fuel) :
    (scanIdentifier P fuel s).isSome := by
  unfold scanIdentifier
  rcases hn : next s with ⟨c, s1⟩
  dsimp only
  have ns := next_spec full s hInv
  rw [hn] at ns
  have hle : msize s1 ≤ msize s := ns.evol.1
  exact identLoop_suff P full hP fuel c 1 s1 ns.inv (by omega)

theorem scanDigitsLoop_spec (full : List Nat) :
    ∀ fuel c base n s r n2 s', Inv full s →
      scanDigitsLoop fuel c base n s = some (r, n2, s') →
      Inv full s' ∧ Evolves ndFree s s' := by
  intro fuel
  induction fuel with
  | zero => intro c base n s r n2 s' _ h; simp [scanDigitsLoop] at h
  | succ f ih =>
    intro c base n s r n2 s' hInv h
    rw [scanDigitsLoop] at h
    split at h
    · rcases hn : next s with ⟨c2, s2⟩
      rw [hn] at h
      dsimp only at h
      have ns := next_spec full s hInv
      rw [hn] at ns
      obtain ⟨h1, h2⟩ := ih _ _ _ s2 r n2 s' ns.inv h
      exact ⟨h1, evolves_trans (ns.evol.mono nextMsg_ndFree) h2⟩
    · simp only [Option.some_inj, Prod.mk.injEq] at h
      obtain ⟨hc, hn2, hs⟩ := h
      subst hc hn2 hs
      exact ⟨hInv, evolves_refl s⟩

theorem scanDigitsLoop_suff (full : List Nat) :
    ∀ fuel c base n s, base ≤ 16 → Inv full s → msize s + 2 ≤ fuel →
      (scanDigitsLoop fuel c base n s).isSome := by
  intro fuel
  induction fuel with
  | zero => intro c base n s _ _ hf; omega
  | succ f ih =>
    intro c base n s hbase hInv hf
    rw [scanDigitsLoop]
    split
    · rcases hn : next s with ⟨c2, s2⟩
      dsimp only
      have ns := next_spec full s hInv
      rw [hn] at ns
      by_cases hc2 : c2 = 0xFFFF
      · subst hc2
        match f, hf with
        | Nat.succ f', _ =>
          rw [scanDigitsLoop]
          have hdv : digitVal 0xFFFF = 16 := by decide
          have : ¬(0 < n - 1 ∧ digitVal 0xFFFF < base) := by
            rw [hdv]; omega
          rw [if_neg this]
          simp
      · have hlt : msize s2 < msize s := ns.strict hc2
        exact ih c2 base _ s2 hbase ns.inv (by omega)
    · simp

theorem scanDigits_spec (full : List Nat) {fuel c base n : Nat} {s : Scanner}
    {r : Nat} {s' : Scanner} (hInv : Inv full s)
    (h : scanDigits fuel c base n s = some (r, s')) :
    Inv full s' ∧ Evolves ndFree s s' := by
  unfold scanDigits at h
  rcases hl : scanDigitsLoop fuel c base n s with _ | ⟨c2, n2, s2⟩
  · rw [hl] at h; simp at h
  · rw [hl] at h
    obtain ⟨h1, h2⟩ := scanDigitsLoop_spec full fuel c base n s c2 n2 s2 hInv hl
    dsimp only at h
    split_ifs at h with hn2 <;> simp only [Option.some_inj, Prod.mk.injEq] at h <;>
      obtain ⟨hc, hs⟩ := h <;> subst hc <;> subst hs
    · exact ⟨errorAt_inv msgEscape h1,
        evolves_trans h2 (errorAt_evolves msgEscape s2 msgEscape_ndFree)⟩
    · exact ⟨h1, h2⟩

theorem scanDigits_suff (full : List Nat) {fuel c base n : Nat} {s : Scanner}
    (hbase : base ≤ 16) (hInv : Inv full s) (hf : msize s + 2 ≤ fuel) :
    (scanDigits fuel c base n s).isSome := by
  unfold scanDigits
  rcases hl : scanDigitsLoop fuel c base n s with _ | ⟨c2, n2, s2⟩
  · have := scanDigitsLoop_suff full fuel c base n s hbase hInv hf
    rw [hl] at this
    simp at this
  · dsimp only
    split_ifs <;> simp

/-- `scan_escape` master lemma: invariant, evolution, and the fact that a
stalled escape (no byte consumed) can only return the EOF sentinel. -/
theorem scanEscape_spec (full : List Nat) {fuel quote : Nat} {s : Scanner}
    {r : Nat} {s' : Scanner} (hq : quote ≠ 0xFFFF) (hInv : Inv full s)
    (h : scanEscape fuel quote s = some (r, s')) :
    Inv full s' ∧ Evolves ndFree s s' ∧ (msize s' = msize s → r = 0xFFFF) := by
  unfold scanEscape at h
  rcases hn : next s with ⟨c, s1⟩
  rw [hn] at h
  dsimp only at h
  have ns := next_spec full s hInv
  rw [hn] at ns
  have nsi : Inv full s1 := ns.inv
  have hle : msize s1 ≤ msize s := ns.evol.1
  split_ifs at h with h1 h2 h3 h4 h5 h6
  · -- short escapes: one more next
    rcases hn2 : next s1 with ⟨c2, s2⟩
    rw [hn2] at h
    simp only [Option.some_inj, Prod.mk.injEq] at h
    obtain ⟨hc, hs⟩ := h
    subst hc hs
    have ns2 := next_spec full s1 nsi
    rw [hn2] at ns2
    have nsi2 : Inv full s2 := ns2.inv
    have hcne : c ≠ 0xFFFF := by omega
    have hlt : msize s1 < msize s := ns.strict hcne
    have hle2 : msize s2 ≤ msize s1 := ns2.evol.1
    exact ⟨nsi2, evolves_trans (ns.evol.mono nextMsg_ndFree)
      (ns2.evol.mono nextMsg_ndFree), fun he => by omega⟩
  · -- octal digits
    have hcne : c ≠ 0xFFFF := by omega
    have hlt : msize s1 < msize s := ns.strict hcne
    obtain ⟨ha, hb⟩ := scanDigits_spec full nsi h
    exact ⟨ha, evolves_trans (ns.evol.mono nextMsg_ndFree) hb,
      fun he => absurd he (by have := hb.1; omega)⟩
  · -- \xHH
    rcases hn2 : next s1 with ⟨c2, s2⟩
    rw [hn2] at h
    dsimp only at h
    have ns2 := next_spec full s1 nsi
    rw [hn2] at ns2
    have nsi2 : Inv full s2 := ns2.inv
    have hlt : msize s1 < msize s := ns.strict (by omega)
    obtain ⟨ha, hb⟩ := scanDigits_spec full nsi2 h
    refine ⟨ha, evolves_trans (ns.evol.mono nextMsg_ndFree)
      (evolves_trans (ns2.evol.mono nextMsg_ndFree) hb), fun he => absurd he ?_⟩
    have h9 : msize s' ≤ msize s2 := hb.1
    have h8 : msize s2 ≤ msize s1 := ns2.evol.1
    omega
  · -- \uHHHH
    rcases hn2 : next s1 with ⟨c2, s2⟩
    rw [hn2] at h
    dsimp only at h
    have ns2 := next_spec full s1 nsi
    rw [hn2] at ns2
    have nsi2 : Inv full s2 := ns2.inv
    have hlt : msize s1 < msize s := ns.strict (by omega)
    obtain ⟨ha, hb⟩ := scanDigits_spec full nsi2 h
    refine ⟨ha, evolves_trans (ns.evol.mono nextMsg_ndFree)
      (evolves_trans (ns2.evol.mono nextMsg_ndFree) hb), fun he => absurd he ?_⟩
    have h9 : msize s' ≤ msize s2 := hb.1
    have h8 : msize s2 ≤ msize s1 := ns2.evol.1
    omega
  · -- \UHHHHHHHH
    rcases hn2 : next s1 with ⟨c2, s2⟩
    rw [hn2] at h
    dsimp only at h
    have ns2 := next_spec full s1 nsi
    rw [hn2] at ns2
    have nsi2 : Inv full s2 := ns2.inv
    have hlt : msize s1 < msize s := ns.strict (by omega)
    obtain ⟨ha, hb⟩ := scanDigits_spec full nsi2 h
    refine ⟨ha, evolves_trans (ns.evol.mono nextMsg_ndFree)
      (evolves_trans (ns2.evol.mono nextMsg_ndFree) hb), fun he => absurd he ?_⟩
    have h9 : msize s' ≤ msize s2 := hb.1
    have h8 : msize s2 ≤ msize s1 := ns2.evol.1
    omega
  · -- the quote itself
    rcases hn2 : next s1 with ⟨c2, s2⟩
    rw [hn2] at h
    simp only [Option.some_inj, Prod.mk.injEq] at h
    obtain ⟨hc, hs⟩ := h
    subst hc hs
    have ns2 := next_spec full s1 nsi
    rw [hn2] at ns2
    have nsi2 : Inv full s2 := ns2.inv
    have hlt : msize s1 < msize s := ns.strict (by rw [h6]; exact hq)
    have hle2 : msize s2 ≤ msize s1 := ns2.evol.1
    exact ⟨nsi2, evolves_trans (ns.evol.mono nextMsg_ndFree)
      (ns2.evol.mono nextMsg_ndFree), fun he => by omega⟩
  · -- invalid escape introducer: error, character kept
    simp only [Option.some_inj, Prod.mk.injEq] at h
    obtain ⟨hc, hs⟩ := h
    subst hc hs
    refine ⟨errorAt_inv msgEscape nsi,
      evolves_trans (ns.evol.mono nextMsg_ndFree)
        (errorAt_evolves msgEscape s1 msgEscape_ndFree), fun he => ?_⟩
    by_contra hrne
    have h9 : msize s1 < msize s := ns.strict hrne
    have h8 : msize (errorAt msgEscape s1) = msize s1 := rfl
    omega

theorem scanEscape_suff (full : List Nat) (fuel quote : Nat) {s : Scanner}
    (hInv : Inv full s) (hf : msize s + 2 ≤ fuel) :
    (scanEscape fuel quote s).isSome := by
  unfold scanEscape
  rcases hn : next s with ⟨c, s1⟩
  dsimp only
  have ns := next_spec full s hInv
  rw [hn] at ns
  have nsi : Inv full s1 := ns.inv
  have hle : msize s1 ≤ msize s := ns.evol.1
  split_ifs
  · rcases next s1 with ⟨c2, s2⟩; simp
  · exact scanDigits_suff full (by omega) nsi (by omega)
  · rcases hn2 : next s1 with ⟨c2, s2⟩
    dsimp only
    have ns2 := next_spec full s1 nsi
    rw [hn2] at ns2
    have nsi2 : Inv full s2 := ns2.inv
    have : msize s2 ≤ msize s1 := ns2.evol.1
    exact scanDigits_suff full (by omega) nsi2 (by omega)
  · rcases hn2 : next s1 with ⟨c2, s2⟩
    dsimp only
    have ns2 := next_spec full s1 nsi
    rw [hn2] at ns2
    have nsi2 : Inv full s2 := ns2.inv
    have : msize s2 ≤ msize s1 := ns2.evol.1
    exact scanDigits_suff full (by omega) nsi2 (by omega)
  · rcases hn2 : next s1 with ⟨c2, s2⟩
    dsimp only
    have ns2 := next_spec full s1 nsi
    rw [hn2] at ns2
    have nsi2 : Inv full s2 := ns2.inv
    have : msize s2 ≤ msize s1 := ns2.evol.1
    exact scanDigits_suff full (by omega) nsi2 (by omega)
  · rcases next s1 with ⟨c2, s2⟩; simp
  · simp

theorem commentLoop_spec (full : List Nat) :
    ∀ fuel c s r s', Inv full s → commentLoop fuel c s = some (r, s') →
      Inv full s' ∧ Evolves ndFree s s' ∧
      (r ≠ 0xFFFF → msize s' < msize s ∨ (r = c ∧ s' = s)) := by
  intro fuel
  induction fuel with
  | zero => intro c s r s' _ h; simp [commentLoop] at h
  | succ f ih =>
    intro c s r s' hInv h
    rw [commentLoop] at h
    split at h
    · rcases hn : next s with ⟨c2, s2⟩
      rw [hn] at h
      dsimp only at h
      have ns := next_spec full s hInv
      rw [hn] at ns
      have nsi : Inv full s2 := ns.inv
      have hle : msize s2 ≤ msize s := ns.evol.1
      obtain ⟨h1, h2, h3⟩ := ih c2 s2 r s' nsi h
      refine ⟨h1, evolves_trans (ns.evol.mono nextMsg_ndFree) h2, fun hr => ?_⟩
      rcases h3 hr with hlt | ⟨hrc, hss⟩
      · exact Or.inl (by omega)
      · rw [hss]
        have hst : msize s2 < msize s := ns.strict (hrc ▸ hr)
        exact Or.inl (by omega)
    · simp only [Option.some_inj, Prod.mk.injEq] at h
      obtain ⟨hc, hs⟩ := h
      subst hc hs
      exact ⟨hInv, evolves_refl s, fun _ => Or.inr ⟨rfl, rfl⟩⟩

theorem commentLoop_suff (full : List Nat) :
    ∀ fuel c s, Inv full s → msize s + 2 ≤ fuel → (commentLoop fuel c s).isSome := by
  intro fuel
  induction fuel with
  | zero => intro c s _ hf; omega
  | succ f ih =>
    intro c s hInv hf
    rw [commentLoop]
    split
    · rcases hn : next s with ⟨c2, s2⟩
      dsimp only
      have ns := next_spec full s hInv
      rw [hn] at ns
      have nsi : Inv full s2 := ns.inv
      by_cases hc2 : c2 = 0xFFFF
      · subst hc2
        match f, hf with
        | Nat.succ f', _ =>
          rw [commentLoop]
          have : ¬((0xFFFF : Nat) ≠ 10 ∧ (0xFFFF : Nat) ≠ 0xFFFF) := by simp
          rw [if_neg this]
          simp
      · have hlt : msize s2 < msize s := ns.strict hc2
        exact ih c2 s2 nsi (by omega)
    · simp

theorem scanComment_spec (full : List Nat) {fuel c : Nat} {s : Scanner} {r : Nat}
    {s' : Scanner} (hInv : Inv full s) (h : scanComment fuel c s = some (r, s')) :
    Inv full s' ∧ Evolves ndFree s s' ∧
    (r ≠ 0xFFFF → msize s' < msize s ∨ (r = c ∧ s' = s)) := by
  unfold scanComment at h
  split_ifs at h with h10
  · rcases hn : next s with ⟨c2, s2⟩
    rw [hn] at h
    dsimp only at h
    have ns := next_spec full s hInv
    rw [hn] at ns
    have nsi : Inv full s2 := ns.inv
    have hle : msize s2 ≤ msize s := ns.evol.1
    obtain ⟨h1, h2, h3⟩ := commentLoop_spec full fuel c2 s2 r s' nsi h
    refine ⟨h1, evolves_trans (ns.evol.mono nextMsg_ndFree) h2, fun hr => ?_⟩
    rcases h3 hr with hlt | ⟨hrc, hss⟩
    · exact Or.inl (by omega)
    · rw [hss]
      have hst : msize s2 < msize s := ns.strict (hrc ▸ hr)
      exact Or.inl (by omega)
  · simp only [Option.some_inj, Prod.mk.injEq] at h
    obtain ⟨hc, hs⟩ := h
    subst hc hs
    exact ⟨hInv, evolves_refl s, fun _ => Or.inr ⟨rfl, rfl⟩⟩

theorem scanComment_suff (full : List Nat) (fuel c : Nat) {s : Scanner}
    (hInv : Inv full s) (hf : msize s + 2 ≤ fuel) : (scanComment fuel c s).isSome := by
  unfold scanComment
  split_ifs
  · rcases hn : next s with ⟨c2, s2⟩
    dsimp only
    have ns := next_spec full s hInv
    rw [hn] at ns
    have nsi : Inv full s2 := ns.inv
    have hle : msize s2 ≤ msize s := ns.evol.1
    exact commentLoop_suff full fuel c2 s2 nsi (by omega)
  · simp

theorem stringLoop_spec (full : List Nat) (hq : (34 : Nat) ≠ 0xFFFF) :
    ∀ fuel c n s r s', Inv full s → stringLoop fuel 34 c n s = some (r, s') →
      Inv full s' ∧ Evolves ndFree s s' := by
  intro fuel
  induction fuel with
  | zero => intro c n s r s' _ h; simp [stringLoop] at h
  | succ f ih =>
    intro c n s r s' hInv h
    rw [stringLoop] at h
    split at h
    · split_ifs at h with hterm hesc
      · -- newline or EOF: unterminated
        simp only [Option.some_inj, Prod.mk.injEq] at h
        obtain ⟨hc, hs⟩ := h
        subst hc hs
        exact ⟨errorAt_inv msgNotTerminated hInv,
          errorAt_evolves msgNotTerminated s msgNotTerminated_ndFree⟩
      · -- escape
        rcases he : scanEscape f 34 s with _ | ⟨c2, s2⟩
        · rw [he] at h; simp at h
        · rw [he] at h
          dsimp only at h
          obtain ⟨h1, h2, _⟩ := scanEscape_spec full hq hInv he
          obtain ⟨h3, h4⟩ := ih c2 (n + 1) s2 r s' h1 h
          exact ⟨h3, evolves_trans h2 h4⟩
      · -- ordinary scalar
        rcases hn : next s with ⟨c2, s2⟩
        rw [hn] at h
        dsimp only at h
        have ns := next_spec full s hInv
        rw [hn] at ns
        have nsi : Inv full s2 := ns.inv
        obtain ⟨h3, h4⟩ := ih c2 (n + 1) s2 r s' nsi h
        exact ⟨h3, evolves_trans (ns.evol.mono nextMsg_ndFree) h4⟩
    · simp only [Option.some_inj, Prod.mk.injEq] at h
      obtain ⟨hc, hs⟩ := h
      subst hc hs
      exact ⟨hInv, evolves_refl s⟩

theorem stringLoop_suff (full : List Nat) :
    ∀ fuel c n s, Inv full s → msize s + 3 ≤ fuel →
      (stringLoop fuel 34 c n s).isSome := by
  intro fuel
  induction fuel with
  | zero => intro c n s _ hf; omega
  | succ f ih =>
    intro c n s hInv hf
    rw [stringLoop]
    split
    · split_ifs with hterm hesc
      · simp
      · rcases he : scanEscape f 34 s with _ | ⟨c2, s2⟩
        · have := scanEscape_suff full f 34 hInv (by omega)
          rw [he] at this
          simp at this
        · dsimp only
          obtain ⟨h1, h2, h3⟩ := scanEscape_spec full (by omega) hInv he
          by_cases heq : msize s2 = msize s
          · have hc2 : c2 = 0xFFFF := h3 heq
            subst hc2
            match f, hf with
            | Nat.succ f', _ =>
              rw [stringLoop]
              rw [if_pos (by omega), if_pos (by simp)]
              simp
          · have hlt : msize s2 < msize s := lt_of_le_of_ne h2.1 heq
            exact ih c2 (n + 1) s2 h1 (by omega)
      · rcases hn : next s with ⟨c2, s2⟩
        dsimp only
        have ns := next_spec full s hInv
        rw [hn] at ns
        have nsi : Inv full s2 := ns.inv
        by_cases hc2 : c2 = 0xFFFF
        · subst hc2
          match f, hf with
          | Nat.succ f', _ =>
            rw [stringLoop]
            rw [if_pos (by omega), if_pos (by simp)]
            simp
        · have hlt : msize s2 < msize s := ns.strict hc2
          exact ih c2 (n + 1) s2 nsi (by omega)
    · simp

theorem scanString_spec (full : List Nat) {fuel : Nat} {s : Scanner} {r : Nat}
    {s' : Scanner} (hInv : Inv full s) (h : scanString fuel 34 s = some (r, s')) :
    Inv full s' ∧ Evolves ndFree s s' := by
  unfold scanString at h
  rcases hn : next s with ⟨c, s1⟩
  rw [hn] at h
  dsimp only at h
  have ns := next_spec full s hInv
  rw [hn] at ns
  have nsi : Inv full s1 := ns.inv
  obtain ⟨h1, h2⟩ := stringLoop_spec full (by omega) fuel c 0 s1 r s' nsi h
  exact ⟨h1, evolves_trans (ns.evol.mono nextMsg_ndFree) h2⟩

theorem scanString_suff (full : List Nat) (fuel : Nat) {s : Scanner}
    (hInv : Inv full s) (hf : msize s + 3 ≤ fuel) : (scanString fuel 34 s).isSome := by
  unfold scanString
  rcases hn : next s with ⟨c, s1⟩
  dsimp only
  have ns := next_spec full s hInv
  rw [hn] at ns
  have nsi : Inv full s1 := ns.inv
  have hle : msize s1 ≤ msize s := ns.evol.1
  exact stringLoop_suff full fuel c 0 s1 nsi (by omega)

theorem rawStringLoop_spec (full : List Nat) :
    ∀ fuel c s r s', Inv full s → rawStringLoop fuel c s = some (r, s') →
      Inv full s' ∧ Evolves ndFree s s' := by
  intro fuel
  induction fuel with
  | zero => intro c s r s' _ h; simp [rawStringLoop] at h
  | succ f ih =>
    intro c s r s' hInv h
    rw [rawStringLoop] at h
    split_ifs at h with h172 hFFFF
    · -- unterminated
      simp only [Option.some_inj, Prod.mk.injEq] at h
      obtain ⟨hc, hs⟩ := h
      subst hc hs
      exact ⟨errorAt_inv msgNotTerminated hInv,
        errorAt_evolves msgNotTerminated s msgNotTerminated_ndFree⟩
    · -- body scalar
      rcases hn : next s with ⟨c2, s2⟩
      rw [hn] at h
      dsimp only at h
      have ns := next_spec full s hInv
      rw [hn] at ns
      have nsi : Inv full s2 := ns.inv
      obtain ⟨h1, h2⟩ := ih c2 s2 r s' nsi h
      exact ⟨h1, evolves_trans (ns.evol.mono nextMsg_ndFree) h2⟩
    · -- closing delimiter: peek at the next scalar
      rcases hn : next s with ⟨c2, s2⟩
      rw [hn] at h
      dsimp only at h
      have ns := next_spec full s hInv
      rw [hn] at ns
      have nsi : Inv full s2 := ns.inv
      split_ifs at h with hdouble
      · simp only [Option.some_inj, Prod.mk.injEq] at h
        obtain ⟨hc, hs⟩ := h
        subst hc hs
        exact ⟨nsi, ns.evol.mono nextMsg_ndFree⟩
      · rcases hn2 : next s2 with ⟨c3, s3⟩
        rw [hn2] at h
        dsimp only at h
        have ns2 := next_spec full s2 nsi
        rw [hn2] at ns2
        have nsi2 : Inv full s3 := ns2.inv
        obtain ⟨h1, h2⟩ := ih c3 s3 r s' nsi2 h
        exact ⟨h1, evolves_trans (ns.evol.mono nextMsg_ndFree)
          (evolves_trans (ns2.evol.mono nextMsg_ndFree) h2)⟩

theorem rawStringLoop_suff (full : List Nat) :
    ∀ fuel c s, Inv full s → msize s + 2 ≤ fuel → (rawStringLoop fuel c s).isSome := by
  intro fuel
  induction fuel with
  | zero => intro c s _ hf; omega
  | succ f ih =>
    intro c s hInv hf
    rw [rawStringLoop]
    split_ifs with h172 hFFFF
    · simp
    · rcases hn : next s with ⟨c2, s2⟩
      dsimp only
      have ns := next_spec full s hInv
      rw [hn] at ns
      have nsi : Inv full s2 := ns.inv
      by_cases hc2 : c2 = 0xFFFF
      · subst hc2
        match f, hf with
        | Nat.succ f', _ =>
          rw [rawStringLoop]
          rw [if_pos (by omega), if_pos (by omega)]
          simp
      · have hlt : msize s2 < msize s := ns.strict hc2
        exact ih c2 s2 nsi (by omega)
    · rcases hn : next s with ⟨c2, s2⟩
      dsimp only
      have ns := next_spec full s hInv
      rw [hn] at ns
      have nsi : Inv full s2 := ns.inv
      split_ifs with hdouble
      · simp
      · rcases hn2 : next s2 with ⟨c3, s3⟩
        dsimp only
        have ns2 := next_spec full s2 nsi
        rw [hn2] at ns2
        have nsi2 : Inv full s3 := ns2.inv
        have hlt : msize s2 < msize s := ns.strict (by simp at hdouble; omega)
        have hle : msize s3 ≤ msize s2 := ns2.evol.1
        exact ih c3 s3 nsi2 (by omega)

theorem scanRawString_spec (full : List Nat) {fuel : Nat} {s : Scanner} {r : Nat}
    {s' : Scanner} (hInv : Inv full s) (h : scanRawString fuel s = some (r, s')) :
    Inv full s' ∧ Evolves ndFree s s' := by
  unfold scanRawString at h
  rcases hn : next s with ⟨c, s1⟩
  rw [hn] at h
  dsimp only at h
  have ns := next_spec full s hInv
  rw [hn] at ns
  have nsi : Inv full s1 := ns.inv
  obtain ⟨h1, h2⟩ := rawStringLoop_spec full fuel c s1 r s' nsi h
  exact ⟨h1, evolves_trans (ns.evol.mono nextMsg_ndFree) h2⟩

theorem scanRawString_suff (full : List Nat) (fuel : Nat) {s : Scanner}
    (hInv : Inv full s) (hf : msize s + 2 ≤ fuel) : (scanRawString fuel s).isSome := by
  unfold scanRawString
  rcases hn : next s with ⟨c, s1⟩
  dsimp only
  have ns := next_spec full s hInv
  rw [hn] at ns
  have nsi : Inv full s1 := ns.inv
  have hle : msize s1 ≤ msize s := ns.evol.1
  exact rawStringLoop_suff full fuel c s1 nsi (by omega)

theorem wsLoop_spec (full : List Nat) :
    ∀ fuel c s r, Inv full s → wsLoop fuel c s = some r →
      (∀ s', r = Sum.inl s' → Inv full s' ∧ Evolves ndFree s s') ∧
      (∀ c' s', r = Sum.inr (c', s') → Inv full s' ∧ Evolves ndFree s s' ∧
        (c ≠ 0xFFFF → c' ≠ 0xFFFF)) := by
  intro fuel
  induction fuel with
  | zero => intro c s r _ h; simp [wsLoop] at h
  | succ f ih =>
    intro c s r hInv h
    rw [wsLoop] at h
    split at h
    · rcases hn : next s with ⟨c2, s2⟩
      rw [hn] at h
      dsimp only at h
      have ns := next_spec full s hInv
      rw [hn] at ns
      have nsi : Inv full s2 := ns.inv
      split_ifs at h with hFFFF
      · simp only [Option.some_inj] at h
        subst h
        constructor
        · intro s' hs'
          simp only [Sum.inl.injEq] at hs'
          subst hs'
          exact ⟨nsi, ns.evol.mono nextMsg_ndFree⟩
        · intro c' s' hs'
          simp at hs'
      · obtain ⟨hl, hr⟩ := ih c2 s2 r nsi h
        constructor
        · intro s' hs'
          obtain ⟨a, b⟩ := hl s' hs'
          exact ⟨a, evolves_trans (ns.evol.mono nextMsg_ndFree) b⟩
        · intro c' s' hs'
          obtain ⟨a, b, hcc⟩ := hr c' s' hs'
          exact ⟨a, evolves_trans (ns.evol.mono nextMsg_ndFree) b,
            fun _ => hcc hFFFF⟩
    · simp only [Option.some_inj] at h
      subst h
      constructor
      · intro s' hs'
        simp at hs'
      · intro c' s' hs'
        simp only [Sum.inr.injEq, Prod.mk.injEq] at hs'
        obtain ⟨hc, hs⟩ := hs'
        subst hc hs
        exact ⟨hInv, evolves_refl s, fun hcc => hcc⟩

theorem wsLoop_suff (full : List Nat) :
    ∀ fuel c s, Inv full s → msize s + 2 ≤ fuel → (wsLoop fuel c s).isSome := by
  intro fuel
  induction fuel with
  | zero => intro c s _ hf; omega
  | succ f ih =>
    intro c s hInv hf
    rw [wsLoop]
    split
    · rcases hn : next s with ⟨c2, s2⟩
      dsimp only
      have ns := next_spec full s hInv
      rw [hn] at ns
      have nsi : Inv full s2 := ns.inv
      split_ifs with hFFFF
      · simp
      · have hlt : msize s2 < msize s := ns.strict hFFFF
        exact ih c2 s2 nsi (by omega)
    · simp

/-! ## The remaining diagnostics are all distinct from the four mantissa
no-digits messages (by their lengths where a character is interpolated). -/

theorem msgExpNoDigits_ndFree : ndFree msgExpNoDigits := by simp only [ndFree]; decide

theorem msgHexMantissa_ndFree : ndFree msgHexMantissa := by simp only [ndFree]; decide

theorem msgSep_ndFree : ndFree msgSep := by simp only [ndFree]; decide

theorem msgRadixPoint_ndFree (p : Nat) : ndFree (msgRadixPoint p) := by
  simp only [ndFree, msgRadixPoint, litname]
  split_ifs <;> decide

theorem msgExpDecMantissa_len (c : Nat) : (msgExpDecMantissa c).length = 38 := by
  unfold msgExpDecMantissa
  rw [String.length_append, String.length_append, String.length_append]
  have h1 : apos.length = 1 := rfl
  have h2 : (String.mk [Char.ofNat c]).length = 1 := rfl
  have h3 : (" exponent requires decimal mantissa" : String).length = 35 := by decide
  omega

theorem msgExpHexMantissa_len (c : Nat) : (msgExpHexMantissa c).length = 42 := by
  unfold msgExpHexMantissa
  rw [String.length_append, String.length_append, String.length_append]
  have h1 : apos.length = 1 := rfl
  have h2 : (String.mk [Char.ofNat c]).length = 1 := rfl
  have h3 : (" exponent requires hexadecimal mantissa" : String).length = 39 := by decide
  omega

theorem litname_len (p : Nat) :
    (litname p).length = 19 ∨ (litname p).length = 13 ∨ (litname p).length = 14 ∨
      (litname p).length = 15 := by
  unfold litname
  split_ifs
  · left; decide
  · right; left; decide
  · right; right; left; decide
  · right; right; right; decide

theorem msgInvalidDigit_len (d p : Nat) :
    (msgInvalidDigit d p).length = 21 + (litname p).length := by
  unfold msgInvalidDigit
  rw [String.length_append, String.length_append, String.length_append,
    String.length_append, String.length_append]
  have h1 : apos.length = 1 := rfl
  have h2 : (String.mk [Char.ofNat d]).length = 1 := rfl
  have h3 : ("invalid digit " : String).length = 14 := by decide
  have h4 : (" in " : String).length = 4 := by decide
  omega

theorem msgExpDecMantissa_ndFree (c : Nat) : ndFree (msgExpDecMantissa c) := by
  intro hm
  simp only [noDigitsMsgs, List.mem_cons, List.not_mem_nil, or_false] at hm
  rcases hm with h | h | h | h <;>
  · have h2 := congrArg String.length h
    rw [msgExpDecMantissa_len] at h2
    revert h2
    decide

theorem msgExpHexMantissa_ndFree (c : Nat) : ndFree (msgExpHexMantissa c) := by
  intro hm
  simp only [noDigitsMsgs, List.mem_cons, List.not_mem_nil, or_false] at hm
  rcases hm with h | h | h | h <;>
  · have h2 := congrArg String.length h
    rw [msgExpHexMantissa_len] at h2
    revert h2
    decide

theorem msgInvalidDigit_ndFree (d p : Nat) : ndFree (msgInvalidDigit d p) := by
  intro hm
  simp only [noDigitsMsgs, List.mem_cons, List.not_mem_nil, or_false] at hm
  have hlit := litname_len p
  rcases hm with h | h | h | h <;>
  · have h2 := congrArg String.length h
    rw [msgInvalidDigit_len] at h2
    rcases hlit with hl | hl | hl | hl <;> rw [hl] at h2 <;> revert h2 <;> decide

/-! ## The number sub-scanner master lemmas. -/

theorem snDetectBase_spec (full : List Nat) {c0 : Nat} {s : Scanner}
    {base pfx ds0 c1 : Nat} {s1 : Scanner} (hInv : Inv full s)
    (h : snDetectBase c0 s = (base, pfx, ds0, c1, s1)) :
    Inv full s1 ∧ Evolves ndFree s s1 ∧
      (pfx = 0 ∨ pfx = 48 ∨ pfx = 111 ∨ pfx = 98 ∨ pfx = 120) := by
  unfold snDetectBase at h
  split_ifs at h with h48 h45
  · rcases hn : next s with ⟨c, s'⟩
    rw [hn] at h
    dsimp only at h
    have ns := next_spec full s hInv
    rw [hn] at ns
    have nsi : Inv full s' := ns.inv
    split_ifs at h with hx ho hb <;>
      [rcases hn2 : next s' with ⟨c2, s2⟩;
       rcases hn2 : next s' with ⟨c2, s2⟩;
       rcases hn2 : next s' with ⟨c2, s2⟩;
       skip]
    · rw [hn2] at h
      simp only [Prod.mk.injEq] at h
      obtain ⟨_, hp, _, hc, hs⟩ := h
      subst hp hc hs
      have ns2 := next_spec full s' nsi
      rw [hn2] at ns2
      have nsi2 : Inv full s2 := ns2.inv
      exact ⟨nsi2, evolves_trans (ns.evol.mono nextMsg_ndFree)
        (ns2.evol.mono nextMsg_ndFree), by omega⟩
    · rw [hn2] at h
      simp only [Prod.mk.injEq] at h
      obtain ⟨_, hp, _, hc, hs⟩ := h
      subst hp hc hs
      have ns2 := next_spec full s' nsi
      rw [hn2] at ns2
      have nsi2 : Inv full s2 := ns2.inv
      exact ⟨nsi2, evolves_trans (ns.evol.mono nextMsg_ndFree)
        (ns2.evol.mono nextMsg_ndFree), by omega⟩
    · rw [hn2] at h
      simp only [Prod.mk.injEq] at h
      obtain ⟨_, hp, _, hc, hs⟩ := h
      subst hp hc hs
      have ns2 := next_spec full s' nsi
      rw [hn2] at ns2
      have nsi2 : Inv full s2 := ns2.inv
      exact ⟨nsi2, evolves_trans (ns.evol.mono nextMsg_ndFree)
        (ns2.evol.mono nextMsg_ndFree), by omega⟩
    · simp only [Prod.mk.injEq] at h
      obtain ⟨_, hp, _, hc, hs⟩ := h
      subst hp hc hs
      exact ⟨nsi, ns.evol.mono nextMsg_ndFree, by omega⟩
  · rcases hn : next s with ⟨c, s'⟩
    rw [hn] at h
    simp only [Prod.mk.injEq] at h
    obtain ⟨_, hp, _, hc, hs⟩ := h
    subst hp hc hs
    have ns := next_spec full s hInv
    rw [hn] at ns
    have nsi : Inv full s' := ns.inv
    exact ⟨nsi, ns.evol.mono nextMsg_ndFree, by omega⟩
  · simp only [Prod.mk.injEq] at h
    obtain ⟨_, hp, _, hc, hs⟩ := h
    subst hp hc hs
    exact ⟨hInv, evolves_refl s, by omega⟩

theorem snIntPart_spec (full : List Nat) {fuel c0 : Nat} {sd : Bool} {s : Scanner}
    {base pfx ds : Nat} {inv : Option Nat} {sd2 : Bool} {c1 : Nat} {s1 : Scanner}
    (hInv : Inv full s)
    (h : snIntPart fuel c0 sd s = some (base, pfx, ds, inv, sd2, c1, s1)) :
    Inv full s1 ∧ Evolves ndFree s s1 ∧
      (pfx = 0 ∨ pfx = 48 ∨ pfx = 111 ∨ pfx = 98 ∨ pfx = 120) := by
  unfold snIntPart at h
  split_ifs at h with hsd
  · simp only [Option.some_inj, Prod.mk.injEq] at h
    obtain ⟨_, hp, _, _, _, hc, hs⟩ := h
    subst hp hc hs
    exact ⟨hInv, evolves_refl s, by omega⟩
  · rcases hdb : snDetectBase c0 s with ⟨base', pfx', ds0', c1', s1'⟩
    rw [hdb] at h
    dsimp only at h
    obtain ⟨hInv1, hEv1, hpfx⟩ := snDetectBase_spec full hInv hdb
    rcases hd : digits fuel c1' base' none s1' with _ | ⟨c2, ds2', inv2, s2⟩
    · rw [hd] at h; simp at h
    · rw [hd] at h
      dsimp only at h
      obtain ⟨hInv2, hEv2⟩ := digits_spec full hInv1 hd
      split_ifs at h with hdot
      · rcases hn : next s2 with ⟨c3, s3⟩
        rw [hn] at h
        simp only [Option.some_inj, Prod.mk.injEq] at h
        obtain ⟨hb, hp, _, _, _, hc, hs⟩ := h
        subst hb hp hc hs
        have ns := next_spec full s2 hInv2
        rw [hn] at ns
        have nsi : Inv full s3 := ns.inv
        exact ⟨nsi, evolves_trans hEv1 (evolves_trans hEv2 (ns.evol.mono nextMsg_ndFree)),
          hpfx⟩
      · simp only [Option.some_inj, Prod.mk.injEq] at h
        obtain ⟨hb, hp, _, _, _, hc, hs⟩ := h
        subst hb hp hc hs
        exact ⟨hInv2, evolves_trans hEv1 hEv2, hpfx⟩

theorem snIntPart_suff (full : List Nat) (fuel c0 : Nat) (sd : Bool) {s : Scanner}
    (hInv : Inv full s) (hf : msize s + 2 ≤ fuel) :
    (snIntPart fuel c0 sd s).isSome := by
  unfold snIntPart
  split_ifs with hsd
  · simp
  · rcases hdb : snDetectBase c0 s with ⟨base', pfx', ds0', c1', s1'⟩
    dsimp only
    obtain ⟨hInv1, hEv1, _⟩ := snDetectBase_spec full hInv hdb
    have hle1 : msize s1' ≤ msize s := hEv1.1
    rcases hd : digits fuel c1' base' none s1' with _ | ⟨c2, ds2', inv2, s2⟩
    · have := digits_suff full fuel c1' base' none hInv1 (by omega)
      rw [hd] at this
      simp at this
    · dsimp only
      split_ifs
      · rcases next s2 with ⟨c3, s3⟩
        simp
      · simp

theorem snFracPart_spec (full : List Nat) {fuel base pfx digsep : Nat}
    {inv : Option Nat} {sd : Bool} {c : Nat} {s : Scanner}
    {ds2 : Nat} {inv2 : Option Nat} {tok : Token} {c2 : Nat} {s2 : Scanner}
    (hInv : Inv full s)
    (h : snFracPart fuel base pfx digsep inv sd c s = some (ds2, inv2, tok, c2, s2)) :
    Inv full s2 ∧ Evolves ndFree s s2 ∧ (tok = FLOAT ∨ tok = INT) := by
  unfold snFracPart at h
  split_ifs at h with hsd hob
  · dsimp only at h
    rcases hd : digits fuel c base inv (errorAt (msgRadixPoint pfx) s)
        with _ | ⟨c3, ds3, inv3, s3⟩ <;> rw [hd] at h
    · simp at h
    · simp only [Option.some_inj, Prod.mk.injEq] at h
      obtain ⟨_, _, ht, hc, hs⟩ := h
      subst ht hc hs
      obtain ⟨h1, h2⟩ := digits_spec full (errorAt_inv _ hInv) hd
      exact ⟨h1, evolves_trans
        (errorAt_evolves (msgRadixPoint pfx) s (msgRadixPoint_ndFree pfx)) h2,
        Or.inl rfl⟩
  · dsimp only at h
    rcases hd : digits fuel c base inv s with _ | ⟨c3, ds3, inv3, s3⟩ <;> rw [hd] at h
    · simp at h
    · simp only [Option.some_inj, Prod.mk.injEq] at h
      obtain ⟨_, _, ht, hc, hs⟩ := h
      subst ht hc hs
      obtain ⟨h1, h2⟩ := digits_spec full hInv hd
      exact ⟨h1, h2, Or.inl rfl⟩
  · simp only [Option.some_inj, Prod.mk.injEq] at h
    obtain ⟨_, _, ht, hc, hs⟩ := h
    subst ht hc hs
    exact ⟨hInv, evolves_refl s, Or.inr rfl⟩

theorem snFracPart_suff (full : List Nat) (fuel base pfx digsep : Nat)
    (inv : Option Nat) (sd : Bool) (c : Nat) {s : Scanner}
    (hInv : Inv full s) (hf : msize s + 2 ≤ fuel) :
    (snFracPart fuel base pfx digsep inv sd c s).isSome := by
  unfold snFracPart
  split_ifs with hsd hob
  · dsimp only
    rcases hd : digits fuel c base inv (errorAt (msgRadixPoint pfx) s) with _ | r
    · have hme : msize (errorAt (msgRadixPoint pfx) s) = msize s := rfl
      have := digits_suff full fuel c base inv (errorAt_inv (msgRadixPoint pfx) hInv)
        (by omega)
      rw [hd] at this
      simp at this
    · rcases r with ⟨c3, ds3, inv3, s3⟩
      simp
  · dsimp only
    rcases hd : digits fuel c base inv s with _ | r
    · have := digits_suff full fuel c base inv hInv (by omega)
      rw [hd] at this
      simp at this
    · rcases r with ⟨c3, ds3, inv3, s3⟩
      simp
  · simp

theorem snExponent_spec (full : List Nat) {fuel pfx : Nat} {tok : Token}
    {digsep c : Nat} {s : Scanner} {tok2 : Token} {ds2 c2 : Nat} {s2 : Scanner}
    (hInv : Inv full s)
    (h : snExponent fuel pfx tok digsep c s = some (tok2, ds2, c2, s2)) :
    Inv full s2 ∧ Evolves ndFree s s2 ∧ (tok2 = FLOAT ∨ tok2 = tok) := by
  unfold snExponent at h
  dsimp only at h
  by_cases hexp : (lower c = 101 ∨ lower c = 112) ∧ s.mode &&& SCAN_FLOATS ≠ 0
  · rw [if_pos hexp] at h
    generalize hs0 : (if lower c = 101 ∧ pfx ≠ 0 ∧ pfx ≠ 48 then
        errorAt (msgExpDecMantissa c) s
      else if lower c = 112 ∧ pfx ≠ 120 then errorAt (msgExpHexMantissa c) s
      else s) = s0 at h
    have hInv0 : Inv full s0 := by
      rw [← hs0]
      split_ifs
      · exact errorAt_inv _ hInv
      · exact errorAt_inv _ hInv
      · exact hInv
    have hEv0 : Evolves ndFree s s0 := by
      rw [← hs0]
      split_ifs
      · exact errorAt_evolves _ s (msgExpDecMantissa_ndFree c)
      · exact errorAt_evolves _ s (msgExpHexMantissa_ndFree c)
      · exact evolves_refl s
    rcases hn : next s0 with ⟨c1, s1⟩
    rw [hn] at h
    dsimp only at h
    have ns := next_spec full s0 hInv0
    rw [hn] at ns
    have nsi : Inv full s1 := ns.inv
    have hEv01 : Evolves ndFree s s1 :=
      evolves_trans hEv0 (ns.evol.mono nextMsg_ndFree)
    by_cases hsgn : c1 = 43 ∨ c1 = 45
    · rw [if_pos hsgn] at h
      rcases hn2 : next s1 with ⟨c1p, s1p⟩
      rw [hn2] at h
      dsimp only at h
      have ns2 := next_spec full s1 nsi
      rw [hn2] at ns2
      have nsi2 : Inv full s1p := ns2.inv
      have hEv02 : Evolves ndFree s s1p :=
        evolves_trans hEv01 (ns2.evol.mono nextMsg_ndFree)
      rcases hd : digits fuel c1p 10 none s1p with _ | ⟨c3, ds3, inv3, s3⟩ <;>
        rw [hd] at h
      · simp at h
      · dsimp only at h
        obtain ⟨hInv3, hEv3⟩ := digits_spec full nsi2 hd
        simp only [Option.some_inj, Prod.mk.injEq] at h
        obtain ⟨ht, _, hc, hs⟩ := h
        subst ht hc
        rw [← hs]
        constructor
        · split_ifs
          · exact errorAt_inv _ hInv3
          · exact hInv3
        refine ⟨?_, Or.inl rfl⟩
        split_ifs
        · exact evolves_trans hEv02 (evolves_trans hEv3
            (errorAt_evolves _ s3 msgExpNoDigits_ndFree))
        · exact evolves_trans hEv02 hEv3
    · rw [if_neg hsgn] at h
      dsimp only at h
      rcases hd : digits fuel c1 10 none s1 with _ | ⟨c3, ds3, inv3, s3⟩ <;>
        rw [hd] at h
      · simp at h
      · dsimp only at h
        obtain ⟨hInv3, hEv3⟩ := digits_spec full nsi hd
        simp only [Option.some_inj, Prod.mk.injEq] at h
        obtain ⟨ht, _, hc, hs⟩ := h
        subst ht hc
        rw [← hs]
        constructor
        · split_ifs
          · exact errorAt_inv _ hInv3
          · exact hInv3
        refine ⟨?_, Or.inl rfl⟩
        split_ifs
        · exact evolves_trans hEv01 (evolves_trans hEv3
            (errorAt_evolves _ s3 msgExpNoDigits_ndFree))
        · exact evolves_trans hEv01 hEv3
  · rw [if_neg hexp] at h
    by_cases hpx : pfx = 120 ∧ tok = FLOAT
    · rw [if_pos hpx] at h
      simp only [Option.some_inj, Prod.mk.injEq] at h
      obtain ⟨ht, _, hc, hs⟩ := h
      subst ht hc hs
      exact ⟨errorAt_inv _ hInv, errorAt_evolves _ s msgHexMantissa_ndFree, Or.inr rfl⟩
    · rw [if_neg hpx] at h
      simp only [Option.some_inj, Prod.mk.injEq] at h
      obtain ⟨ht, _, hc, hs⟩ := h
      subst ht hc hs
      exact ⟨hInv, evolves_refl s, Or.inr rfl⟩

theorem snExponent_suff (full : List Nat) (fuel pfx : Nat) (tok : Token)
    (digsep c : Nat) {s : Scanner} (hInv : Inv full s) (hf : msize s + 2 ≤ fuel) :
    (snExponent fuel pfx tok digsep c s).isSome := by
  unfold snExponent
  dsimp only
  by_cases hexp : (lower c = 101 ∨ lower c = 112) ∧ s.mode &&& SCAN_FLOATS ≠ 0
  · rw [if_pos hexp]
    generalize hs0 : (if lower c = 101 ∧ pfx ≠ 0 ∧ pfx ≠ 48 then
        errorAt (msgExpDecMantissa c) s
      else if lower c = 112 ∧ pfx ≠ 120 then errorAt (msgExpHexMantissa c) s
      else s) = s0
    have hInv0 : Inv full s0 := by
      rw [← hs0]
      split_ifs
      · exact errorAt_inv _ hInv
      · exact errorAt_inv _ hInv
      · exact hInv
    have hm0 : msize s0 = msize s := by
      rw [← hs0]
      split_ifs <;> rfl
    rcases hn : next s0 with ⟨c1, s1⟩
    dsimp only
    have ns := next_spec full s0 hInv0
    rw [hn] at ns
    have nsi : Inv full s1 := ns.inv
    have hle : msize s1 ≤ msize s0 := ns.evol.1
    by_cases hsgn : c1 = 43 ∨ c1 = 45
    · rw [if_pos hsgn]
      rcases hn2 : next s1 with ⟨c1p, s1p⟩
      dsimp only
      have ns2 := next_spec full s1 nsi
      rw [hn2] at ns2
      have nsi2 : Inv full s1p := ns2.inv
      have hle2 : msize s1p ≤ msize s1 := ns2.evol.1
      rcases hd : digits fuel c1p 10 none s1p with _ | ⟨c3, ds3, inv3, s3⟩
      · have := digits_suff full fuel c1p 10 none nsi2 (by omega)
        rw [hd] at this
        simp at this
      · simp
    · rw [if_neg hsgn]
      dsimp only
      rcases hd : digits fuel c1 10 none s1 with _ | ⟨c3, ds3, inv3, s3⟩
      · have := digits_suff full fuel c1 10 none nsi (by omega)
        rw [hd] at this
        simp at this
      · simp
  · rw [if_neg hexp]
    split_ifs <;> simp

theorem snFinal_spec (full : List Nat) (tok : Token) (inv : Option Nat)
    (pfx digsep c : Nat) {s : Scanner} (hInv : Inv full s) :
    Inv full (snFinal tok inv pfx digsep c s).2.2 ∧
      Evolves ndFree s (snFinal tok inv pfx digsep c s).2.2 ∧
      (snFinal tok inv pfx digsep c s).1 = tok := by
  unfold snFinal
  dsimp only
  set s1 := if tok = INT ∧ inv.isSome then errorAt (msgInvalidDigit (inv.getD 0) pfx) s
    else s with hs1def
  have hInv1 : Inv full s1 := by
    rw [hs1def]; split_ifs
    · exact errorAt_inv _ hInv
    · exact hInv
  have hEv1 : Evolves ndFree s s1 := by
    rw [hs1def]; split_ifs
    · exact errorAt_evolves _ s (msgInvalidDigit_ndFree _ pfx)
    · exact evolves_refl s
  split_ifs with hds hsep
  · -- separator check with an error
    refine ⟨errorAt_inv _ ?_, evolves_trans hEv1 (evolves_trans ?_
      (errorAt_evolves _ _ msgSep_ndFree)), rfl⟩
    · obtain ⟨⟨a1, a2, a3, a4, a5, a6, a7, a8⟩, b1, b2⟩ := hInv1
      exact ⟨⟨a1, a2, a3, a4, a5, a6, a7, a8⟩, b1, b2⟩
    · exact ⟨le_refl _, le_refl _, le_refl _, Eq.refl _, Eq.refl _, Eq.refl _, Eq.refl _,
        Iff.rfl, [], by simp, by simp⟩
  · -- separator check, no error
    refine ⟨?_, evolves_trans hEv1 ?_, rfl⟩
    · obtain ⟨⟨a1, a2, a3, a4, a5, a6, a7, a8⟩, b1, b2⟩ := hInv1
      exact ⟨⟨a1, a2, a3, a4, a5, a6, a7, a8⟩, b1, b2⟩
    · exact ⟨le_refl _, le_refl _, le_refl _, Eq.refl _, Eq.refl _, Eq.refl _, Eq.refl _,
        Iff.rfl, [], by simp, by simp⟩
  · exact ⟨hInv1, hEv1, rfl⟩

theorem scanNumber_spec (full : List Nat) {fuel c0 : Nat} {sd neg : Bool}
    {s : Scanner} {tok : Token} {c2 : Nat} {s2 : Scanner} (hInv : Inv full s)
    (h : scanNumber fuel c0 sd neg s = some (tok, c2, s2)) :
    Inv full s2 ∧ Evolves anyMsg s s2 := by
  unfold scanNumber at h
  rcases h1 : snIntPart fuel c0 sd s with _ | ⟨base, pfx, ds, inv, sd', c1', s1'⟩
  · rw [h1] at h; simp at h
  rw [h1] at h
  dsimp only at h
  obtain ⟨hInv1, hEv1, _⟩ := snIntPart_spec full hInv h1
  rcases h2 : snFracPart fuel base pfx ds inv sd' c1' s1' with _ | ⟨ds2, inv2, tk, cf, sf⟩
  · rw [h2] at h; simp at h
  rw [h2] at h
  dsimp only at h
  obtain ⟨hInv2, hEv2, _⟩ := snFracPart_spec full hInv1 h2
  rcases h3 : snNoDigits ds2 neg pfx tk sf with ⟨tk3, s3⟩
  rw [h3] at h
  dsimp only at h
  have hnd : Inv full s3 ∧ Evolves anyMsg sf s3 := by
    unfold snNoDigits at h3
    split_ifs at h3 <;> simp only [Prod.mk.injEq] at h3 <;> obtain ⟨_, hs⟩ := h3 <;>
      subst hs
    · exact ⟨hInv2, evolves_refl sf⟩
    · exact ⟨errorAt_inv _ hInv2, errorAt_evolves _ sf trivial⟩
    · exact ⟨hInv2, evolves_refl sf⟩
  obtain ⟨hInv3, hEv3⟩ := hnd
  rcases h4 : snExponent fuel pfx tk3 ds2 cf s3 with _ | ⟨tk4, ds4, c4, s4⟩
  · rw [h4] at h; simp at h
  rw [h4] at h
  dsimp only at h
  obtain ⟨hInv4, hEv4, _⟩ := snExponent_spec full hInv3 h4
  obtain ⟨hInv5, hEv5, htk⟩ := snFinal_spec full tk4 inv2 pfx ds4 c4 hInv4
  rcases h5 : snFinal tk4 inv2 pfx ds4 c4 s4 with ⟨tk5, c5, s5⟩
  rw [h5] at h
  simp only [Option.some_inj, Prod.mk.injEq] at h
  obtain ⟨ht, hc, hs⟩ := h
  rw [h5] at hInv5 hEv5
  dsimp only at hInv5 hEv5
  subst ht hc hs
  exact ⟨hInv5, evolves_trans (hEv1.mono (fun m _ => trivial))
    (evolves_trans (hEv2.mono (fun m _ => trivial))
      (evolves_trans hEv3 (evolves_trans (hEv4.mono (fun m _ => trivial))
        (hEv5.mono (fun m _ => trivial)))))⟩

theorem scanNumber_suff (full : List Nat) (fuel c0 : Nat) (sd neg : Bool)
    {s : Scanner} (hInv : Inv full s) (hf : msize s + 2 ≤ fuel) :
    (scanNumber fuel c0 sd neg s).isSome := by
  unfold scanNumber
  rcases h1 : snIntPart fuel c0 sd s with _ | ⟨base, pfx, ds, inv, sd', c1', s1'⟩
  · have := snIntPart_suff full fuel c0 sd hInv (by omega)
    rw [h1] at this
    simp at this
  dsimp only
  obtain ⟨hInv1, hEv1, _⟩ := snIntPart_spec full hInv h1
  have hle1 : msize s1' ≤ msize s := hEv1.1
  rcases h2 : snFracPart fuel base pfx ds inv sd' c1' s1' with _ | ⟨ds2, inv2, tk, cf, sf⟩
  · have := snFracPart_suff full fuel base pfx ds inv sd' c1' hInv1 (by omega)
    rw [h2] at this
    simp at this
  dsimp only
  obtain ⟨hInv2, hEv2, _⟩ := snFracPart_spec full hInv1 h2
  have hle2 : msize sf ≤ msize s1' := hEv2.1
  rcases h3 : snNoDigits ds2 neg pfx tk sf with ⟨tk3, s3⟩
  dsimp only
  have hnd : Inv full s3 ∧ msize s3 = msize sf := by
    unfold snNoDigits at h3
    split_ifs at h3 <;> simp only [Prod.mk.injEq] at h3 <;> obtain ⟨_, hs⟩ := h3 <;>
      subst hs
    · exact ⟨hInv2, rfl⟩
    · exact ⟨errorAt_inv _ hInv2, rfl⟩
    · exact ⟨hInv2, rfl⟩
  obtain ⟨hInv3, hm3⟩ := hnd
  rcases h4 : snExponent fuel pfx tk3 ds2 cf s3 with _ | ⟨tk4, ds4, c4, s4⟩
  · have := snExponent_suff full fuel pfx tk3 ds2 cf hInv3 (by omega)
    rw [h4] at this
    simp at this
  simp

/-! ## `scan`-level machinery -/

/-- What one `scan` call (or `peek`/`next_char`) guarantees about the
observable bookkeeping: the measure shrinks, consumption and the reported
offset never decrease, and the configuration is untouched. -/
def ScanEv (s s' : Scanner) : Prop :=
  msize s' ≤ msize s ∧ consumed s ≤ consumed s' ∧ posOff s ≤ posOff s' ∧
  s'.mode = s.mode ∧ s'.whitespace = s.whitespace

theorem scanEv_refl (s : Scanner) : ScanEv s s :=
  ⟨le_refl _, le_refl _, le_refl _, Eq.refl _, Eq.refl _⟩

theorem scanEv_trans {s1 s2 s3 : Scanner} (h1 : ScanEv s1 s2) (h2 : ScanEv s2 s3) :
    ScanEv s1 s3 :=
  ⟨le_trans h2.1 h1.1, le_trans h1.2.1 h2.2.1, le_trans h1.2.2.1 h2.2.2.1,
    h2.2.2.2.1.trans h1.2.2.2.1, h2.2.2.2.2.trans h1.2.2.2.2⟩

theorem evolves_scanEv {E : String → Prop} {s s' : Scanner} (h : Evolves E s s') :
    ScanEv s s' :=
  ⟨h.1, h.2.1, h.2.2.1, h.2.2.2.2.1, h.2.2.2.2.2.1⟩

/-- The round-trip property of a produced token: its recorded text is exactly
the source bytes from its start offset to its end offset (which is the
current `pos()` offset). -/
def RT (full : List Nat) (t : Token) (s' : Scanner) : Prop :=
  t ≠ EOF →
    0 ≤ s'.tokPos ∧
    tokenTextBytes s' = extractL full s'.position.offset (s'.srcBufOffset + s'.tokEnd) ∧
    s'.srcBufOffset + s'.tokEnd = posOff s'

/-- Sealing a token (`tok_end` line 875) turns the invariant into the
round-trip property. -/
theorem finishTok_rt (full : List Nat) (X : Int) (s2 : Scanner) (hInv : Inv full s2)
    (h0 : 0 ≤ s2.tokPos) :
    0 ≤ ({ s2 with ch := X, tokEnd := s2.srcPos - s2.lastCharLen } : Scanner).tokPos ∧
    tokenTextBytes { s2 with ch := X, tokEnd := s2.srcPos - s2.lastCharLen } =
      extractL full s2.position.offset (s2.srcBufOffset + (s2.srcPos - s2.lastCharLen)) ∧
    s2.srcBufOffset + (s2.srcPos - s2.lastCharLen) =
      posOff { s2 with ch := X, tokEnd := s2.srcPos - s2.lastCharLen } := by
  obtain ⟨⟨hlen, hend, hpos, hfull, hwin, hsrc, hsent, htok⟩, hlcl, htokl⟩ := hInv
  obtain ⟨htp, hoff, hbuf⟩ := htok h0
  have htl := htokl h0
  refine ⟨h0, ?_, ?_⟩
  · unfold tokenTextBytes
    rw [if_neg (not_lt.mpr h0)]
    dsimp only
    have hclamp : ¬(s2.srcPos - s2.lastCharLen < s2.tokPos.toNat) := by omega
    rw [if_neg hclamp]
    have hmid : extractL s2.srcBuf s2.tokPos.toNat (s2.srcPos - s2.lastCharLen) =
        extractL full (s2.srcBufOffset + s2.tokPos.toNat)
          (s2.srcBufOffset + (s2.srcPos - s2.lastCharLen)) := by
      apply extractL_eq_of_getD (by omega) (by omega) (by omega)
      intro j hj
      rw [hwin (s2.tokPos.toNat + j) (by omega)]
      congr 1
      omega
    rw [hbuf, hmid, extractL_append_extractL hoff (by omega) (by omega)]
  · dsimp [posOff]
    omega

/-- Overwriting the lookahead cache does not disturb the invariant. -/
theorem inv_set_ch {full : List Nat} {s : Scanner} (X : Int) (h : Inv full s) :
    Inv full { s with ch := X } := by
  obtain ⟨⟨h1, h2, h3, h4, h5, h6, h7, h8⟩, h9, h10⟩ := h
  exact ⟨⟨h1, h2, h3, h4, h5, h6, h7, h8⟩, h9, h10⟩

/-- Overwriting the lookahead cache does not disturb the bookkeeping facts. -/
theorem scanEv_set_ch {s s1 : Scanner} (X : Int) (h : ScanEv s s1) :
    ScanEv s { s1 with ch := X } := by
  obtain ⟨a, b, c, d, e⟩ := h
  refine ⟨?_, ?_, ?_, ?_, ?_⟩ <;>
    simp only [msize, consumed, posOff] at a b c d e ⊢ <;> first | omega | assumption

/-- Clearing the token-start position does not disturb the invariant. -/
theorem inv_clear_tokPos {full : List Nat} {s : Scanner} (h : Inv full s) :
    Inv full { s with tokPos := -1 } := by
  obtain ⟨⟨h1, h2, h3, h4, h5, h6, h7, h8⟩, h9, h10⟩ := h
  refine ⟨⟨h1, h2, h3, h4, h5, h6, h7, ?_⟩, h9, ?_⟩ <;> intro h0 <;> dsimp at h0 <;> omega

/-- Clearing the token-start position does not disturb the bookkeeping. -/
theorem scanEv_clear_tokPos (s2 : Scanner) : ScanEv s2 { s2 with tokPos := -1 } := by
  refine ⟨?_, ?_, ?_, rfl, rfl⟩ <;> simp only [msize, consumed, posOff] <;> omega

/-- Sealing a token keeps the invariant. -/
theorem inv_finishTok {full : List Nat} {s2 : Scanner} (X : Int) (e : Nat)
    (h : Inv full s2) : Inv full { s2 with ch := X, tokEnd := e } := by
  obtain ⟨⟨h1, h2, h3, h4, h5, h6, h7, h8⟩, h9, h10⟩ := h
  exact ⟨⟨h1, h2, h3, h4, h5, h6, h7, h8⟩, h9, h10⟩

/-- Sealing a token keeps the bookkeeping facts. -/
theorem scanEv_finishTok {s s2 : Scanner} (X : Int) (e : Nat) (h : ScanEv s s2) :
    ScanEv s { s2 with ch := X, tokEnd := e } := by
  obtain ⟨a, b, c, d, e1⟩ := h
  refine ⟨?_, ?_, ?_, ?_, ?_⟩ <;>
    simp only [msize, consumed, posOff] at a b c d e1 ⊢ <;> first | omega | assumption

/-- `Scanner::peek` master lemma. -/
theorem peek_spec (full : List Nat) (s : Scanner) (hInv : Inv full s) :
    Inv full (peek s).2 ∧ ScanEv s (peek s).2 ∧
    (peek s).2.position = s.position ∧ (0 ≤ (peek s).2.tokPos ↔ 0 ≤ s.tokPos) ∧
    (peek s).2.ch = (peek s).1 := by
  unfold peek
  by_cases h2 : s.ch = -2
  · rw [if_pos h2]
    rcases hn : next s with ⟨c, s1⟩
    dsimp only
    have ns := next_spec full s hInv
    rw [hn] at ns
    have nsi : Inv full s1 := ns.inv
    have hEv : Evolves nextMsg s s1 := ns.evol
    by_cases hFFFF : c = 0xFFFF
    · rw [if_pos hFFFF]
      exact ⟨inv_set_ch EOF nsi, scanEv_set_ch EOF (evolves_scanEv hEv),
        hEv.2.2.2.2.2.2.1, hEv.2.2.2.2.2.2.2.1, rfl⟩
    · rw [if_neg hFFFF]
      by_cases hBOM : c = 0xFEFF
      · rw [if_pos hBOM]
        rcases hn2 : next s1 with ⟨c2, s2⟩
        dsimp only
        have ns2 := next_spec full s1 nsi
        rw [hn2] at ns2
        have nsi2 : Inv full s2 := ns2.inv
        have hEv2 : Evolves nextMsg s s2 := evolves_trans hEv ns2.evol
        by_cases hF2 : c2 = 0xFFFF
        · rw [if_pos hF2]
          exact ⟨inv_set_ch EOF nsi2, scanEv_set_ch EOF (evolves_scanEv hEv2),
            hEv2.2.2.2.2.2.2.1, hEv2.2.2.2.2.2.2.2.1, rfl⟩
        · rw [if_neg hF2]
          exact ⟨inv_set_ch _ nsi2, scanEv_set_ch _ (evolves_scanEv hEv2),
            hEv2.2.2.2.2.2.2.1, hEv2.2.2.2.2.2.2.2.1, rfl⟩
      · rw [if_neg hBOM]
        exact ⟨inv_set_ch _ nsi, scanEv_set_ch _ (evolves_scanEv hEv),
          hEv.2.2.2.2.2.2.1, hEv.2.2.2.2.2.2.2.1, rfl⟩
  · rw [if_neg h2]
    exact ⟨hInv, scanEv_refl s, rfl, Iff.rfl, rfl⟩

/-- `Scanner::next_char` master lemma. -/
theorem nextChar_spec (full : List Nat) (s : Scanner) (hInv : Inv full s) :
    Inv full (nextChar s).2 ∧ ScanEv s (nextChar s).2 := by
  unfold nextChar
  have hInv0 :
      Inv full { s with tokPos := -1, position := { s.position with line := 0 } } := by
    obtain ⟨⟨h1, h2, h3, h4, h5, h6, h7, h8⟩, h9, h10⟩ := hInv
    refine ⟨⟨h1, h2, h3, h4, h5, h6, h7, ?_⟩, h9, ?_⟩
    · intro h0
      dsimp at h0
      omega
    · intro h0
      dsimp at h0
      omega
  have hse : ScanEv s { s with tokPos := -1, position := { s.position with line := 0 } } := by
    refine ⟨?_, ?_, ?_, rfl, rfl⟩ <;> simp only [msize, consumed, posOff] <;> omega
  rcases hp : peek { s with tokPos := -1, position := { s.position with line := 0 } }
    with ⟨c, s1⟩
  obtain ⟨hInv1, hEv1, _, _, _⟩ := peek_spec full _ hInv0
  rw [hp] at hInv1 hEv1
  dsimp only
  rw [hp]
  dsimp only
  by_cases hc : c = EOF
  · rw [if_neg (not_not_intro hc)]
    exact ⟨hInv1, scanEv_trans hse hEv1⟩
  · rw [if_pos hc]
    rcases hn : next s1 with ⟨c2, s2⟩
    dsimp only
    have ns := next_spec full s1 hInv1
    rw [hn] at ns
    exact ⟨inv_set_ch _ ns.inv,
      scanEv_set_ch _ (scanEv_trans hse (scanEv_trans hEv1 (evolves_scanEv ns.evol)))⟩

/-- Packaging `tok_end` recording (line 875) with a fresh lookahead. -/
theorem finishTok_out (full : List Nat) (tk : Token) (c2 : Nat) (s s2 : Scanner)
    (hInv2 : Inv full s2) (hEv : ScanEv s s2) (h02 : 0 ≤ s2.tokPos)
    (ht : tk ≠ (0xFFFF : Int)) :
    Inv full { s2 with ch := charToToken c2, tokEnd := s2.srcPos - s2.lastCharLen } ∧
    ScanEv s { s2 with ch := charToToken c2, tokEnd := s2.srcPos - s2.lastCharLen } ∧
    tk ≠ (0xFFFF : Int) ∧
    RT full tk { s2 with ch := charToToken c2, tokEnd := s2.srcPos - s2.lastCharLen } :=
  ⟨inv_finishTok _ _ hInv2, scanEv_finishTok _ _ hEv, ht,
    fun _ => finishTok_rt full (charToToken c2) s2 hInv2 h02⟩

/-- Packaging `tok_end` recording with a stale lookahead cache. -/
theorem finishTokStale_out (full : List Nat) (tk : Token) (s s2 : Scanner)
    (hInv2 : Inv full s2) (hEv : ScanEv s s2) (h02 : 0 ≤ s2.tokPos)
    (ht : tk ≠ (0xFFFF : Int)) :
    Inv full { s2 with tokEnd := s2.srcPos - s2.lastCharLen } ∧
    ScanEv s { s2 with tokEnd := s2.srcPos - s2.lastCharLen } ∧
    tk ≠ (0xFFFF : Int) ∧
    RT full tk { s2 with tokEnd := s2.srcPos - s2.lastCharLen } :=
  ⟨inv_finishTok s2.ch _ hInv2, scanEv_finishTok s2.ch _ hEv, ht,
    fun _ => finishTok_rt full s2.ch s2 hInv2 h02⟩

/-- The token produced by `scan_number` is `INT`, `FLOAT`, or the degraded
hyphen (line 496). -/
theorem scanNumber_tok (full : List Nat) {fuel c0 : Nat} {sd neg : Bool}
    {s : Scanner} {tok : Token} {c2 : Nat} {s2 : Scanner} (hInv : Inv full s)
    (h : scanNumber fuel c0 sd neg s = some (tok, c2, s2)) :
    tok = INT ∨ tok = FLOAT ∨ tok = 45 := by
  unfold scanNumber at h
  rcases h1 : snIntPart fuel c0 sd s with _ | ⟨base, pfx, ds, inv, sd', c1', s1'⟩
  · rw [h1] at h; simp at h
  rw [h1] at h
  dsimp only at h
  obtain ⟨hInv1, _, _⟩ := snIntPart_spec full hInv h1
  rcases h2 : snFracPart fuel base pfx ds inv sd' c1' s1' with _ | ⟨ds2, inv2, tk, cf, sf⟩
  · rw [h2] at h; simp at h
  rw [h2] at h
  dsimp only at h
  obtain ⟨hInv2, _, htk1⟩ := snFracPart_spec full hInv1 h2
  rcases h3 : snNoDigits ds2 neg pfx tk sf with ⟨tk3, s3⟩
  rw [h3] at h
  dsimp only at h
  have htk3 : tk3 = tk ∨ tk3 = 45 := by
    unfold snNoDigits at h3
    split_ifs at h3 <;> simp only [Prod.mk.injEq] at h3 <;> obtain ⟨ht3, _⟩ := h3
    · exact Or.inr ht3.symm
    · exact Or.inl ht3.symm
    · exact Or.inl ht3.symm
  have hInv3 : Inv full s3 := by
    unfold snNoDigits at h3
    split_ifs at h3 <;> simp only [Prod.mk.injEq] at h3 <;> obtain ⟨_, hs3⟩ := h3 <;>
      subst hs3
    · exact hInv2
    · exact errorAt_inv _ hInv2
    · exact hInv2
  rcases h4 : snExponent fuel pfx tk3 ds2 cf s3 with _ | ⟨tk4, ds4, c4, s4⟩
  · rw [h4] at h; simp at h
  rw [h4] at h
  dsimp only at h
  obtain ⟨_, _, htk4⟩ := snExponent_spec full hInv3 h4
  have hfin : (snFinal tk4 inv2 pfx ds4 c4 s4).1 = tk4 := rfl
  rcases h5 : snFinal tk4 inv2 pfx ds4 c4 s4 with ⟨tk5, c5, s5⟩
  rw [h5] at h
  simp only [Option.some_inj, Prod.mk.injEq] at h
  obtain ⟨ht, _, _⟩ := h
  rw [h5] at hfin
  dsimp only at hfin
  have htt : tok = tk4 := ht ▸ hfin
  rcases htk4 with hfl | heq
  · exact Or.inr (Or.inl (htt.trans hfl))
  · have h2t : tok = tk3 := htt.trans heq
    rcases htk3 with ha | hb
    · rcases htk1 with hx | hy
      · exact Or.inr (Or.inl (h2t.trans (ha.trans hx)))
      · exact Or.inl (h2t.trans (ha.trans hy))
    · exact Or.inr (Or.inr (h2t.trans hb))

/-- The dispatch master lemma (lines 738-877): with the invariant, a started
token, a non-sentinel dispatch scalar and a well-behaved redo continuation,
every produced token keeps the invariant, evolves the bookkeeping
monotonically, is never the in-band `u16` sentinel, and satisfies the
round-trip property. -/
theorem dispatch_spec (P : UProps) (full : List Nat) (fuel : Nat)
    (redo : Scanner → Option (Token × Scanner)) (c : Nat) (s : Scanner)
    (hInv : Inv full s) (h0 : 0 ≤ s.tokPos) (hc : c ≠ 0xFFFF)
    (hredo : ∀ sr tr sr', Inv full sr → redo sr = some (tr, sr') →
      Inv full sr' ∧ ScanEv sr sr' ∧ tr ≠ (0xFFFF : Int) ∧ RT full tr sr')
    (t : Token) (s' : Scanner)
    (h : dispatch P fuel redo c s = some (t, s')) :
    Inv full s' ∧ ScanEv s s' ∧ t ≠ (0xFFFF : Int) ∧ RT full t s' := by
  unfold dispatch at h
  by_cases hA : isIdentRuneDefault P c 0 = true
  · rw [if_pos hA] at h
    by_cases hA1 : s.mode &&& SCAN_IDENTS ≠ 0
    · rw [if_pos hA1] at h
      rcases hsi : scanIdentifier P fuel s with _ | ⟨c2, s2⟩
      · rw [hsi] at h; simp at h
      · rw [hsi] at h
        obtain ⟨hInv2, hEv2⟩ := scanIdentifier_spec P full hInv hsi
        simp only [finishTok, Option.some_inj, Prod.mk.injEq] at h
        obtain ⟨ht, hs⟩ := h
        subst ht; subst hs
        exact finishTok_out full IDENT c2 s s2 hInv2 (evolves_scanEv hEv2)
          (hEv2.2.2.2.2.2.2.2.1.mpr h0) (by decide)
    · rw [if_neg hA1] at h
      rcases hn : next s with ⟨c2, s2⟩
      rw [hn] at h
      dsimp only at h
      have ns := next_spec full s hInv
      rw [hn] at ns
      simp only [finishTok, Option.some_inj, Prod.mk.injEq] at h
      obtain ⟨ht, hs⟩ := h
      subst ht; subst hs
      exact finishTok_out full (c : Int) c2 s s2 ns.inv (evolves_scanEv ns.evol)
        (ns.evol.2.2.2.2.2.2.2.1.mpr h0) (by exact_mod_cast hc)
  · rw [if_neg hA] at h
    by_cases hB : isDecimal c = true
    · rw [if_pos hB] at h
      by_cases hB1 : s.mode &&& (SCAN_INTS ||| SCAN_FLOATS) ≠ 0
      · rw [if_pos hB1] at h
        rcases hsn : scanNumber fuel c false false s with _ | ⟨tk, c2, s2⟩
        · rw [hsn] at h; simp at h
        · rw [hsn] at h
          dsimp only at h
          obtain ⟨hInv2, hEv2⟩ := scanNumber_spec full hInv hsn
          have htk := scanNumber_tok full hInv hsn
          simp only [finishTok, Option.some_inj, Prod.mk.injEq] at h
          obtain ⟨ht, hs⟩ := h
          subst ht; subst hs
          exact finishTok_out full tk c2 s s2 hInv2 (evolves_scanEv hEv2)
            (hEv2.2.2.2.2.2.2.2.1.mpr h0)
            (by rcases htk with h1 | h1 | h1 <;> subst h1 <;> decide)
      · rw [if_neg hB1] at h
        rcases hn : next s with ⟨c2, s2⟩
        rw [hn] at h
        dsimp only at h
        have ns := next_spec full s hInv
        rw [hn] at ns
        simp only [finishTok, Option.some_inj, Prod.mk.injEq] at h
        obtain ⟨ht, hs⟩ := h
        subst ht; subst hs
        exact finishTok_out full (c : Int) c2 s s2 ns.inv (evolves_scanEv ns.evol)
          (ns.evol.2.2.2.2.2.2.2.1.mpr h0) (by exact_mod_cast hc)
    · rw [if_neg hB] at h
      by_cases hC : c = 45
      · rw [if_pos hC] at h
        rcases hn : next s with ⟨c2, s2⟩
        rw [hn] at h
        dsimp only at h
        have ns := next_spec full s hInv
        rw [hn] at ns
        have hInv2 : Inv full s2 := ns.inv
        have hEv2 : ScanEv s s2 := evolves_scanEv ns.evol
        have h02 : 0 ≤ s2.tokPos := ns.evol.2.2.2.2.2.2.2.1.mpr h0
        by_cases hC1 : isIdentRuneDefault P c2 0 = true
        · rw [if_pos hC1] at h
          by_cases hC1a : s2.mode &&& SCAN_IDENTS ≠ 0
          · rw [if_pos hC1a] at h
            rcases hsi : scanIdentifier P fuel s2 with _ | ⟨c3, s3⟩
            · rw [hsi] at h; simp at h
            · rw [hsi] at h
              obtain ⟨hInv3, hEv3⟩ := scanIdentifier_spec P full hInv2 hsi
              simp only [finishTok, Option.some_inj, Prod.mk.injEq] at h
              obtain ⟨ht, hs⟩ := h
              subst ht; subst hs
              exact finishTok_out full IDENT c3 s s3 hInv3
                (scanEv_trans hEv2 (evolves_scanEv hEv3))
                (hEv3.2.2.2.2.2.2.2.1.mpr h02) (by decide)
          · rw [if_neg hC1a] at h
            simp only [finishTokStale, Option.some_inj, Prod.mk.injEq] at h
            obtain ⟨ht, hs⟩ := h
            subst ht; subst hs
            exact finishTokStale_out full 45 s s2 hInv2 hEv2 h02 (by decide)
        · rw [if_neg hC1] at h
          by_cases hC2 : isDecimal c2 = true
          · rw [if_pos hC2] at h
            by_cases hC2a : s2.mode &&& (SCAN_INTS ||| SCAN_FLOATS) ≠ 0
            · rw [if_pos hC2a] at h
              rcases hsn : scanNumber fuel c2 false true s2 with _ | ⟨tk, c3, s3⟩
              · rw [hsn] at h; simp at h
              · rw [hsn] at h
                dsimp only at h
                obtain ⟨hInv3, hEv3⟩ := scanNumber_spec full hInv2 hsn
                have htk := scanNumber_tok full hInv2 hsn
                simp only [finishTok, Option.some_inj, Prod.mk.injEq] at h
                obtain ⟨ht, hs⟩ := h
                subst ht; subst hs
                exact finishTok_out full tk c3 s s3 hInv3
                  (scanEv_trans hEv2 (evolves_scanEv hEv3))
                  (hEv3.2.2.2.2.2.2.2.1.mpr h02)
                  (by rcases htk with h1 | h1 | h1 <;> subst h1 <;> decide)
            · rw [if_neg hC2a] at h
              simp only [finishTokStale, Option.some_inj, Prod.mk.injEq] at h
              obtain ⟨ht, hs⟩ := h
              subst ht; subst hs
              exact finishTokStale_out full 45 s s2 hInv2 hEv2 h02 (by decide)
          · rw [if_neg hC2] at h
            by_cases hC3 : s2.mode &&& SCAN_IDENTS ≠ 0
            · rw [if_pos hC3] at h
              simp only [finishTok, Option.some_inj, Prod.mk.injEq] at h
              obtain ⟨ht, hs⟩ := h
              subst ht; subst hs
              exact finishTok_out full IDENT c2 s s2 hInv2 hEv2 h02 (by decide)
            · rw [if_neg hC3] at h
              simp only [finishTok, Option.some_inj, Prod.mk.injEq] at h
              obtain ⟨ht, hs⟩ := h
              subst ht; subst hs
              exact finishTok_out full 45 c2 s s2 hInv2 hEv2 h02 (by decide)
      · rw [if_neg hC] at h
        by_cases hD : c = 0xFFFF
        · exact absurd hD hc
        · rw [if_neg hD] at h
          by_cases hE : c = 34
          · rw [if_pos hE] at h
            by_cases hE1 : s.mode &&& SCAN_STRINGS ≠ 0
            · rw [if_pos hE1] at h
              subst hE
              rcases hss : scanString fuel 34 s with _ | ⟨r2, s2⟩
              · rw [hss] at h; simp at h
              · rw [hss] at h
                dsimp only at h
                rcases hn : next s2 with ⟨c2, s3⟩
                rw [hn] at h
                dsimp only at h
                obtain ⟨hInv2, hEv2⟩ := scanString_spec full hInv hss
                have ns := next_spec full s2 hInv2
                rw [hn] at ns
                simp only [finishTok, Option.some_inj, Prod.mk.injEq] at h
                obtain ⟨ht, hs⟩ := h
                subst ht; subst hs
                exact finishTok_out full STRING c2 s s3 ns.inv
                  (scanEv_trans (evolves_scanEv hEv2) (evolves_scanEv ns.evol))
                  (ns.evol.2.2.2.2.2.2.2.1.mpr (hEv2.2.2.2.2.2.2.2.1.mpr h0))
                  (by decide)
            · rw [if_neg hE1] at h
              rcases hn : next s with ⟨c2, s2⟩
              rw [hn] at h
              dsimp only at h
              have ns := next_spec full s hInv
              rw [hn] at ns
              simp only [finishTok, Option.some_inj, Prod.mk.injEq] at h
              obtain ⟨ht, hs⟩ := h
              subst ht; subst hs
              exact finishTok_out full 34 c2 s s2 ns.inv (evolves_scanEv ns.evol)
                (ns.evol.2.2.2.2.2.2.2.1.mpr h0) (by decide)
          · rw [if_neg hE] at h
            by_cases hF : c = 58
            · rw [if_pos hF] at h
              by_cases hF1 : s.mode &&& SCAN_KEYWORDS ≠ 0
              · rw [if_pos hF1] at h
                rcases hsi : scanIdentifier P fuel s with _ | ⟨c2, s2⟩
                · rw [hsi] at h; simp at h
                · rw [hsi] at h
                  obtain ⟨hInv2, hEv2⟩ := scanIdentifier_spec P full hInv hsi
                  simp only [finishTok, Option.some_inj, Prod.mk.injEq] at h
                  obtain ⟨ht, hs⟩ := h
                  subst ht; subst hs
                  exact finishTok_out full KEYWORD c2 s s2 hInv2 (evolves_scanEv hEv2)
                    (hEv2.2.2.2.2.2.2.2.1.mpr h0) (by decide)
              · rw [if_neg hF1] at h
                rcases hn : next s with ⟨c2, s2⟩
                rw [hn] at h
                dsimp only at h
                have ns := next_spec full s hInv
                rw [hn] at ns
                simp only [finishTok, Option.some_inj, Prod.mk.injEq] at h
                obtain ⟨ht, hs⟩ := h
                subst ht; subst hs
                exact finishTok_out full 58 c2 s s2 ns.inv (evolves_scanEv ns.evol)
                  (ns.evol.2.2.2.2.2.2.2.1.mpr h0) (by decide)
            · rw [if_neg hF] at h
              by_cases hG : c = 46
              · rw [if_pos hG] at h
                rcases hn : next s with ⟨c2, s2⟩
                rw [hn] at h
                dsimp only at h
                have ns := next_spec full s hInv
                rw [hn] at ns
                have hInv2 : Inv full s2 := ns.inv
                have hEv2 : ScanEv s s2 := evolves_scanEv ns.evol
                have h02 : 0 ≤ s2.tokPos := ns.evol.2.2.2.2.2.2.2.1.mpr h0
                by_cases hG1 : isDecimal c2 ∧ s2.mode &&& SCAN_FLOATS ≠ 0
                · rw [if_pos hG1] at h
                  rcases hsn : scanNumber fuel c2 true false s2 with _ | ⟨tk, c3, s3⟩
                  · rw [hsn] at h; simp at h
                  · rw [hsn] at h
                    dsimp only at h
                    obtain ⟨hInv3, hEv3⟩ := scanNumber_spec full hInv2 hsn
                    have htk := scanNumber_tok full hInv2 hsn
                    simp only [finishTok, Option.some_inj, Prod.mk.injEq] at h
                    obtain ⟨ht, hs⟩ := h
                    subst ht; subst hs
                    exact finishTok_out full tk c3 s s3 hInv3
                      (scanEv_trans hEv2 (evolves_scanEv hEv3))
                      (hEv3.2.2.2.2.2.2.2.1.mpr h02)
                      (by rcases htk with h1 | h1 | h1 <;> subst h1 <;> decide)
                · rw [if_neg hG1] at h
                  simp only [finishTok, Option.some_inj, Prod.mk.injEq] at h
                  obtain ⟨ht, hs⟩ := h
                  subst ht; subst hs
                  exact finishTok_out full 46 c2 s s2 hInv2 hEv2 h02 (by decide)
              · rw [if_neg hG] at h
                by_cases hH : c = 59
                · rw [if_pos hH] at h
                  rcases hn : next s with ⟨c2, s2⟩
                  rw [hn] at h
                  dsimp only at h
                  have ns := next_spec full s hInv
                  rw [hn] at ns
                  have hInv2 : Inv full s2 := ns.inv
                  have hEv2 : ScanEv s s2 := evolves_scanEv ns.evol
                  have h02 : 0 ≤ s2.tokPos := ns.evol.2.2.2.2.2.2.2.1.mpr h0
                  by_cases hH1 : s2.mode &&& SCAN_COMMENTS ≠ 0
                  · rw [if_pos hH1] at h
                    by_cases hH2 : s2.mode &&& SKIP_COMMENTS ≠ 0
                    · rw [if_pos hH2] at h
                      rcases hsc : scanComment fuel c2 { s2 with tokPos := -1 }
                        with _ | ⟨c3, s3⟩
                      · rw [hsc] at h; simp at h
                      · rw [hsc] at h
                        dsimp only at h
                        have hInvm : Inv full { s2 with tokPos := -1 } :=
                          inv_clear_tokPos hInv2
                        obtain ⟨hInv3, hEv3, _⟩ := scanComment_spec full hInvm hsc
                        have hInvr : Inv full { s3 with ch := charToToken c3 } :=
                          inv_set_ch _ hInv3
                        obtain ⟨hi, he, hne, hrt⟩ := hredo _ t s' hInvr h
                        refine ⟨hi, ?_, hne, hrt⟩
                        exact scanEv_trans hEv2 (scanEv_trans (scanEv_clear_tokPos s2)
                          (scanEv_trans (evolves_scanEv hEv3)
                            (scanEv_trans (scanEv_set_ch _ (scanEv_refl s3)) he)))
                    · rw [if_neg hH2] at h
                      rcases hsc : scanComment fuel c2 s2 with _ | ⟨c3, s3⟩
                      · rw [hsc] at h; simp at h
                      · rw [hsc] at h
                        dsimp only at h
                        obtain ⟨hInv3, hEv3, _⟩ := scanComment_spec full hInv2 hsc
                        simp only [finishTok, Option.some_inj, Prod.mk.injEq] at h
                        obtain ⟨ht, hs⟩ := h
                        subst ht; subst hs
                        exact finishTok_out full COMMENT c3 s s3 hInv3
                          (scanEv_trans hEv2 (evolves_scanEv hEv3))
                          (hEv3.2.2.2.2.2.2.2.1.mpr h02) (by decide)
                  · rw [if_neg hH1] at h
                    simp only [finishTok, Option.some_inj, Prod.mk.injEq] at h
                    obtain ⟨ht, hs⟩ := h
                    subst ht; subst hs
                    exact finishTok_out full 59 c2 s s2 hInv2 hEv2 h02 (by decide)
                · rw [if_neg hH] at h
                  by_cases hI : c = 172
                  · rw [if_pos hI] at h
                    by_cases hI1 : s.mode &&& SCAN_RAW_STRINGS ≠ 0
                    · rw [if_pos hI1] at h
                      rcases hsr : scanRawString fuel s with _ | ⟨c2, s2⟩
                      · rw [hsr] at h; simp at h
                      · rw [hsr] at h
                        obtain ⟨hInv2, hEv2⟩ := scanRawString_spec full hInv hsr
                        simp only [finishTok, Option.some_inj, Prod.mk.injEq] at h
                        obtain ⟨ht, hs⟩ := h
                        subst ht; subst hs
                        exact finishTok_out full RAW_STRING c2 s s2 hInv2
                          (evolves_scanEv hEv2)
                          (hEv2.2.2.2.2.2.2.2.1.mpr h0) (by decide)
                    · rw [if_neg hI1] at h
                      rcases hn : next s with ⟨c2, s2⟩
                      rw [hn] at h
                      dsimp only at h
                      have ns := next_spec full s hInv
                      rw [hn] at ns
                      simp only [finishTok, Option.some_inj, Prod.mk.injEq] at h
                      obtain ⟨ht, hs⟩ := h
                      subst ht; subst hs
                      exact finishTok_out full 172 c2 s s2 ns.inv (evolves_scanEv ns.evol)
                        (ns.evol.2.2.2.2.2.2.2.1.mpr h0) (by decide)
                  · rw [if_neg hI] at h
                    by_cases hJ : c = 126
                    · rw [if_pos hJ] at h
                      rcases hn : next s with ⟨c2, s2⟩
                      rw [hn] at h
                      dsimp only at h
                      have ns := next_spec full s hInv
                      rw [hn] at ns
                      have hInv2 : Inv full s2 := ns.inv
                      have hEv2 : ScanEv s s2 := evolves_scanEv ns.evol
                      have h02 : 0 ≤ s2.tokPos := ns.evol.2.2.2.2.2.2.2.1.mpr h0
                      by_cases hJ1 : s2.mode &&& SCAN_IDENTS ≠ 0
                      · rw [if_pos hJ1] at h
                        by_cases hJ2 : c2 = 64
                        · rw [if_pos hJ2] at h
                          rcases hn2 : next s2 with ⟨c3, s3⟩
                          rw [hn2] at h
                          dsimp only at h
                          have ns2 := next_spec full s2 hInv2
                          rw [hn2] at ns2
                          simp only [finishTok, Option.some_inj, Prod.mk.injEq] at h
                          obtain ⟨ht, hs⟩ := h
                          subst ht; subst hs
                          exact finishTok_out full IDENT c3 s s3 ns2.inv
                            (scanEv_trans hEv2 (evolves_scanEv ns2.evol))
                            (ns2.evol.2.2.2.2.2.2.2.1.mpr h02) (by decide)
                        · rw [if_neg hJ2] at h
                          simp only [finishTok, Option.some_inj, Prod.mk.injEq] at h
                          obtain ⟨ht, hs⟩ := h
                          subst ht; subst hs
                          exact finishTok_out full 126 c2 s s2 hInv2 hEv2 h02 (by decide)
                      · rw [if_neg hJ1] at h
                        simp only [finishTok, Option.some_inj, Prod.mk.injEq] at h
                        obtain ⟨ht, hs⟩ := h
                        subst ht; subst hs
                        exact finishTok_out full 126 c2 s s2 hInv2 hEv2 h02 (by decide)
                    · rw [if_neg hJ] at h
                      by_cases hK : c = 35
                      · rw [if_pos hK] at h
                        rcases hn : next s with ⟨c2, s2⟩
                        rw [hn] at h
                        dsimp only at h
                        have ns := next_spec full s hInv
                        rw [hn] at ns
                        have hInv2 : Inv full s2 := ns.inv
                        have hEv2 : ScanEv s s2 := evolves_scanEv ns.evol
                        have h02 : 0 ≤ s2.tokPos := ns.evol.2.2.2.2.2.2.2.1.mpr h0
                        by_cases hK1 : s2.mode &&& SCAN_IDENTS ≠ 0
                        · rw [if_pos hK1] at h
                          by_cases hK2 : c2 = 123
                          · rw [if_pos hK2] at h
                            rcases hn2 : next s2 with ⟨c3, s3⟩
                            rw [hn2] at h
                            dsimp only at h
                            have ns2 := next_spec full s2 hInv2
                            rw [hn2] at ns2
                            simp only [finishTok, Option.some_inj, Prod.mk.injEq] at h
                            obtain ⟨ht, hs⟩ := h
                            subst ht; subst hs
                            exact finishTok_out full IDENT c3 s s3 ns2.inv
                              (scanEv_trans hEv2 (evolves_scanEv ns2.evol))
                              (ns2.evol.2.2.2.2.2.2.2.1.mpr h02) (by decide)
                          · rw [if_neg hK2] at h
                            simp only [finishTok, Option.some_inj, Prod.mk.injEq] at h
                            obtain ⟨ht, hs⟩ := h
                            subst ht; subst hs
                            exact finishTok_out full 35 c2 s s2 hInv2 hEv2 h02
                              (by decide)
                        · rw [if_neg hK1] at h
                          simp only [finishTok, Option.some_inj, Prod.mk.injEq] at h
                          obtain ⟨ht, hs⟩ := h
                          subst ht; subst hs
                          exact finishTok_out full 35 c2 s s2 hInv2 hEv2 h02 (by decide)
                      · rw [if_neg hK] at h
                        rcases hn : next s with ⟨c2, s2⟩
                        rw [hn] at h
                        dsimp only at h
                        have ns := next_spec full s hInv
                        rw [hn] at ns
                        simp only [finishTok, Option.some_inj, Prod.mk.injEq] at h
                        obtain ⟨ht, hs⟩ := h
                        subst ht; subst hs
                        exact finishTok_out full (c : Int) c2 s s2 ns.inv
                          (evolves_scanEv ns.evol)
                          (ns.evol.2.2.2.2.2.2.2.1.mpr h0) (by exact_mod_cast hc)

/-- Starting a token (lines 724-736) establishes the token-accumulator clause
of the invariant with an empty accumulator, records a nonnegative token-start
position, and leaves the bookkeeping untouched. -/
theorem startToken_out (full : List Nat) (s : Scanner) (h : Inv full s) :
    Inv full (startToken s) ∧ 0 ≤ (startToken s).tokPos ∧ ScanEv s (startToken s) := by
  obtain ⟨⟨h1, h2, h3, h4, h5, h6, h7, h8⟩, h9, h10⟩ := h
  unfold startToken
  dsimp only
  have htn : ((s.srcPos - s.lastCharLen : Nat) : Int).toNat = s.srcPos - s.lastCharLen :=
    Int.toNat_natCast _
  refine ⟨⟨⟨h1, h2, h3, h4, h5, h6, h7, ?_⟩, h9, ?_⟩, ?_, ?_⟩
  · intro _
    dsimp only
    rw [htn]
    refine ⟨by omega, ?_, ?_⟩
    · split_ifs <;> dsimp only <;> omega
    · split_ifs <;> dsimp only <;> exact (extractL_self full _).symm
  · intro _
    dsimp only
    rw [htn]
    omega
  · dsimp only
    exact Int.natCast_nonneg _
  · refine ⟨?_, ?_, ?_, rfl, rfl⟩ <;> simp only [msize, consumed, posOff] <;> omega

/-- The dispatch terminates whenever the fuel exceeds the remaining input by
the small per-scanner margin, and the redo continuation terminates on states
the comment skipper can reach. -/
theorem dispatch_suff (P : UProps) (full : List Nat) (fuel : Nat)
    (redo : Scanner → Option (Token × Scanner)) (c : Nat) (s : Scanner)
    (hInv : Inv full s)
    (hP : P.alpha 0xFFFF = false ∧ P.numeric 0xFFFF = false)
    (hf : msize s + 4 ≤ fuel)
    (hredo : ∀ sr, Inv full sr →
      (msize sr + 5 ≤ fuel ∨ (sr.ch = EOF ∧ 1 ≤ fuel)) → (redo sr).isSome) :
    (dispatch P fuel redo c s).isSome := by
  unfold dispatch
  by_cases hA : isIdentRuneDefault P c 0 = true
  · rw [if_pos hA]
    by_cases hA1 : s.mode &&& SCAN_IDENTS ≠ 0
    · rw [if_pos hA1]
      rcases hsi : scanIdentifier P fuel s with _ | ⟨c2, s2⟩
      · have := scanIdentifier_suff P full fuel hP hInv (by omega)
        rw [hsi] at this
        simp at this
      · simp
    · rw [if_neg hA1]
      rcases hn : next s with ⟨c2, s2⟩
      simp
  · rw [if_neg hA]
    by_cases hB : isDecimal c = true
    · rw [if_pos hB]
      by_cases hB1 : s.mode &&& (SCAN_INTS ||| SCAN_FLOATS) ≠ 0
      · rw [if_pos hB1]
        rcases hsn : scanNumber fuel c false false s with _ | ⟨tk, c2, s2⟩
        · have := scanNumber_suff full fuel c false false hInv (by omega)
          rw [hsn] at this
          simp at this
        · simp
      · rw [if_neg hB1]
        rcases hn : next s with ⟨c2, s2⟩
        simp
    · rw [if_neg hB]
      by_cases hC : c = 45
      · rw [if_pos hC]
        rcases hn : next s with ⟨c2, s2⟩
        dsimp only
        have ns := next_spec full s hInv
        rw [hn] at ns
        have hInv2 : Inv full s2 := ns.inv
        have hle2 : msize s2 ≤ msize s := ns.evol.1
        by_cases hC1 : isIdentRuneDefault P c2 0 = true
        · rw [if_pos hC1]
          by_cases hC1a : s2.mode &&& SCAN_IDENTS ≠ 0
          · rw [if_pos hC1a]
            rcases hsi : scanIdentifier P fuel s2 with _ | ⟨c3, s3⟩
            · have := scanIdentifier_suff P full fuel hP hInv2 (by omega)
              rw [hsi] at this
              simp at this
            · simp
          · rw [if_neg hC1a]; simp
        · rw [if_neg hC1]
          by_cases hC2 : isDecimal c2 = true
          · rw [if_pos hC2]
            by_cases hC2a : s2.mode &&& (SCAN_INTS ||| SCAN_FLOATS) ≠ 0
            · rw [if_pos hC2a]
              rcases hsn : scanNumber fuel c2 false true s2 with _ | ⟨tk, c3, s3⟩
              · have := scanNumber_suff full fuel c2 false true hInv2 (by omega)
                rw [hsn] at this
                simp at this
              · simp
            · rw [if_neg hC2a]; simp
          · rw [if_neg hC2]
            by_cases hC3 : s2.mode &&& SCAN_IDENTS ≠ 0
            · rw [if_pos hC3]; simp
            · rw [if_neg hC3]; simp
      · rw [if_neg hC]
        by_cases hD : c = 0xFFFF
        · rw [if_pos hD]; simp
        · rw [if_neg hD]
          by_cases hE : c = 34
          · rw [if_pos hE]
            by_cases hE1 : s.mode &&& SCAN_STRINGS ≠ 0
            · rw [if_pos hE1]
              rcases hss : scanString fuel 34 s with _ | ⟨r2, s2⟩
              · have := scanString_suff full fuel hInv (by omega)
                rw [hss] at this
                simp at this
              · dsimp only
                rcases hn : next s2 with ⟨c2, s3⟩
                simp
            · rw [if_neg hE1]
              rcases hn : next s with ⟨c2, s2⟩
              simp
          · rw [if_neg hE]
            by_cases hF : c = 58
            · rw [if_pos hF]
              by_cases hF1 : s.mode &&& SCAN_KEYWORDS ≠ 0
              · rw [if_pos hF1]
                rcases hsi : scanIdentifier P fuel s with _ | ⟨c2, s2⟩
                · have := scanIdentifier_suff P full fuel hP hInv (by omega)
                  rw [hsi] at this
                  simp at this
                · simp
              · rw [if_neg hF1]
                rcases hn : next s with ⟨c2, s2⟩
                simp
            · rw [if_neg hF]
              by_cases hG : c = 46
              · rw [if_pos hG]
                rcases hn : next s with ⟨c2, s2⟩
                dsimp only
                have ns := next_spec full s hInv
                rw [hn] at ns
                have hInv2 : Inv full s2 := ns.inv
                have hle2 : msize s2 ≤ msize s := ns.evol.1
                by_cases hG1 : isDecimal c2 ∧ s2.mode &&& SCAN_FLOATS ≠ 0
                · rw [if_pos hG1]
                  rcases hsn : scanNumber fuel c2 true false s2 with _ | ⟨tk, c3, s3⟩
                  · have := scanNumber_suff full fuel c2 true false hInv2 (by omega)
                    rw [hsn] at this
                    simp at this
                  · simp
                · rw [if_neg hG1]; simp
              · rw [if_neg hG]
                by_cases hH : c = 59
                · rw [if_pos hH]
                  rcases hn : next s with ⟨c2, s2⟩
                  dsimp only
                  have ns := next_spec full s hInv
                  rw [hn] at ns
                  have hInv2 : Inv full s2 := ns.inv
                  have hle2 : msize s2 ≤ msize s := ns.evol.1
                  by_cases hH1 : s2.mode &&& SCAN_COMMENTS ≠ 0
                  · rw [if_pos hH1]
                    by_cases hH2 : s2.mode &&& SKIP_COMMENTS ≠ 0
                    · rw [if_pos hH2]
                      have hInvm : Inv full { s2 with tokPos := -1 } :=
                        inv_clear_tokPos hInv2
                      have hmm : msize { s2 with tokPos := -1 } = msize s2 := rfl
                      rcases hsc : scanComment fuel c2 { s2 with tokPos := -1 }
                        with _ | ⟨c3, s3⟩
                      · have := scanComment_suff full fuel c2 hInvm (by omega)
                        rw [hsc] at this
                        simp at this
                      · dsimp only
                        obtain ⟨hInv3, hEv3, hprog⟩ := scanComment_spec full hInvm hsc
                        have hInvr : Inv full { s3 with ch := charToToken c3 } :=
                          inv_set_ch _ hInv3
                        apply hredo _ hInvr
                        by_cases hc3 : c3 = 0xFFFF
                        · refine Or.inr ⟨?_, by omega⟩
                          show charToToken c3 = EOF
                          rw [charToToken, if_pos hc3]
                        · left
                          have hmr : msize { s3 with ch := charToToken c3 } = msize s3 :=
                            rfl
                          rcases hprog hc3 with hlt | ⟨hcc, hss⟩
                          · omega
                          · have hst : msize s2 < msize s := ns.strict (hcc ▸ hc3)
                            have hms : msize s3 = msize s2 := by rw [hss]; exact hmm
                            omega
                    · rw [if_neg hH2]
                      rcases hsc : scanComment fuel c2 s2 with _ | ⟨c3, s3⟩
                      · have := scanComment_suff full fuel c2 hInv2 (by omega)
                        rw [hsc] at this
                        simp at this
                      · simp
                  · rw [if_neg hH1]; simp
                · rw [if_neg hH]
                  by_cases hI : c = 172
                  · rw [if_pos hI]
                    by_cases hI1 : s.mode &&& SCAN_RAW_STRINGS ≠ 0
                    · rw [if_pos hI1]
                      rcases hsr : scanRawString fuel s with _ | ⟨c2, s2⟩
                      · have := scanRawString_suff full fuel hInv (by omega)
                        rw [hsr] at this
                        simp at this
                      · simp
                    · rw [if_neg hI1]
                      rcases hn : next s with ⟨c2, s2⟩
                      simp
                  · rw [if_neg hI]
                    by_cases hJ : c = 126
                    · rw [if_pos hJ]
                      rcases hn : next s with ⟨c2, s2⟩
                      dsimp only
                      by_cases hJ1 : s2.mode &&& SCAN_IDENTS ≠ 0
                      · rw [if_pos hJ1]
                        by_cases hJ2 : c2 = 64
                        · rw [if_pos hJ2]
                          rcases hn2 : next s2 with ⟨c3, s3⟩
                          simp
                        · rw [if_neg hJ2]; simp
                      · rw [if_neg hJ1]; simp
                    · rw [if_neg hJ]
                      by_cases hK : c = 35
                      · rw [if_pos hK]
                        rcases hn : next s with ⟨c2, s2⟩
                        dsimp only
                        by_cases hK1 : s2.mode &&& SCAN_IDENTS ≠ 0
                        · rw [if_pos hK1]
                          by_cases hK2 : c2 = 123
                          · rw [if_pos hK2]
                            rcases hn2 : next s2 with ⟨c3, s3⟩
                            simp
                          · rw [if_neg hK2]; simp
                        · rw [if_neg hK1]; simp
                      · rw [if_neg hK]
                        rcases hn : next s with ⟨c2, s2⟩
                        simp

/-- `Scanner::scan` master lemma: a produced token keeps the invariant,
evolves the bookkeeping monotonically, is never the in-band `u16` sentinel,
and — when it is not `EOF` — its recorded text is exactly the source bytes
between its start offset and the current `pos()` offset. -/
theorem scanFuel_spec (P : UProps) (full : List Nat) :
    ∀ fuel s t s', Inv full s → scanFuel P fuel s = some (t, s') →
      Inv full s' ∧ ScanEv s s' ∧ t ≠ (0xFFFF : Int) ∧ RT full t s' := by
  intro fuel
  induction fuel with
  | zero => intro s t s' _ h; simp [scanFuel] at h
  | succ f ih =>
    intro s t s' hInv h
    rw [scanFuel] at h
    rcases hp : peek s with ⟨ch0, s0⟩
    rw [hp] at h
    dsimp only at h
    obtain ⟨hInv0, hEv0, hpos0, htp0, hch0⟩ := peek_spec full s hInv
    rw [hp] at hInv0 hEv0 hpos0 htp0 hch0
    dsimp only at hInv0 hEv0 hpos0 htp0 hch0
    by_cases hEOF : ch0 = EOF
    · rw [if_pos hEOF] at h
      simp only [Option.some_inj, Prod.mk.injEq] at h
      obtain ⟨ht, hs⟩ := h
      subst ht
      subst hs
      exact ⟨hInv0, hEv0, by decide, fun hne => absurd rfl hne⟩
    · rw [if_neg hEOF] at h
      by_cases hFF : fromU32orFFFF ch0.toNat = 0xFFFF
      · rw [if_pos hFF] at h
        simp only [Option.some_inj, Prod.mk.injEq] at h
        obtain ⟨ht, hs⟩ := h
        subst ht
        subst hs
        exact ⟨hInv0, hEv0, by decide, fun hne => absurd rfl hne⟩
      · rw [if_neg hFF] at h
        have hInv1 : Inv full
            { s0 with tokPos := -1, position := { s0.position with line := 0 } } := by
          obtain ⟨⟨h1, h2, h3, h4, h5, h6, h7, h8⟩, h9, h10⟩ := hInv0
          refine ⟨⟨h1, h2, h3, h4, h5, h6, h7, ?_⟩, h9, ?_⟩ <;> intro h0x <;>
            dsimp at h0x <;> omega
        have hEv1 : ScanEv s0
            { s0 with tokPos := -1, position := { s0.position with line := 0 } } := by
          refine ⟨?_, ?_, ?_, rfl, rfl⟩ <;> simp only [msize, consumed, posOff] <;> omega
        rcases hw : wsLoop f (fromU32orFFFF ch0.toNat)
            { s0 with tokPos := -1, position := { s0.position with line := 0 } }
          with _ | r
        · rw [hw] at h
          simp at h
        · rw [hw] at h
          obtain ⟨hwl, hwr⟩ := wsLoop_spec full f (fromU32orFFFF ch0.toNat) _ r hInv1 hw
          rcases r with s2 | ⟨c2, s2⟩
          · dsimp only at h
            simp only [Option.some_inj, Prod.mk.injEq] at h
            obtain ⟨ht, hs⟩ := h
            subst ht
            subst hs
            obtain ⟨hInv2, hEv2⟩ := hwl s2 rfl
            exact ⟨hInv2, scanEv_trans hEv0 (scanEv_trans hEv1 (evolves_scanEv hEv2)),
              by decide, fun hne => absurd rfl hne⟩
          · dsimp only at h
            obtain ⟨hInv2, hEv2, hcc⟩ := hwr c2 s2 rfl
            have hc2 : c2 ≠ 0xFFFF := hcc hFF
            obtain ⟨hInvT, h0T, hEvT⟩ := startToken_out full s2 hInv2
            obtain ⟨hi, he, hne, hrt⟩ := dispatch_spec P full f (scanFuel P f) c2
              (startToken s2) hInvT h0T hc2 ih t s' h
            exact ⟨hi, scanEv_trans hEv0 (scanEv_trans hEv1 (scanEv_trans
              (evolves_scanEv hEv2) (scanEv_trans hEvT he))), hne, hrt⟩

/-- `Scanner::scan` terminates: the fuel embedding yields a result whenever
the fuel exceeds the remaining input by a small margin (or the lookahead is
already the cached `EOF`). -/
theorem scanFuel_suff (P : UProps) (full : List Nat)
    (hP : P.alpha 0xFFFF = false ∧ P.numeric 0xFFFF = false) :
    ∀ fuel s, Inv full s → (msize s + 5 ≤ fuel ∨ (s.ch = EOF ∧ 1 ≤ fuel)) →
      (scanFuel P fuel s).isSome := by
  intro fuel
  induction fuel with
  | zero =>
    intro s _ hf
    exfalso
    rcases hf with hf | ⟨_, hf⟩ <;> omega
  | succ f ih =>
    intro s hInv hf
    rw [scanFuel]
    rcases hp : peek s with ⟨ch0, s0⟩
    dsimp only
    by_cases hEOF : ch0 = EOF
    · rw [if_pos hEOF]; simp
    · rw [if_neg hEOF]
      by_cases hFF : fromU32orFFFF ch0.toNat = 0xFFFF
      · rw [if_pos hFF]; simp
      · rw [if_neg hFF]
        have hfm : msize s + 5 ≤ f + 1 := by
          rcases hf with hf | ⟨hch, _⟩
          · exact hf
          · exfalso
            unfold peek at hp
            rw [if_neg (by rw [hch]; decide)] at hp
            simp only [Prod.mk.injEq] at hp
            exact hEOF (hp.1.symm.trans hch)
        obtain ⟨hInv0, hEv0, _, _, _⟩ := peek_spec full s hInv
        rw [hp] at hInv0 hEv0
        dsimp only at hInv0 hEv0
        have hle0 : msize s0 ≤ msize s := hEv0.1
        have hInv1 : Inv full
            { s0 with tokPos := -1, position := { s0.position with line := 0 } } := by
          obtain ⟨⟨h1, h2, h3, h4, h5, h6, h7, h8⟩, h9, h10⟩ := hInv0
          refine ⟨⟨h1, h2, h3, h4, h5, h6, h7, ?_⟩, h9, ?_⟩ <;> intro h0x <;>
            dsimp at h0x <;> omega
        have hm1 : msize
            { s0 with tokPos := -1, position := { s0.position with line := 0 } } =
              msize s0 := rfl
        rcases hw : wsLoop f (fromU32orFFFF ch0.toNat)
            { s0 with tokPos := -1, position := { s0.position with line := 0 } }
          with _ | r
        · have := wsLoop_suff full f (fromU32orFFFF ch0.toNat)
            { s0 with tokPos := -1, position := { s0.position with line := 0 } }
            hInv1 (by omega)
          rw [hw] at this
          simp at this
        · rcases r with s2 | ⟨c2, s2⟩
          · simp
          · dsimp only
            obtain ⟨hwl, hwr⟩ := wsLoop_spec full f (fromU32orFFFF ch0.toNat) _ _ hInv1 hw
            obtain ⟨hInv2, hEv2, hcc⟩ := hwr c2 s2 rfl
            obtain ⟨hInvT, h0T, hEvT⟩ := startToken_out full s2 hInv2
            have hmT : msize (startToken s2) = msize s2 := rfl
            have hle2 := hEv2.1
            exact dispatch_suff P full f (scanFuel P f) c2 (startToken s2) hInvT hP
              (by omega) ih

/-! ## Concrete-run harness

`demoProps` agrees with the Rust standard library's `char::is_alphabetic` and
`char::is_numeric` on every scalar value appearing in the concrete runs below
(ASCII letters and digits, U+672C and U+8A9E which are alphabetic, and U+FEFF,
U+FFFD, U+FFFF, punctuation and control bytes which are neither). -/
def demoProps : UProps :=
  ⟨fun c => decide ((65 ≤ c ∧ c ≤ 90) ∨ (97 ≤ c ∧ c ≤ 122) ∨ c = 0x672C ∨ c = 0x8A9E),
   fun c => decide (48 ≤ c ∧ c ≤ 57)⟩

/-- Run `scan` repeatedly, recording each produced token with its raw text
and its start position (line, column). -/
def runScan (P : UProps) (fuel : Nat) : Nat → Scanner → List (Token × List Nat × Nat × Nat)
  | 0, _ => []
  | n + 1, s =>
    match scanFuel P fuel s with
    | none => []
    | some (t, s') =>
      (t, tokenTextBytes s', s'.position.line, s'.position.column) :: runScan P fuel n s'

/-- The state after one `scan` call (total, with the input state as the
out-of-fuel default). -/
def scanStateD (P : UProps) (fuel : Nat) (s : Scanner) : Scanner :=
  ((scanFuel P fuel s).getD (EOF, s)).2

/-- A fresh scanner satisfies the invariant against its own source. -/
theorem initScanner_inv (src : List Nat) : Inv src (initScanner src) := by
  refine ⟨⟨?_, ?_, ?_, ?_, ?_, ?_, ?_, ?_⟩, ?_, ?_⟩
  · show (128 :: List.replicate BUF_LEN 0).length = BUF_LEN + 1
    simp
  · exact Nat.zero_le _
  · exact le_refl _
  · exact Nat.zero_le _
  · intro j hj
    exact absurd (show j < 0 from hj) (by omega)
  · exact (List.drop_zero src).symm
  · rfl
  · intro h0
    exact absurd (show (0 : Int) ≤ -1 from h0) (by decide)
  · exact le_refl _
  · intro h0
    exact absurd (show (0 : Int) ≤ -1 from h0) (by decide)

/-- `set_mode` does not disturb the invariant. -/
theorem setMode_inv {full : List Nat} {s : Scanner} (m : Nat) (h : Inv full s) :
    Inv full (setMode m s) := by
  obtain ⟨⟨h1, h2, h3, h4, h5, h6, h7, h8⟩, h9, h10⟩ := h
  exact ⟨⟨h1, h2, h3, h4, h5, h6, h7, h8⟩, h9, h10⟩

/-- `set_whitespace` does not disturb the invariant. -/
theorem setWhitespace_inv {full : List Nat} {s : Scanner} (w : Nat) (h : Inv full s) :
    Inv full (setWhitespace w s) := by
  obtain ⟨⟨h1, h2, h3, h4, h5, h6, h7, h8⟩, h9, h10⟩ := h
  exact ⟨⟨h1, h2, h3, h4, h5, h6, h7, h8⟩, h9, h10⟩

/-- One public operation on a scanner: a lookahead fill, a raw character
read, a (completed) `scan` call, or a reconfiguration. -/
def OpStep (P : UProps) (s s' : Scanner) : Prop :=
  s' = (peek s).2 ∨ s' = (nextChar s).2 ∨
  (∃ fuel t, scanFuel P fuel s = some (t, s')) ∨
  (∃ m, s' = setMode m s) ∨ (∃ w, s' = setWhitespace w s)

/-- Every public operation keeps the invariant and never decreases the
consumed offset or the reported position offset. -/
theorem opStep_mono (P : UProps) (full : List Nat) {s s' : Scanner}
    (hstep : OpStep P s s') (hInv : Inv full s) :
    Inv full s' ∧ consumed s ≤ consumed s' ∧ posOff s ≤ posOff s' := by
  rcases hstep with h | h | ⟨fuel, t, h⟩ | ⟨m, h⟩ | ⟨w, h⟩
  · obtain ⟨hi, he, _⟩ := peek_spec full s hInv
    subst h
    exact ⟨hi, he.2.1, he.2.2.1⟩
  · obtain ⟨hi, he⟩ := nextChar_spec full s hInv
    subst h
    exact ⟨hi, he.2.1, he.2.2.1⟩
  · obtain ⟨hi, he, _, _⟩ := scanFuel_spec P full fuel s t s' hInv h
    exact ⟨hi, he.2.1, he.2.2.1⟩
  · subst h
    exact ⟨setMode_inv m hInv, le_refl _, le_refl _⟩
  · subst h
    exact ⟨setWhitespace_inv w hInv, le_refl _, le_refl _⟩

/-! ## The claims -/

/-- C1 (amended): for every token produced by `scan()`, the RAW BYTES of the
token (`tok_pos`/`tok_end` accumulator plus buffer tail) are exactly the
source bytes from the token's start offset to its end offset (the current
`pos()` offset), including across buffer refills; `token_text()` returns the
`from_utf8_lossy` decoding of those bytes, which equals the exact source
substring only when that substring is valid UTF-8. -/
theorem claim1_roundtrip (P : UProps) (full : List Nat) (fuel : Nat) (s : Scanner)
    (t : Token) (s' : Scanner) (hInv : Inv full s)
    (h : scanFuel P fuel s = some (t, s')) (ht : t ≠ EOF) :
    tokenTextBytes s' = extractL full s'.position.offset (s'.srcBufOffset + s'.tokEnd) ∧
    s'.srcBufOffset + s'.tokEnd = posOff s' ∧
    tokenText s' =
      utf8Lossy (extractL full s'.position.offset (s'.srcBufOffset + s'.tokEnd)) := by
  obtain ⟨_, _, _, hrt⟩ := scanFuel_spec P full fuel s t s' hInv h
  obtain ⟨_, hbytes, hoff⟩ := hrt ht
  exact ⟨hbytes, hoff, by rw [tokenText, hbytes]⟩

/-- C1 witness: `claim1_roundtrip` at the one-byte source `"a"`. -/
theorem claim1_roundtrip_witness :
    Inv [97] (initScanner [97]) ∧
    scanFuel demoProps 20 (initScanner [97]) =
      some (IDENT, scanStateD demoProps 20 (initScanner [97])) ∧
    IDENT ≠ EOF ∧
    (tokenTextBytes (scanStateD demoProps 20 (initScanner [97])) =
      extractL [97] (scanStateD demoProps 20 (initScanner [97])).position.offset
        ((scanStateD demoProps 20 (initScanner [97])).srcBufOffset +
          (scanStateD demoProps 20 (initScanner [97])).tokEnd) ∧
     (scanStateD demoProps 20 (initScanner [97])).srcBufOffset +
        (scanStateD demoProps 20 (initScanner [97])).tokEnd =
       posOff (scanStateD demoProps 20 (initScanner [97])) ∧
     tokenText (scanStateD demoProps 20 (initScanner [97])) =
       utf8Lossy (extractL [97]
         (scanStateD demoProps 20 (initScanner [97])).position.offset
         ((scanStateD demoProps 20 (initScanner [97])).srcBufOffset +
           (scanStateD demoProps 20 (initScanner [97])).tokEnd))) :=
  ⟨initScanner_inv [97], by decide, by decide,
   claim1_roundtrip demoProps [97] 20 (initScanner [97]) IDENT
     (scanStateD demoProps 20 (initScanner [97])) (initScanner_inv [97]) (by decide)
     (by decide)⟩

/-- C1 counterexample: on the single ill-formed byte `0xFF`, `scan()` produces
the replacement-character token and `token_text()` returns the replacement
bytes `EF BF BD`, not the exact source substring `FF`. -/
theorem claim1_counterexample :
    (scanFuel demoProps 20 (initScanner [255])).map
      (fun r => (r.1, tokenText r.2,
        extractL [255] r.2.position.offset (r.2.srcBufOffset + r.2.tokEnd))) =
      some (65533, [239, 191, 189], [255]) ∧
    ([239, 191, 189] : List Nat) ≠ [255] := by
  decide

/-- C2 (amended): `init(source)` installs the named preset `LISP_TOKENS` and
the default whitespace; the preset enables identifiers, floats, strings,
keywords, raw strings, comments and comment skipping, but NOT the
recognize-ints flag (`SCAN_INTS` is missing from `LISP_TOKENS`). -/
theorem claim2_mode_preset (src : List Nat) :
    (initScanner src).mode = LISP_TOKENS ∧
    (initScanner src).whitespace = LISP_WHITESPACE ∧
    (initScanner src).mode &&& SCAN_IDENTS ≠ 0 ∧
    (initScanner src).mode &&& SCAN_FLOATS ≠ 0 ∧
    (initScanner src).mode &&& SCAN_STRINGS ≠ 0 ∧
    (initScanner src).mode &&& SCAN_KEYWORDS ≠ 0 ∧
    (initScanner src).mode &&& SCAN_RAW_STRINGS ≠ 0 ∧
    (initScanner src).mode &&& SCAN_COMMENTS ≠ 0 ∧
    (initScanner src).mode &&& SKIP_COMMENTS ≠ 0 ∧
    (initScanner src).mode &&& SCAN_INTS = 0 :=
  ⟨rfl, rfl,
   (by decide : LISP_TOKENS &&& SCAN_IDENTS ≠ 0),
   (by decide : LISP_TOKENS &&& SCAN_FLOATS ≠ 0),
   (by decide : LISP_TOKENS &&& SCAN_STRINGS ≠ 0),
   (by decide : LISP_TOKENS &&& SCAN_KEYWORDS ≠ 0),
   (by decide : LISP_TOKENS &&& SCAN_RAW_STRINGS ≠ 0),
   (by decide : LISP_TOKENS &&& SCAN_COMMENTS ≠ 0),
   (by decide : LISP_TOKENS &&& SKIP_COMMENTS ≠ 0),
   (by decide : LISP_TOKENS &&& SCAN_INTS = 0)⟩

/-- C2 counterexample: the preset a fresh scanner is initialized with does
not have the recognize-ints category enabled. -/
theorem claim2_counterexample :
    (initScanner []).mode &&& SCAN_INTS = 0 ∧ SCAN_INTS ≠ 0 := by
  decide

/-- C3 (amended): when a dispatch category's mode flag is off, the
identifier-start and decimal-digit categories degrade to the Literal-Scalar
token for that one scalar, consuming exactly it and caching the immediately
following scalar as the lookahead — but the two hyphen sub-branches do NOT:
they return the hyphen token after having consumed the following scalar as
well, and leave the lookahead cache stale (`self.ch` is not updated). -/
theorem claim3_mode_off (P : UProps) (fuel : Nat)
    (redo : Scanner → Option (Token × Scanner)) (c : Nat) (s : Scanner) :
    (isIdentRuneDefault P c 0 = true → s.mode &&& SCAN_IDENTS = 0 →
      dispatch P fuel redo c s = some ((c : Int),
        { (next s).2 with
          ch := charToToken (next s).1
          tokEnd := (next s).2.srcPos - (next s).2.lastCharLen })) ∧
    (isIdentRuneDefault P c 0 = false → isDecimal c = true →
      s.mode &&& (SCAN_INTS ||| SCAN_FLOATS) = 0 →
      dispatch P fuel redo c s = some ((c : Int),
        { (next s).2 with
          ch := charToToken (next s).1
          tokEnd := (next s).2.srcPos - (next s).2.lastCharLen })) ∧
    (c = 45 → isIdentRuneDefault P 45 0 = false →
      isIdentRuneDefault P (next s).1 0 = true →
      (next s).2.mode &&& SCAN_IDENTS = 0 →
      dispatch P fuel redo c s = some (45,
        { (next s).2 with
          tokEnd := (next s).2.srcPos - (next s).2.lastCharLen })) ∧
    (c = 45 → isIdentRuneDefault P 45 0 = false →
      isIdentRuneDefault P (next s).1 0 = false → isDecimal (next s).1 = true →
      (next s).2.mode &&& (SCAN_INTS ||| SCAN_FLOATS) = 0 →
      dispatch P fuel redo c s = some (45,
        { (next s).2 with
          tokEnd := (next s).2.srcPos - (next s).2.lastCharLen })) := by
  refine ⟨?_, ?_, ?_, ?_⟩
  · intro h1 h2
    unfold dispatch
    rw [if_pos h1, if_neg (by simp [h2])]
    rcases hn : next s with ⟨c2, s2⟩
    rfl
  · intro h1 h2 h3
    unfold dispatch
    rw [if_neg (by simp [h1]), if_pos h2, if_neg (by simp [h3])]
    rcases hn : next s with ⟨c2, s2⟩
    rfl
  · intro hc hni h1 h2
    subst hc
    unfold dispatch
    rw [if_neg (by simp [hni]), if_neg (by simp [(by decide : isDecimal 45 = false)]),
      if_pos rfl]
    rcases hn : next s with ⟨c2, s2⟩
    rw [hn] at h1 h2
    dsimp only at h1 h2
    dsimp only
    rw [if_pos h1, if_neg (by simp [h2])]
    rfl
  · intro hc hni h1 h2 h3
    subst hc
    unfold dispatch
    rw [if_neg (by simp [hni]), if_neg (by simp [(by decide : isDecimal 45 = false)]),
      if_pos rfl]
    rcases hn : next s with ⟨c2, s2⟩
    rw [hn] at h1 h2 h3
    dsimp only at h1 h2 h3
    dsimp only
    rw [if_neg (by simp [h1]), if_pos h2, if_neg (by simp [h3])]
    rfl

/-- C3 witness: `claim3_mode_off` (third conjunct) at the hyphen with an
identifier-start lookahead and every mode flag off. -/
theorem claim3_mode_off_witness :
    (45 : Nat) = 45 ∧
    isIdentRuneDefault demoProps 45 0 = false ∧
    isIdentRuneDefault demoProps (next (setMode 0 (initScanner [97]))).1 0 = true ∧
    (next (setMode 0 (initScanner [97]))).2.mode &&& SCAN_IDENTS = 0 ∧
    dispatch demoProps 20 (fun _ => none) 45 (setMode 0 (initScanner [97])) =
      some (45,
        { (next (setMode 0 (initScanner [97]))).2 with
          tokEnd := (next (setMode 0 (initScanner [97]))).2.srcPos -
            (next (setMode 0 (initScanner [97]))).2.lastCharLen }) :=
  ⟨rfl, by decide, by decide, by decide,
   (claim3_mode_off demoProps 20 (fun _ => none) 45
     (setMode 0 (initScanner [97]))).2.2.1 rfl (by decide) (by decide) (by decide)⟩

/-- C3 counterexample: on `"-a"` with every mode flag off (so the claim
predicts the Literal-Scalar tokens `'-'` then `'a'`), the second `scan`
returns the hyphen token again — carrying the text `"a"` — because the
hyphen dispatch consumed the following scalar but left the lookahead cache
stale. -/
theorem claim3_counterexample :
    runScan demoProps 20 3 (setMode 0 (initScanner [45, 97])) =
      [(45, [45], 1, 1), (45, [97], 1, 2), (EOF, [97], 1, 2)] ∧
    (45 : Token) ≠ 97 := by
  decide

/-- C4 (amended): with the default identifier predicate (under which the
sentinel scalar U+FFFF is neither alphabetic nor numeric), every `scan()`
call on a state satisfying the invariant terminates with a token once the
fuel exceeds the remaining input by the per-call margin: no input, however
malformed, makes the call fail or diverge.  (The unamended clause "only
end-of-stream ends the token sequence" is refuted by `claim4_counterexample`:
a well-formed in-band U+FFFF also ends it.) -/
theorem claim4_terminates (P : UProps) (full : List Nat) (fuel : Nat) (s : Scanner)
    (hP : P.alpha 0xFFFF = false ∧ P.numeric 0xFFFF = false)
    (hInv : Inv full s) (hf : msize s + 5 ≤ fuel) :
    (scanFuel P fuel s).isSome :=
  scanFuel_suff P full hP fuel s hInv (Or.inl hf)

/-- C4 witness: `claim4_terminates` on the ill-formed one-byte source
`0xFF`. -/
theorem claim4_terminates_witness :
    (demoProps.alpha 0xFFFF = false ∧ demoProps.numeric 0xFFFF = false) ∧
    Inv [255] (initScanner [255]) ∧
    msize (initScanner [255]) + 5 ≤ 6 ∧
    (scanFuel demoProps 6 (initScanner [255])).isSome :=
  ⟨by decide, initScanner_inv [255], by decide,
   claim4_terminates demoProps [255] 6 (initScanner [255]) (by decide)
     (initScanner_inv [255]) (by decide)⟩

/-- C4 counterexample: on `"a"` followed by a well-formed in-band U+FFFF and
then `"b"`, the second `scan` call reports `EOF` with one source byte never
consumed — the token sequence ends before end-of-stream. -/
theorem claim4_counterexample :
    ((scanFuel demoProps 20 (initScanner [97, 0xEF, 0xBF, 0xBF, 98])).bind
      (fun r => scanFuel demoProps 20 r.2)).map (fun r => (r.1, consumed r.2)) =
      some (EOF, 4) ∧
    4 < ([97, 0xEF, 0xBF, 0xBF, 98] : List Nat).length := by
  decide

/-- C5: on the spec's own example `"abc\n本語\n\nx"` with whitespace and
identifiers disabled, the first five tokens are the literal scalars
`a b c \n 本` with start positions `(1,1) (1,2) (1,3) (1,4)` and `(2,1)`:
mid-line tokens report the current (line, column), and the newline token —
scanned when the column has just been reset to 0 — reports the previous line
number with the previous line's length as the column. -/
theorem claim5_positions :
    runScan demoProps 40 5 (setWhitespace 0 (setMode 0 (initScanner
        [97, 98, 99, 10, 230, 156, 172, 232, 170, 158, 10, 10, 120]))) =
      [(97, [97], 1, 1), (98, [98], 1, 2), (99, [99], 1, 3), (10, [10], 1, 4),
       (26412, [230, 156, 172], 2, 1)] := by
  decide

/-- C6: inside a quoted string, `\x00` scans with no error as part of a
`String` token, while `\xG` (an invalid hex digit where two are required)
raises exactly one "invalid char escape" error and still yields a `String`
token. -/
theorem claim6_escapes :
    (scanFuel demoProps 40 (initScanner [34, 92, 120, 48, 48, 34])).map
      (fun r => (r.1, r.2.errors)) = some (STRING, []) ∧
    (scanFuel demoProps 40 (initScanner [34, 92, 120, 71, 34])).map
      (fun r => (r.1, r.2.errors)) = some (STRING, [msgEscape]) := by
  decide

/-- C7 (amended): `scan_number` appends exactly one mantissa "has no digits"
diagnostic when the digit accounting recorded zero real digits and the
literal is not negative; a negative literal with zero real digits appends no
such diagnostic, and its token degrades to the hyphen `'-'` — unless a
following exponent head upgrades it to `FLOAT` (so the degradation is not
always to the Literal-Scalar hyphen or an identifier). -/
theorem claim7_no_digits (full : List Nat) {fuel c0 : Nat} {sd neg : Bool}
    {s : Scanner} {base pfx ds : Nat} {inv : Option Nat} {sd2 : Bool} {c1 : Nat}
    {s1 : Scanner} {ds2 : Nat} {inv2 : Option Nat} {tk : Token} {cf : Nat}
    {sf : Scanner} {tok : Token} {c2 : Nat} {s2 : Scanner}
    (hInv : Inv full s)
    (h1 : snIntPart fuel c0 sd s = some (base, pfx, ds, inv, sd2, c1, s1))
    (h2 : snFracPart fuel base pfx ds inv sd2 c1 s1 = some (ds2, inv2, tk, cf, sf))
    (h : scanNumber fuel c0 sd neg s = some (tok, c2, s2)) :
    countND s2.errors =
      countND s.errors + (if ds2 &&& 1 = 0 ∧ neg = false then 1 else 0) ∧
    (neg = true → countND s2.errors = countND s.errors ∧
      (ds2 &&& 1 = 0 → tok = 45 ∨ tok = FLOAT)) := by
  unfold scanNumber at h
  rw [h1] at h
  dsimp only at h
  rw [h2] at h
  dsimp only at h
  obtain ⟨hInv1, hEv1, _⟩ := snIntPart_spec full hInv h1
  obtain ⟨hInv2, hEv2, _⟩ := snFracPart_spec full hInv1 h2
  have hc1 : countND s1.errors = countND s.errors := evolves_countND hEv1 (fun _ hm => hm)
  have hc2 : countND sf.errors = countND s1.errors := evolves_countND hEv2 (fun _ hm => hm)
  rcases h3 : snNoDigits ds2 neg pfx tk sf with ⟨tk3, s3⟩
  rw [h3] at h
  dsimp only at h
  have hnd : Inv full s3 ∧
      countND s3.errors =
        countND sf.errors + (if ds2 &&& 1 = 0 ∧ neg = false then 1 else 0) ∧
      (neg = true → ds2 &&& 1 = 0 → tk3 = 45) := by
    unfold snNoDigits at h3
    by_cases hd : ds2 &&& 1 = 0
    · rw [if_pos hd] at h3
      by_cases hneg : neg = true
      · rw [if_pos hneg] at h3
        simp only [Prod.mk.injEq] at h3
        obtain ⟨ht3, hs3⟩ := h3
        subst hs3
        refine ⟨hInv2, ?_, fun _ _ => ht3.symm⟩
        rw [if_neg (by simp [hneg])]
        omega
      · have hnegf : neg = false := by simp at hneg; exact hneg
        rw [if_neg hneg] at h3
        simp only [Prod.mk.injEq] at h3
        obtain ⟨ht3, hs3⟩ := h3
        subst hs3
        refine ⟨errorAt_inv _ hInv2, ?_, fun hn => absurd hn hneg⟩
        rw [if_pos ⟨hd, hnegf⟩]
        show countND (sf.errors ++ [msgNoDigits pfx]) = countND sf.errors + 1
        rw [countND_append, countND_single, if_pos (msgNoDigits_mem pfx)]
    · rw [if_neg hd] at h3
      simp only [Prod.mk.injEq] at h3
      obtain ⟨ht3, hs3⟩ := h3
      subst hs3
      refine ⟨hInv2, ?_, fun _ hdd => absurd hdd hd⟩
      rw [if_neg (fun hcon => absurd hcon.1 hd)]
      omega
  obtain ⟨hInv3, hcnt3, htk3⟩ := hnd
  rcases h4 : snExponent fuel pfx tk3 ds2 cf s3 with _ | ⟨tk4, ds4, c4, s4⟩
  · rw [h4] at h; simp at h
  rw [h4] at h
  dsimp only at h
  obtain ⟨hInv4, hEv4, htk4⟩ := snExponent_spec full hInv3 h4
  have hc4 : countND s4.errors = countND s3.errors := evolves_countND hEv4 (fun _ hm => hm)
  obtain ⟨hInv5, hEv5, htk5⟩ := snFinal_spec full tk4 inv2 pfx ds4 c4 hInv4
  rcases h5 : snFinal tk4 inv2 pfx ds4 c4 s4 with ⟨tk5, c5, s5⟩
  rw [h5] at h
  simp only [Option.some_inj, Prod.mk.injEq] at h
  obtain ⟨ht, hcx, hs⟩ := h
  rw [h5] at hEv5 htk5
  dsimp only at hEv5 htk5
  have hc5 : countND s5.errors = countND s4.errors := evolves_countND hEv5 (fun _ hm => hm)
  subst hs
  subst ht
  constructor
  · omega
  · intro hneg
    constructor
    · have hzero : (if ds2 &&& 1 = 0 ∧ neg = false then 1 else 0) = 0 := by
        rw [if_neg (by simp [hneg])]
      omega
    · intro hdd
      have h45 : tk3 = 45 := htk3 hneg hdd
      rcases htk4 with hf4 | hb4
      · right
        rw [htk5, hf4]
      · left
        rw [htk5, hb4, h45]

/-- C7 witness: `claim7_no_digits` on the non-negative no-digit literal
`"0x"` — the scan appends exactly one "has no digits" diagnostic. -/
theorem claim7_no_digits_witness :
    Inv [48, 120] (next (initScanner [48, 120])).2 ∧
    countND ((scanNumber 20 48 false false
        (next (initScanner [48, 120])).2).getD (0, 0, initScanner [])).2.2.errors =
      countND ((next (initScanner [48, 120])).2).errors + 1 :=
  ⟨(next_spec [48, 120] (initScanner [48, 120]) (initScanner_inv [48, 120])).inv,
   by
    have h1x : snIntPart 20 48 false (next (initScanner [48, 120])).2 =
        some (16, 120, 0, none, false, 65535,
          ((snIntPart 20 48 false (next (initScanner [48, 120])).2).getD
            (0, 0, 0, none, false, 0, initScanner [])).2.2.2.2.2.2) := by rfl
    have h2x : snFracPart 20 16 120 0 none false 65535
        (((snIntPart 20 48 false (next (initScanner [48, 120])).2).getD
          (0, 0, 0, none, false, 0, initScanner [])).2.2.2.2.2.2) =
        some (0, none, INT, 65535,
          ((snIntPart 20 48 false (next (initScanner [48, 120])).2).getD
            (0, 0, 0, none, false, 0, initScanner [])).2.2.2.2.2.2) := by rfl
    have hx : scanNumber 20 48 false false (next (initScanner [48, 120])).2 =
        some (INT, 65535,
          ((scanNumber 20 48 false false (next (initScanner [48, 120])).2).getD
            (0, 0, initScanner [])).2.2) := by rfl
    have hmain := (claim7_no_digits [48, 120]
      (next_spec [48, 120] (initScanner [48, 120]) (initScanner_inv [48, 120])).inv
      h1x h2x hx).1
    simpa using hmain⟩

/-- C7 counterexample: the negative zero-digit literal `"-0xp"` does not
degrade to the Literal-Scalar `'-'` (or an identifier): the exponent head
upgrades it to a `FLOAT` token (and an exponent diagnostic is raised). -/
theorem claim7_counterexample :
    (scanFuel demoProps 20 (initScanner [45, 48, 120, 112])).map
      (fun r => (r.1, r.2.errors)) = some (FLOAT, [msgExpNoDigits]) ∧
    FLOAT ≠ (45 : Token) ∧ FLOAT ≠ IDENT := by
  decide

/-- C8: a byte-order mark is discarded exactly when it is the very first
scalar decoded from a fresh instance: `"﻿hello"` scans to one `Ident`
token `"hello"` and then `EOF`, while a BOM after the first position is an
ordinary scalar (here the Literal-Scalar token U+FEFF between `')'` and
`'('`). -/
theorem claim8_bom :
    runScan demoProps 40 2 (initScanner
        [0xEF, 0xBB, 0xBF, 104, 101, 108, 108, 111]) =
      [(IDENT, [104, 101, 108, 108, 111], 1, 2),
       (EOF, [104, 101, 108, 108, 111], 1, 2)] ∧
    runScan demoProps 40 3 (setMode 0 (initScanner [41, 0xEF, 0xBB, 0xBF, 40])) =
      [(41, [41], 1, 1), (65279, [239, 187, 191], 1, 2), (40, [40], 1, 3)] := by
  decide

/-- C9: across any sequence of public operations (`peek`, `next_char`,
completed `scan` calls, `set_mode`, `set_whitespace`) from a state satisfying
the invariant, the consumed absolute byte offset and the offset `pos()`
exposes never decrease (and the invariant is maintained). -/
theorem claim9_monotone (P : UProps) (full : List Nat) (s s' : Scanner)
    (hchain : Relation.ReflTransGen (OpStep P) s s') (hInv : Inv full s) :
    Inv full s' ∧ consumed s ≤ consumed s' ∧ posOff s ≤ posOff s' ∧
    (posQuery s).offset ≤ (posQuery s').offset := by
  induction hchain with
  | refl => exact ⟨hInv, le_refl _, le_refl _, le_refl _⟩
  | tail _ hstep ih =>
    obtain ⟨hInvb, hcons, hoff, hq⟩ := ih
    obtain ⟨hInvc, hcons2, hoff2⟩ := opStep_mono P full hstep hInvb
    exact ⟨hInvc, le_trans hcons hcons2, le_trans hoff hoff2,
      le_trans hq hoff2⟩

/-- C9 witness: `claim9_monotone` along the one-step chain consisting of
the `scan` call that consumes the source `"a"`. -/
theorem claim9_monotone_witness :
    Inv [97] (initScanner [97]) ∧
    OpStep demoProps (initScanner [97]) (scanStateD demoProps 20 (initScanner [97])) ∧
    (Inv [97] (scanStateD demoProps 20 (initScanner [97])) ∧
     consumed (initScanner [97]) ≤ consumed (scanStateD demoProps 20 (initScanner [97])) ∧
     posOff (initScanner [97]) ≤ posOff (scanStateD demoProps 20 (initScanner [97])) ∧
     (posQuery (initScanner [97])).offset ≤
       (posQuery (scanStateD demoProps 20 (initScanner [97]))).offset) :=
  ⟨initScanner_inv [97],
   Or.inr (Or.inr (Or.inl ⟨20, IDENT, by rfl⟩)),
   claim9_monotone demoProps [97] (initScanner [97])
     (scanStateD demoProps 20 (initScanner [97]))
     (Relation.ReflTransGen.single (Or.inr (Or.inr (Or.inl ⟨20, IDENT, by rfl⟩))))
     (initScanner_inv [97])⟩

/-- C10 (amended): the in-band sentinel scalar never surfaces as a token:
no completed `scan()` call on an invariant-satisfying state returns the
Literal-Scalar token 65535 (U+FFFF), on any input and any configuration.
(The unamended clause "no bytes after it are ever tokenized" is refuted by
`claim10_counterexample`: a U+FFFF consumed inside a string literal does not
stop the token sequence.) -/
theorem claim10_sentinel (P : UProps) (full : List Nat) (fuel : Nat) (s : Scanner)
    (t : Token) (s' : Scanner) (hInv : Inv full s)
    (h : scanFuel P fuel s = some (t, s')) : t ≠ (0xFFFF : Int) :=
  (scanFuel_spec P full fuel s t s' hInv h).2.2.1

/-- C10 witness: `claim10_sentinel` on the source `"z"`. -/
theorem claim10_sentinel_witness :
    Inv [122] (initScanner [122]) ∧
    scanFuel demoProps 20 (initScanner [122]) =
      some (IDENT, scanStateD demoProps 20 (initScanner [122])) ∧
    IDENT ≠ (0xFFFF : Int) :=
  ⟨initScanner_inv [122], by rfl,
   claim10_sentinel demoProps [122] 20 (initScanner [122]) IDENT
     (scanStateD demoProps 20 (initScanner [122])) (initScanner_inv [122]) (by rfl)⟩

/-- C10 counterexample: with a well-formed in-band U+FFFF inside a quoted
string (`"\u{FFFF}a"`), `scan()` does not report `EOF` at the sentinel: the
following bytes are still tokenized (an `Ident` then another string
fragment), so the sentinel is not indistinguishable from stream
exhaustion. -/
theorem claim10_counterexample :
    runScan demoProps 20 4 (initScanner [34, 0xEF, 0xBF, 0xBF, 97, 34]) =
      [(STRING, [34, 239, 191, 191], 1, 1), (IDENT, [97], 1, 3),
       (STRING, [34], 1, 4), (EOF, [34], 1, 4)] ∧
    IDENT ≠ EOF := by
  decide

end ScannerRust
